import Mathlib

/-!
KDI_Menu: a menu navigator over rings of menu items

A shallow embedding of `KDI_Menu_item.c` / `KDI_Menu.c`.

* Every `KDI_Menu_item` lives in a heap, a list of cells; the address of a
  cell is its index. `KDI_GetMenu_item` (malloc followed by zeroing all the
  fields) appends a cell, so the address it returns is the old length of the
  heap. The code never tests the result of malloc; the allocation is taken to
  succeed.
* A `KDI_Menu_item*` is `Option Nat`, the null pointer being `none`.
  Reading or writing through a null (or never allocated) pointer has no
  defined behaviour in C: the embedded function returns `none` there.
* `type` and `level_menu` are bit-fields of width 4 of an enumeration without
  negative values: a store keeps the value modulo 16. `KDI_Menu.level` and
  `KDI_Menu.level_max` are full enum objects; the code never makes them wrap.
* Enumerations are passed as the numbers they are in C.
* The `void* data` of an item is represented by the object it addresses; no
  function of the module writes through it.
-/

namespace KDI

/-! ## Data model (KDI_Menu_item.h, KDI_Menu.h) -/

/-- The object a `void* data` addresses: nothing (null), a NUL-terminated
string, an `int`, or a `float` (kept as its bit pattern). -/
inductive VoidPtr where
  | null : VoidPtr
  | str (s : String) : VoidPtr
  | int (v : Int) : VoidPtr
  | float (bits : Nat) : VoidPtr
deriving DecidableEq, Repr

/-- A `KDI_Menu_item*`; `none` is the null pointer. -/
abbrev Ptr := Option Nat

/-- `enum KDI_Type_data`. -/
def TYPE_DATA_VOID : Nat := 0
def TYPE_DATA_CHAR : Nat := 1
def TYPE_DATA_INT : Nat := 2
def TYPE_DATA_FLOAT : Nat := 3

/-- `enum KDI_Menu_Level` (only the two enumerators the code names). -/
def MENU_LEVEL_DATA : Nat := 0
def MENU_LEVEL_1 : Nat := 1

/-- `enum KDI_Menu_Command`. -/
def MENU_COMMAND_NO : Nat := 0
def MENU_COMMAND_FORWARD : Nat := 1
def MENU_COMMAND_BACKWARD : Nat := 2
def MENU_COMMAND_UP : Nat := 3
def MENU_COMMAND_DOWN : Nat := 4

/-- `enum KDI_Menu_end`. -/
def MENU_NO_END : Nat := 0
def MENU_END : Nat := 1

/-- The four values of `KDI_Type_data`, the tags a caller may pass. -/
inductive KDI_Type_data where
  | VOID : KDI_Type_data
  | CHAR : KDI_Type_data
  | INT : KDI_Type_data
  | FLOAT : KDI_Type_data
deriving DecidableEq, Repr

/-- The number of an enumerator of `KDI_Type_data`. -/
def KDI_Type_data.toNat : KDI_Type_data → Nat
  | .VOID => TYPE_DATA_VOID
  | .CHAR => TYPE_DATA_CHAR
  | .INT => TYPE_DATA_INT
  | .FLOAT => TYPE_DATA_FLOAT

/-- `struct Menu_item`. `type` and `level_menu` are 4-bit fields. -/
structure KDI_Menu_item where
  data : VoidPtr
  type : Nat
  level_menu : Nat
  last_item : Ptr
  next_item : Ptr
  parent_item : Ptr
  child_item : Ptr
deriving DecidableEq, Repr

/-- The heap of menu items; the address of an item is its index. -/
abbrev Heap := List KDI_Menu_item

/-- `struct Menu`. A callback slot holds the identity of the registered
function, `none` while it is null. -/
structure KDI_Menu where
  Head : Ptr
  pointer : Ptr
  level : Nat
  level_max : Nat
  Command : Nat
  print_string : Option Nat
  print_int : Option Nat
  print_float : Option Nat
deriving DecidableEq, Repr

/-- The memory the module works on: the items and the `KDI_Menu` structure. -/
structure State where
  heap : Heap
  menu : KDI_Menu
deriving DecidableEq, Repr

/-- One call made through a callback slot: the function called and its argument. -/
inductive Call where
  | print_string (fn : Nat) (arg : VoidPtr) : Call
  | print_int (fn : Nat) (arg : Int) : Call
  | print_float (fn : Nat) (arg : Nat) : Call
deriving DecidableEq, Repr

/-! ## Memory access -/

/-- Value kept by a bit-field of width 4. -/
def bits4 (v : Nat) : Nat := v % 16

/-- Read `*p`. -/
def load (h : Heap) (p : Ptr) : Option KDI_Menu_item :=
  match p with
  | none => none
  | some a => h[a]?

/-- Write `*p = f (*p)`. -/
def store (h : Heap) (p : Ptr) (f : KDI_Menu_item → KDI_Menu_item) : Option Heap :=
  match p with
  | none => none
  | some a =>
    match h[a]? with
    | none => none
    | some x => some (h.set a (f x))

/-- Sequencing of two steps, the second running on the result of the first;
a step without defined behaviour ends the run. -/
@[noinline]
def andThen {α β : Type} (x : Option α) (k : α → Option β) : Option β :=
  match x with
  | none => none
  | some a => k a

/-! ## KDI_Menu_item.c -/

/-- `KDI_GetMenu_item`: a new item with every field zero. -/
def KDI_GetMenu_item (h : Heap) : Heap × Ptr :=
  (h ++ [{ data := VoidPtr.null, type := 0, level_menu := 0, last_item := none,
           next_item := none, parent_item := none, child_item := none }],
   some h.length)

def KDI_MenuItem_SetData (h : Heap) (item : Ptr) (data : VoidPtr) : Option Heap :=
  store h item (fun x => { x with data := data })

def KDI_MenuItem_GetData (h : Heap) (item : Ptr) : Option VoidPtr :=
  (load h item).map (fun x => x.data)

def KDI_MenuItem_SetTypeData (h : Heap) (item : Ptr) (type : Nat) : Option Heap :=
  store h item (fun x => { x with type := bits4 type })

def KDI_MenuItem_GetTypeData (h : Heap) (item : Ptr) : Option Nat :=
  (load h item).map (fun x => x.type)

def KDI_MenuItem_SetLevel (h : Heap) (item : Ptr) (level : Nat) : Option Heap :=
  store h item (fun x => { x with level_menu := bits4 level })

def KDI_MenuItem_GetLevel (h : Heap) (item : Ptr) : Option Nat :=
  (load h item).map (fun x => x.level_menu)

def KDI_MenuItem_SetLinkOnNextMenuItem (h : Heap) (item1 item2 : Ptr) : Option Heap :=
  store h item1 (fun x => { x with next_item := item2 })

def KDI_MenuItem_SetLinkOnLastMenuItem (h : Heap) (item1 item2 : Ptr) : Option Heap :=
  store h item1 (fun x => { x with last_item := item2 })

def KDI_MenuItem_SetLinkOnParentMenuItem (h : Heap) (item1 item2 : Ptr) : Option Heap :=
  store h item1 (fun x => { x with parent_item := item2 })

def KDI_MenuItem_SetLinkOnChildMenuItem (h : Heap) (item1 item2 : Ptr) : Option Heap :=
  store h item1 (fun x => { x with child_item := item2 })

def KDI_MenuItem_GetLinkOnNextMenuItem (h : Heap) (item1 : Ptr) : Option Ptr :=
  (load h item1).map (fun x => x.next_item)

def KDI_MenuItem_GetLinkOnLastMenuItem (h : Heap) (item1 : Ptr) : Option Ptr :=
  (load h item1).map (fun x => x.last_item)

def KDI_MenuItem_GetLinkOnParentMenuItem (h : Heap) (item1 : Ptr) : Option Ptr :=
  (load h item1).map (fun x => x.parent_item)

def KDI_MenuItem_GetLinkOnChildMenuItem (h : Heap) (item1 : Ptr) : Option Ptr :=
  (load h item1).map (fun x => x.child_item)

/-! ## KDI_Menu.c -/

/-- `menu->pointer->next_item`. -/
def pointer_next_item (h : Heap) (m : KDI_Menu) : Option Ptr :=
  (load h m.pointer).map (fun x => x.next_item)

/-- `menu->pointer->last_item`. -/
def pointer_last_item (h : Heap) (m : KDI_Menu) : Option Ptr :=
  (load h m.pointer).map (fun x => x.last_item)

/-- `menu->pointer->child_item`. -/
def pointer_child_item (h : Heap) (m : KDI_Menu) : Option Ptr :=
  (load h m.pointer).map (fun x => x.child_item)

/-- `menu->pointer->parent_item`. -/
def pointer_parent_item (h : Heap) (m : KDI_Menu) : Option Ptr :=
  (load h m.pointer).map (fun x => x.parent_item)

/-- `KDI_Menu_Handler`: the calls made through the callback slots. The
switch has the four cases 1, 2, 3, 0 and no default. -/
def KDI_Menu_Handler (s : State) : Option (List Call) :=
  andThen (load s.heap s.menu.pointer) fun item =>
  if item.type = TYPE_DATA_CHAR then
    andThen s.menu.print_string fun fn =>
    some [Call.print_string fn item.data]
  else if item.type = TYPE_DATA_INT then
    andThen s.menu.print_int fun fn =>
    match item.data with
    | VoidPtr.int v => some [Call.print_int fn v]
    | _ => none
  else if item.type = TYPE_DATA_FLOAT then
    andThen s.menu.print_float fun fn =>
    match item.data with
    | VoidPtr.float b => some [Call.print_float fn b]
    | _ => none
  else if item.type = TYPE_DATA_VOID then
    andThen s.menu.print_string fun fn =>
    some [Call.print_string fn (VoidPtr.str "E0  ")]
  else
    some []

/-- `KDI_Menu_Start`: `menu->pointer = menu->Head`. The navigator is written out
field by field; only `pointer` differs from the one given. -/
def KDI_Menu_Start (s : State) : Option State :=
  some { heap := s.heap,
         menu := { Head := s.menu.Head, pointer := s.menu.Head, level := s.menu.level,
                   level_max := s.menu.level_max, Command := s.menu.Command,
                   print_string := s.menu.print_string, print_int := s.menu.print_int,
                   print_float := s.menu.print_float } }

/-- `KDI_Menu_Init`. -/
def KDI_Menu_Init (s : State) (data : VoidPtr) (type : Nat) : Option State :=
  let a := KDI_GetMenu_item s.heap
  let m := { s.menu with pointer := a.2 }
  let m := { m with level := MENU_LEVEL_1 }
  let m := { m with level_max := MENU_LEVEL_1 }
  let m := { m with Head := m.pointer }
  andThen (KDI_MenuItem_SetLinkOnNextMenuItem a.1 m.pointer m.pointer) fun h1 =>
  andThen (KDI_MenuItem_SetLinkOnLastMenuItem h1 m.pointer m.pointer) fun h2 =>
  andThen (KDI_MenuItem_SetData h2 m.pointer data) fun h3 =>
  andThen (KDI_MenuItem_SetTypeData h3 m.pointer type) fun h4 =>
  andThen (KDI_MenuItem_SetLevel h4 m.pointer MENU_LEVEL_1) fun h5 =>
  some { heap := h5, menu := m }

/-- `KDI_Menu_Command_Forward`. -/
def KDI_Menu_Command_Forward (s : State) : Option State :=
  andThen (pointer_next_item s.heap s.menu) fun n =>
  some { s with menu := { s.menu with pointer := n } }

/-- `KDI_Menu_Command_Backward`. -/
def KDI_Menu_Command_Backward (s : State) : Option State :=
  andThen (pointer_last_item s.heap s.menu) fun l =>
  some { s with menu := { s.menu with pointer := l } }

/-- `KDI_Menu_Command_Down`. -/
def KDI_Menu_Command_Down (s : State) : Option State :=
  if s.menu.level < s.menu.level_max then
    if s.menu.level = MENU_LEVEL_DATA then some s
    else
      let m := { s.menu with level := s.menu.level + 1 }
      if m.level > m.level_max then
        some { s with menu := { m with level := m.level_max } }
      else
        andThen (pointer_child_item s.heap m) fun c =>
        some { s with menu := { m with pointer := c } }
  else
    andThen (pointer_child_item s.heap s.menu) fun c =>
    andThen (load s.heap c) fun child =>
    if child.level_menu = MENU_LEVEL_DATA then
      let m := { s.menu with pointer := c }
      some { s with menu := { m with level := MENU_LEVEL_DATA } }
    else some s

/-- `KDI_Menu_Command_Up`. The test `menu->level < 0` is made on the
decremented level as an integer. -/
def KDI_Menu_Command_Up (s : State) : Option State :=
  if s.menu.level > 1 then
    let m := { s.menu with level := s.menu.level - 1 }
    if (m.level : Int) < 0 then
      some { s with menu := { m with level := 1 } }
    else
      andThen (pointer_parent_item s.heap m) fun p =>
      some { s with menu := { m with pointer := p } }
  else if s.menu.level = MENU_LEVEL_DATA then
    andThen (pointer_parent_item s.heap s.menu) fun p =>
    let m := { s.menu with pointer := p }
    andThen (load s.heap m.pointer) fun q =>
    some { s with menu := { m with level := q.level_menu } }
  else some s

/-- `KDI_Menu_Drive`. -/
def KDI_Menu_Drive (s : State) (command : Nat) : Option State :=
  if command = MENU_COMMAND_NO then some s
  else if command = MENU_COMMAND_FORWARD then KDI_Menu_Command_Forward s
  else if command = MENU_COMMAND_BACKWARD then KDI_Menu_Command_Backward s
  else if command = MENU_COMMAND_UP then KDI_Menu_Command_Up s
  else if command = MENU_COMMAND_DOWN then KDI_Menu_Command_Down s
  else some s

/-- `KDI_Menu_Add_Next`. -/
def KDI_Menu_Add_Next (s : State) (data : VoidPtr) (type : Nat) (command : Nat) :
    Option State :=
  let m := s.menu
  andThen (KDI_MenuItem_GetLinkOnNextMenuItem s.heap m.pointer) fun head =>
  let a := KDI_GetMenu_item s.heap
  andThen (KDI_MenuItem_SetLinkOnNextMenuItem a.1 m.pointer a.2) fun h1 =>
  andThen (pointer_next_item h1 m) fun n1 =>
  andThen (KDI_MenuItem_SetLinkOnLastMenuItem h1 n1 m.pointer) fun h2 =>
  andThen (pointer_next_item h2 m) fun n2 =>
  andThen (KDI_MenuItem_SetLinkOnNextMenuItem h2 n2 head) fun h3 =>
  andThen (pointer_next_item h3 m) fun n3 =>
  andThen (KDI_MenuItem_SetLinkOnLastMenuItem h3 head n3) fun h4 =>
  andThen (pointer_next_item h4 m) fun n4 =>
  andThen (pointer_parent_item h4 m) fun p4 =>
  andThen (KDI_MenuItem_SetLinkOnParentMenuItem h4 n4 p4) fun h5 =>
  andThen (pointer_next_item h5 m) fun n5 =>
  andThen (KDI_MenuItem_SetData h5 n5 data) fun h6 =>
  andThen (pointer_next_item h6 m) fun n6 =>
  andThen (KDI_MenuItem_SetTypeData h6 n6 type) fun h7 =>
  andThen (pointer_next_item h7 m) fun n7 =>
  andThen (KDI_MenuItem_SetLevel h7 n7 m.level) fun h8 =>
  if command ≠ 0 then KDI_Menu_Drive { heap := h8, menu := m } command
  else some { heap := h8, menu := m }

/-- `KDI_Menu_Add_Child`. -/
def KDI_Menu_Add_Child (s : State) (data : VoidPtr) (type : Nat) (end_ : Nat)
    (command : Nat) : Option State :=
  let m := s.menu
  let a := KDI_GetMenu_item s.heap
  andThen (KDI_MenuItem_SetLinkOnChildMenuItem a.1 m.pointer a.2) fun h1 =>
  andThen (pointer_child_item h1 m) fun c1 =>
  andThen (KDI_MenuItem_SetData h1 c1 data) fun h2 =>
  andThen (pointer_child_item h2 m) fun c2 =>
  andThen (KDI_MenuItem_SetTypeData h2 c2 type) fun h3 =>
  andThen (pointer_child_item h3 m) fun c3 =>
  andThen (KDI_MenuItem_SetLinkOnNextMenuItem h3 c3 c3) fun h4 =>
  andThen (pointer_child_item h4 m) fun c4 =>
  andThen (KDI_MenuItem_SetLinkOnLastMenuItem h4 c4 c4) fun h5 =>
  andThen (pointer_child_item h5 m) fun c5 =>
  andThen (if end_ ≠ 0 then KDI_MenuItem_SetLevel h5 c5 MENU_LEVEL_DATA
           else KDI_MenuItem_SetLevel h5 c5 (m.level + 1)) fun h6 =>
  andThen (pointer_child_item h6 m) fun c6 =>
  andThen (KDI_MenuItem_SetLinkOnParentMenuItem h6 c6 m.pointer) fun h7 =>
  andThen (pointer_child_item h7 m) fun c7 =>
  andThen (KDI_MenuItem_GetLevel h7 c7) fun lvl =>
  andThen (if lvl > m.level_max then
             andThen (load h7 c7) fun child => some { m with level_max := child.level_menu }
           else some m) fun m1 =>
  if command ≠ 0 then KDI_Menu_Drive { heap := h7, menu := m1 } command
  else some { heap := h7, menu := m1 }

/-- `KDI_Menu_Set_print_char`. -/
def KDI_Menu_Set_print_char (s : State) (point : Option Nat) : State :=
  { s with menu := { s.menu with print_string := point } }

/-- `KDI_Menu_Set_print_int`. -/
def KDI_Menu_Set_print_int (s : State) (point : Option Nat) : State :=
  { s with menu := { s.menu with print_int := point } }

/-- `KDI_Menu_Set_print_float`. -/
def KDI_Menu_Set_print_float (s : State) (point : Option Nat) : State :=
  { s with menu := { s.menu with print_float := point } }

/-! ## Sequences of calls -/

/-- One call of the construction and navigation interface, with its arguments. -/
inductive Op where
  | Add_Next (data : VoidPtr) (type : Nat) (command : Nat) : Op
  | Add_Child (data : VoidPtr) (type : Nat) (end_ : Nat) (command : Nat) : Op
  | Start : Op
  | Drive (command : Nat) : Op
deriving DecidableEq, Repr

/-- Make one call. -/
def Op.call (s : State) : Op → Option State
  | Op.Add_Next d t c => KDI_Menu_Add_Next s d t c
  | Op.Add_Child d t e c => KDI_Menu_Add_Child s d t e c
  | Op.Start => KDI_Menu_Start s
  | Op.Drive c => KDI_Menu_Drive s c

/-- Make the calls of a list one after the other. -/
def callAll (s : State) : List Op → Option State
  | [] => some s
  | op :: ops => andThen (op.call s) fun s1 => callAll s1 ops

/-- `KDI_Menu_Init` followed by a list of calls. -/
def initThen (s0 : State) (data : VoidPtr) (type : Nat) (ops : List Op) : Option State :=
  andThen (KDI_Menu_Init s0 data type) fun s => callAll s ops

/-- The same call made `n` times in a row. -/
def repeatCall (f : State → Option State) : Nat → State → Option State
  | 0, s => some s
  | n + 1, s => andThen (f s) (repeatCall f n)

/-- An `Add_Next` call whose command is none, forward or backward. -/
def Op.isSiblingCall : Op → Bool
  | Op.Add_Next _ _ c => decide (c = MENU_COMMAND_NO ∨ c = MENU_COMMAND_FORWARD ∨
      c = MENU_COMMAND_BACKWARD)
  | _ => false

/-- A zero-filled `KDI_Menu` over an empty heap. -/
def zeroState : State :=
  { heap := [],
    menu := { Head := none, pointer := none, level := 0, level_max := 0, Command := 0,
              print_string := none, print_int := none, print_float := none } }

/-! ## Views of the heap used by the invariants -/

/-- The address in `next_item` of the item at `a`, when both exist. -/
def nextOf (h : Heap) (a : Nat) : Option Nat := (h[a]?).bind fun x => x.next_item

/-- The address in `last_item` of the item at `a`, when both exist. -/
def prevOf (h : Heap) (a : Nat) : Option Nat := (h[a]?).bind fun x => x.last_item

/-- The address in `child_item` of the item at `a`, when both exist. -/
def childOf (h : Heap) (a : Nat) : Option Nat := (h[a]?).bind fun x => x.child_item

/-- The address in `parent_item` of the item at `a`, when both exist. -/
def parentOf (h : Heap) (a : Nat) : Option Nat := (h[a]?).bind fun x => x.parent_item

/-- The list `l` runs once around a sibling ring of `h`: each entry is linked
forward to the following one and the last to the first, and every forward link
is answered by the backward link. -/
def IsRing (h : Heap) (l : List Nat) : Prop :=
  l ≠ [] ∧ l.Nodup ∧
  ∀ i, i < l.length →
    (l[i]?).bind (nextOf h) = l[(i + 1) % l.length]? ∧
    (l[(i + 1) % l.length]?).bind (prevOf h) = l[i]?

/-- The cursor of `s` stands on the first entry of the ring `l`. -/
def RingAt (s : State) (l : List Nat) : Prop :=
  IsRing s.heap l ∧ s.menu.pointer = l.head?

/-- The links of every item created at address `base` or later are consistent:
`next_item` and `last_item` answer each other, a child names its parent, and
all four links stay among these items. -/
def LinksOK (base : Nat) (h : Heap) : Prop :=
  ∀ i, base ≤ i → i < h.length →
    (∃ j, nextOf h i = some j ∧ base ≤ j ∧ prevOf h j = some i) ∧
    (∃ j, prevOf h i = some j ∧ base ≤ j ∧ nextOf h j = some i) ∧
    (∀ j, childOf h i = some j → base ≤ j ∧ parentOf h j = some i) ∧
    (∀ j, parentOf h i = some j → base ≤ j ∧ j < h.length)

/-- The invariant of a navigator whose items start at address `base`. -/
def Inv (base : Nat) (s : State) : Prop :=
  LinksOK base s.heap ∧
  (∃ r, s.menu.Head = some r ∧ base ≤ r ∧ r < s.heap.length) ∧
  (∀ c, s.menu.pointer = some c → base ≤ c ∧ c < s.heap.length)

/-- The level `KDI_Menu_Add_Child` stores in the item it creates: the value
kept by the 4-bit field `level_menu` of `MENU_LEVEL_DATA`, or of `level + 1`. -/
def childLevel (level end_ : Nat) : Nat :=
  if end_ ≠ 0 then bits4 MENU_LEVEL_DATA else bits4 (level + 1)

/-- What a navigation call may do to a state: the heap and every field of the
navigator other than `pointer` and `level` stay, and the new cursor is the old
one or one of the four links of the old one. -/
def Moved (s s1 : State) : Prop :=
  s1.heap = s.heap ∧ s1.menu.Head = s.menu.Head ∧ s1.menu.level_max = s.menu.level_max ∧
  s1.menu.Command = s.menu.Command ∧ s1.menu.print_string = s.menu.print_string ∧
  s1.menu.print_int = s.menu.print_int ∧ s1.menu.print_float = s.menu.print_float ∧
  (s1.menu.pointer = s.menu.pointer ∨
    ∃ c x, s.menu.pointer = some c ∧ s.heap[c]? = some x ∧
      (s1.menu.pointer = x.next_item ∨ s1.menu.pointer = x.last_item ∨
       s1.menu.pointer = x.parent_item ∨ s1.menu.pointer = x.child_item))

/-! ## Concrete states and calls used as examples -/

/-- Fourteen times `KDI_Menu_Add_Child(.., MENU_NO_END, MENU_COMMAND_DOWN)`: after
`KDI_Menu_Init` these calls lead the cursor down to level 15. -/
def descendCalls : List Op :=
  List.replicate 14 (Op.Add_Child (VoidPtr.str "G") TYPE_DATA_CHAR MENU_NO_END MENU_COMMAND_DOWN)

/-- The root item `KDI_Menu_Init` creates on an empty heap for the text "A". -/
def rootItem : KDI_Menu_item :=
  { data := VoidPtr.str "A", type := TYPE_DATA_CHAR, level_menu := 1,
    last_item := some 0, next_item := some 0, parent_item := none, child_item := none }

/-- The state `KDI_Menu_Init` returns on the zero-filled navigator for the text "A". -/
def rootOnly : State :=
  { heap := [rootItem],
    menu := { Head := some 0, pointer := some 0, level := 1, level_max := 1, Command := 0,
              print_string := none, print_int := none, print_float := none } }

/-- The state after `KDI_Menu_Add_Child(.., "A1", text, MENU_NO_END, MENU_COMMAND_NO)`
on `rootOnly`: the root has the child at address 1. -/
def rootWithChild : State :=
  { heap := [{ rootItem with child_item := some 1 },
             { data := VoidPtr.str "A1", type := TYPE_DATA_CHAR, level_menu := 2,
               last_item := some 1, next_item := some 1, parent_item := some 0,
               child_item := none }],
    menu := { rootOnly.menu with level_max := 2 } }

/-- Three `KDI_Menu_Add_Next` calls with command forward, creating A1, A2, A3. -/
def threeSiblings : List Op :=
  [Op.Add_Next (VoidPtr.str "A1") TYPE_DATA_CHAR MENU_COMMAND_FORWARD,
   Op.Add_Next (VoidPtr.str "A2") TYPE_DATA_CHAR MENU_COMMAND_FORWARD,
   Op.Add_Next (VoidPtr.str "A3") TYPE_DATA_CHAR MENU_COMMAND_FORWARD]

/-- Calls after which the cursor is back on the root while `level` is still 2,
and the root has a data leaf as its child: a descent to A1, `KDI_Menu_Start`,
then a terminal child added to the root. -/
def startThenLeaf : List Op :=
  [Op.Add_Child (VoidPtr.str "A1") TYPE_DATA_CHAR MENU_NO_END MENU_COMMAND_DOWN,
   Op.Start,
   Op.Add_Child (VoidPtr.int 5) TYPE_DATA_INT MENU_END MENU_COMMAND_NO]

/-- The two calls of the usage example after `KDI_Menu_Init`: the group item A1
entered with command down, then its data leaf. -/
def usageCalls : List Op :=
  [Op.Add_Child (VoidPtr.str "A1") TYPE_DATA_CHAR MENU_NO_END MENU_COMMAND_DOWN,
   Op.Add_Child (VoidPtr.int 5) TYPE_DATA_INT MENU_END MENU_COMMAND_NO]

/-- The state after `KDI_Menu_Init("A")` and `usageCalls` on the zero-filled
navigator: the cursor on A1 at level 2, above its data leaf. -/
def usageState : State :=
  { heap := [{ rootItem with child_item := some 1 },
             { data := VoidPtr.str "A1", type := TYPE_DATA_CHAR, level_menu := 2,
               last_item := some 1, next_item := some 1, parent_item := some 0,
               child_item := some 2 },
             { data := VoidPtr.int 5, type := TYPE_DATA_INT, level_menu := 0,
               last_item := some 2, next_item := some 2, parent_item := some 1,
               child_item := none }],
    menu := { rootOnly.menu with pointer := some 1, level := 2, level_max := 2 } }

/-- The state `usageState` with the cursor moved down to the data leaf. -/
def usageLeafState : State :=
  { usageState with menu := { usageState.menu with pointer := some 2, level := 0 } }

/-- The state after `KDI_Menu_Init("A")` and `threeSiblings` on the zero-filled
navigator: a ring of four items with the cursor on A3. -/
def ringOfFour : State :=
  { heap := [{ rootItem with next_item := some 1, last_item := some 3 },
             { data := VoidPtr.str "A1", type := TYPE_DATA_CHAR, level_menu := 1,
               last_item := some 0, next_item := some 2, parent_item := none,
               child_item := none },
             { data := VoidPtr.str "A2", type := TYPE_DATA_CHAR, level_menu := 1,
               last_item := some 1, next_item := some 3, parent_item := none,
               child_item := none },
             { data := VoidPtr.str "A3", type := TYPE_DATA_CHAR, level_menu := 1,
               last_item := some 2, next_item := some 0, parent_item := none,
               child_item := none }],
    menu := { rootOnly.menu with pointer := some 3 } }

/-! ## Definitions for the properties of rings and levels -/

/-- The value of the field `f` of the item at `a`, when the item exists. -/
def attrOf {α : Type} (f : KDI_Menu_item → α) (h : Heap) (a : Nat) : Option α :=
  (h[a]?).map f

/-- Every item created at address `base` or later has the same `f` as the item
its `next_item` names and as the item its `last_item` names. -/
def RingShares {α : Type} (f : KDI_Menu_item → α) (base : Nat) (h : Heap) : Prop :=
  ∀ i, base ≤ i → i < h.length →
    (∀ j, nextOf h i = some j → attrOf f h j = attrOf f h i) ∧
    (∀ j, prevOf h i = some j → attrOf f h j = attrOf f h i)

/-- A call of `KDI_Menu_Add_Next`. -/
def Op.isAddNext : Op → Bool
  | Op.Add_Next _ _ _ => true
  | _ => false

/-- The level stored in the cursor item is the navigator's level, as the 4-bit
field keeps it. -/
def cursorAtOwnLevel (s : State) : Bool :=
  decide (KDI_MenuItem_GetLevel s.heap s.menu.pointer = some (bits4 s.menu.level))

/-- Along the run of the calls from `s`, every `KDI_Menu_Add_Next` is made in a
state whose cursor is at its own level. -/
def siblingsAtOwnLevel : State → List Op → Bool
  | _, [] => true
  | s, op :: ops =>
    (!op.isAddNext || cursorAtOwnLevel s) &&
    (match op.call s with
     | some s1 => siblingsAtOwnLevel s1 ops
     | none => true)

/-- `usageLeafState` with the three callbacks 1, 2, 3 registered. -/
def usageLeafCallbacks : State :=
  KDI_Menu_Set_print_char
    (KDI_Menu_Set_print_int (KDI_Menu_Set_print_float usageLeafState (some 3)) (some 2)) (some 1)

/-- Calls that put the cursor on a data leaf and give that leaf a data child:
the usage example, down to the leaf, then a terminal child. -/
def leafUnderLeaf : List Op :=
  usageCalls ++
  [Op.Drive MENU_COMMAND_DOWN,
   Op.Add_Child (VoidPtr.int 6) TYPE_DATA_INT MENU_END MENU_COMMAND_NO]

/-- A menu of two groups of different depth, A -> A1 and B -> data, with the
cursor moved down from B: the group A1 is built first, then B beside A, then the
data leaf of B, then down. -/
def unevenCalls : List Op :=
  [Op.Add_Child (VoidPtr.str "A1") TYPE_DATA_CHAR MENU_NO_END MENU_COMMAND_DOWN,
   Op.Drive MENU_COMMAND_UP,
   Op.Add_Next (VoidPtr.str "B") TYPE_DATA_CHAR MENU_COMMAND_FORWARD,
   Op.Add_Child (VoidPtr.int 5) TYPE_DATA_INT MENU_END MENU_COMMAND_NO,
   Op.Drive MENU_COMMAND_DOWN]

/-- After `unevenCalls`: a sibling and a data child added to the data leaf of B,
then down, up and forward. -/
def unevenThenSibling : List Op :=
  unevenCalls ++
  [Op.Add_Next (VoidPtr.int 6) TYPE_DATA_INT MENU_COMMAND_NO,
   Op.Add_Child (VoidPtr.int 7) TYPE_DATA_INT MENU_END MENU_COMMAND_NO,
   Op.Drive MENU_COMMAND_DOWN,
   Op.Drive MENU_COMMAND_UP,
   Op.Drive MENU_COMMAND_FORWARD]

/-- When the level of the navigator is 0, the cursor item, if there is one, stores
level 0. -/
def LevelZeroOK (s : State) : Prop :=
  s.menu.level = 0 → ∀ c x, s.menu.pointer = some c → s.heap[c]? = some x → x.level_menu = 0

/-- A state with the three callbacks 1, 2, 3 registered through
`KDI_Menu_Set_print_char`, `KDI_Menu_Set_print_int` and `KDI_Menu_Set_print_float`. -/
def withCallbacks (s : State) : State :=
  KDI_Menu_Set_print_char
    (KDI_Menu_Set_print_int (KDI_Menu_Set_print_float s (some 3)) (some 2)) (some 1)

/-- The bounds on the levels: the level of the navigator is at most `level_max`,
`level_max` is at least 1, and no item created at address `base` or later stores
a level above `level_max`. -/
def LevelsOK (base : Nat) (s : State) : Prop :=
  s.menu.level ≤ s.menu.level_max ∧ 1 ≤ s.menu.level_max ∧
  ∀ i x, base ≤ i → s.heap[i]? = some x → x.level_menu ≤ s.menu.level_max

/-- Calls after which the cursor is on a childless sibling of the root while
`level_max` is 2: a group child under the root, then a sibling B of the root with
command forward. -/
def strandCalls : List Op :=
  [Op.Add_Child (VoidPtr.str "A1") TYPE_DATA_CHAR MENU_NO_END MENU_COMMAND_NO,
   Op.Add_Next (VoidPtr.str "B") TYPE_DATA_CHAR MENU_COMMAND_FORWARD]

/-- Calls after which the cursor is the root while the level is 0: a terminal
child with command down, which puts the cursor on the data leaf at level 0, then
`KDI_Menu_Start`, which moves the cursor to the root and keeps the level. -/
def startAtLeafLevel : List Op :=
  [Op.Add_Child (VoidPtr.int 5) TYPE_DATA_INT MENU_END MENU_COMMAND_DOWN, Op.Start]

/-! ## Basic facts -/

theorem andThen_some {α β : Type} (a : α) (k : α → Option β) : andThen (some a) k = k a := rfl

theorem andThen_none {α β : Type} (k : α → Option β) : andThen none k = none := rfl

theorem andThen_eq_some {α β : Type} {x : Option α} {k : α → Option β} {b : β} :
    andThen x k = some b ↔ ∃ a, x = some a ∧ k a = some b := by
  cases x <;> simp [andThen]

theorem lt_of_getElem? {h : Heap} {a : Nat} {x : KDI_Menu_item} (hx : h[a]? = some x) :
    a < h.length := by
  rcases List.getElem?_eq_some.1 hx with ⟨h1, _⟩
  exact h1

theorem getElem_of_getElem? {h : Heap} {a : Nat} {x : KDI_Menu_item} (hx : h[a]? = some x)
    (hlt : a < h.length) : h[a] = x := by
  rcases List.getElem?_eq_some.1 hx with ⟨_, h2⟩
  exact h2

theorem getElem?_append_add {α : Type} (h l : List α) (k : Nat) :
    (h ++ l)[h.length + k]? = l[k]? := by
  simp [List.getElem?_append_right]

theorem getElem?_append_length {α : Type} (h l : List α) :
    (h ++ l)[h.length]? = l[0]? := by
  simp [List.getElem?_append_right]

theorem set_append_add {α : Type} (h l : List α) (k : Nat) (a : α) :
    (h ++ l).set (h.length + k) a = h ++ l.set k a := by
  simp [List.set_append]

theorem set_append_length {α : Type} (h l : List α) (a : α) :
    (h ++ l).set h.length a = h ++ l.set 0 a := by
  simp [List.set_append]

theorem Drive_NO (s : State) : KDI_Menu_Drive s 0 = some s := by
  simp [KDI_Menu_Drive, MENU_COMMAND_NO]

/-- `KDI_Menu_Init` always returns, with this state. -/
theorem Init_eq (s : State) (d : VoidPtr) (t : Nat) :
    KDI_Menu_Init s d t = some
      { heap := s.heap ++
          [{ data := d, type := bits4 t, level_menu := 1, last_item := some s.heap.length,
             next_item := some s.heap.length, parent_item := none, child_item := none }],
        menu := { s.menu with Head := some s.heap.length, pointer := some s.heap.length,
                              level := 1, level_max := 1 } } := by
  simp [KDI_Menu_Init, KDI_GetMenu_item, andThen, KDI_MenuItem_SetLinkOnNextMenuItem,
    KDI_MenuItem_SetLinkOnLastMenuItem, KDI_MenuItem_SetData, KDI_MenuItem_SetTypeData,
    KDI_MenuItem_SetLevel, store, List.set_append, MENU_LEVEL_1, bits4]

/-- `KDI_Menu_Add_Next` on a cursor `c` whose `next_item` is the item `hd`. -/
theorem Add_Next_eq {s : State} {c hd : Nat} {x y : KDI_Menu_item}
    (hp : s.menu.pointer = some c) (hx : s.heap[c]? = some x)
    (hn : x.next_item = some hd) (hy : s.heap[hd]? = some y)
    (d : VoidPtr) (t cmd : Nat) :
    KDI_Menu_Add_Next s d t cmd = KDI_Menu_Drive
      { heap := ((s.heap.set c { x with next_item := some s.heap.length }).set hd
                  { (if hd = c then { x with next_item := some s.heap.length } else y) with
                    last_item := some s.heap.length }) ++
                [{ data := d, type := bits4 t, level_menu := bits4 s.menu.level,
                   last_item := some c, next_item := some hd,
                   parent_item := x.parent_item, child_item := none }],
        menu := s.menu } cmd := by
  have hc : c < s.heap.length := lt_of_getElem? hx
  have hh : hd < s.heap.length := lt_of_getElem? hy
  have hx1 : s.heap[c] = x := getElem_of_getElem? hx hc
  have hy1 : s.heap[hd] = y := getElem_of_getElem? hy hh
  obtain ⟨h, m⟩ := s
  simp only at hp hx hy hc hh hx1 hy1 ⊢
  by_cases hcmd : cmd = 0
  · subst hcmd
    rw [Drive_NO]
    by_cases hcd : hd = c
    · subst hcd
      simp [KDI_Menu_Add_Next, KDI_MenuItem_GetLinkOnNextMenuItem, load, hx, hn, hp, andThen,
        KDI_GetMenu_item, KDI_MenuItem_SetLinkOnNextMenuItem, KDI_MenuItem_SetLinkOnLastMenuItem,
        KDI_MenuItem_SetLinkOnParentMenuItem, KDI_MenuItem_SetData, KDI_MenuItem_SetTypeData,
        KDI_MenuItem_SetLevel, pointer_next_item, pointer_parent_item, store,
        List.getElem?_append, List.getElem?_set, List.set_append, hc, hx1]
    · have hcd2 : ¬ c = hd := fun e => hcd e.symm
      simp [KDI_Menu_Add_Next, KDI_MenuItem_GetLinkOnNextMenuItem, load, hx, hy, hn, hp, andThen,
        KDI_GetMenu_item, KDI_MenuItem_SetLinkOnNextMenuItem, KDI_MenuItem_SetLinkOnLastMenuItem,
        KDI_MenuItem_SetLinkOnParentMenuItem, KDI_MenuItem_SetData, KDI_MenuItem_SetTypeData,
        KDI_MenuItem_SetLevel, pointer_next_item, pointer_parent_item, store,
        List.getElem?_append, List.getElem?_set, List.set_append, hc, hh, hcd, hcd2, hx1, hy1]
  · by_cases hcd : hd = c
    · subst hcd
      simp [KDI_Menu_Add_Next, KDI_MenuItem_GetLinkOnNextMenuItem, load, hx, hn, hp, andThen,
        KDI_GetMenu_item, KDI_MenuItem_SetLinkOnNextMenuItem, KDI_MenuItem_SetLinkOnLastMenuItem,
        KDI_MenuItem_SetLinkOnParentMenuItem, KDI_MenuItem_SetData, KDI_MenuItem_SetTypeData,
        KDI_MenuItem_SetLevel, pointer_next_item, pointer_parent_item, store,
        List.getElem?_append, List.getElem?_set, List.set_append, hc, hx1, hcmd]
    · have hcd2 : ¬ c = hd := fun e => hcd e.symm
      simp [KDI_Menu_Add_Next, KDI_MenuItem_GetLinkOnNextMenuItem, load, hx, hy, hn, hp, andThen,
        KDI_GetMenu_item, KDI_MenuItem_SetLinkOnNextMenuItem, KDI_MenuItem_SetLinkOnLastMenuItem,
        KDI_MenuItem_SetLinkOnParentMenuItem, KDI_MenuItem_SetData, KDI_MenuItem_SetTypeData,
        KDI_MenuItem_SetLevel, pointer_next_item, pointer_parent_item, store,
        List.getElem?_append, List.getElem?_set, List.set_append, hc, hh, hcd, hcd2, hx1, hy1,
        hcmd]

/-- Without a cursor `KDI_Menu_Add_Next` has no defined behaviour. -/
theorem Add_Next_null {s : State} (hp : s.menu.pointer = none) (d : VoidPtr) (t cmd : Nat) :
    KDI_Menu_Add_Next s d t cmd = none := by
  simp [KDI_Menu_Add_Next, KDI_MenuItem_GetLinkOnNextMenuItem, load, hp, andThen]

/-- `KDI_Menu_Add_Child` on a cursor `c`. -/
theorem Add_Child_eq {s : State} {c : Nat} {x : KDI_Menu_item}
    (hp : s.menu.pointer = some c) (hx : s.heap[c]? = some x)
    (d : VoidPtr) (t e cmd : Nat) :
    KDI_Menu_Add_Child s d t e cmd = KDI_Menu_Drive
      { heap := s.heap.set c { x with child_item := some s.heap.length } ++
                [{ data := d, type := bits4 t, level_menu := childLevel s.menu.level e,
                   last_item := some s.heap.length, next_item := some s.heap.length,
                   parent_item := some c, child_item := none }],
        menu := { s.menu with
                  level_max := max s.menu.level_max (childLevel s.menu.level e) } } cmd := by
  have hc : c < s.heap.length := lt_of_getElem? hx
  have hx1 : s.heap[c] = x := getElem_of_getElem? hx hc
  obtain ⟨h, m⟩ := s
  obtain ⟨mh, mp, lv, lm, mc, f1, f2, f3⟩ := m
  simp only at hp hx hc hx1 ⊢
  subst hp
  have hmax : max lm (bits4 (lv + 1)) = if lm < bits4 (lv + 1) then bits4 (lv + 1) else lm := by
    rw [max_def]
    split_ifs <;> omega
  by_cases hcmd : cmd = 0
  · subst hcmd
    rw [Drive_NO]
    by_cases he : e = 0
    · simp [KDI_Menu_Add_Child, load, hx, andThen, KDI_GetMenu_item,
        KDI_MenuItem_SetLinkOnNextMenuItem, KDI_MenuItem_SetLinkOnLastMenuItem,
        KDI_MenuItem_SetLinkOnParentMenuItem, KDI_MenuItem_SetLinkOnChildMenuItem,
        KDI_MenuItem_SetData, KDI_MenuItem_SetTypeData, KDI_MenuItem_SetLevel,
        KDI_MenuItem_GetLevel, pointer_child_item, store, List.getElem?_append,
        List.getElem?_set, List.set_append, hc, hx1, he, childLevel, hmax]
      split_ifs <;> simp
    · simp [KDI_Menu_Add_Child, load, hx, andThen, KDI_GetMenu_item,
        KDI_MenuItem_SetLinkOnNextMenuItem, KDI_MenuItem_SetLinkOnLastMenuItem,
        KDI_MenuItem_SetLinkOnParentMenuItem, KDI_MenuItem_SetLinkOnChildMenuItem,
        KDI_MenuItem_SetData, KDI_MenuItem_SetTypeData, KDI_MenuItem_SetLevel,
        KDI_MenuItem_GetLevel, pointer_child_item, store, List.getElem?_append,
        List.getElem?_set, List.set_append, hc, hx1, he, childLevel, MENU_LEVEL_DATA, bits4]
  · by_cases he : e = 0
    · simp [KDI_Menu_Add_Child, load, hx, andThen, KDI_GetMenu_item,
        KDI_MenuItem_SetLinkOnNextMenuItem, KDI_MenuItem_SetLinkOnLastMenuItem,
        KDI_MenuItem_SetLinkOnParentMenuItem, KDI_MenuItem_SetLinkOnChildMenuItem,
        KDI_MenuItem_SetData, KDI_MenuItem_SetTypeData, KDI_MenuItem_SetLevel,
        KDI_MenuItem_GetLevel, pointer_child_item, store, List.getElem?_append,
        List.getElem?_set, List.set_append, hc, hx1, he, childLevel, hmax, hcmd]
      split_ifs <;> simp
    · simp [KDI_Menu_Add_Child, load, hx, andThen, KDI_GetMenu_item,
        KDI_MenuItem_SetLinkOnNextMenuItem, KDI_MenuItem_SetLinkOnLastMenuItem,
        KDI_MenuItem_SetLinkOnParentMenuItem, KDI_MenuItem_SetLinkOnChildMenuItem,
        KDI_MenuItem_SetData, KDI_MenuItem_SetTypeData, KDI_MenuItem_SetLevel,
        KDI_MenuItem_GetLevel, pointer_child_item, store, List.getElem?_append,
        List.getElem?_set, List.set_append, hc, hx1, he, childLevel, MENU_LEVEL_DATA, bits4,
        hcmd]

/-- Without a cursor `KDI_Menu_Add_Child` has no defined behaviour. -/
theorem Add_Child_null {s : State} (hp : s.menu.pointer = none) (d : VoidPtr) (t e cmd : Nat) :
    KDI_Menu_Add_Child s d t e cmd = none := by
  simp [KDI_Menu_Add_Child, KDI_MenuItem_SetLinkOnChildMenuItem, store, hp, andThen,
    KDI_GetMenu_item]

/-! ## What the navigation commands change -/

theorem Forward_eq {s : State} {c : Nat} {x : KDI_Menu_item}
    (hp : s.menu.pointer = some c) (hx : s.heap[c]? = some x) :
    KDI_Menu_Command_Forward s = some { s with menu := { s.menu with pointer := x.next_item } } := by
  simp [KDI_Menu_Command_Forward, pointer_next_item, load, hp, hx, andThen]

theorem Backward_eq {s : State} {c : Nat} {x : KDI_Menu_item}
    (hp : s.menu.pointer = some c) (hx : s.heap[c]? = some x) :
    KDI_Menu_Command_Backward s = some { s with menu := { s.menu with pointer := x.last_item } } := by
  simp [KDI_Menu_Command_Backward, pointer_last_item, load, hp, hx, andThen]

theorem Forward_at (h : Heap) (m : KDI_Menu) {c : Nat} {x : KDI_Menu_item}
    (hp : m.pointer = some c) (hx : h[c]? = some x) :
    KDI_Menu_Command_Forward { heap := h, menu := m }
      = some { heap := h, menu := { m with pointer := x.next_item } } :=
  Forward_eq (s := { heap := h, menu := m }) hp hx

theorem Backward_at (h : Heap) (m : KDI_Menu) {c : Nat} {x : KDI_Menu_item}
    (hp : m.pointer = some c) (hx : h[c]? = some x) :
    KDI_Menu_Command_Backward { heap := h, menu := m }
      = some { heap := h, menu := { m with pointer := x.last_item } } :=
  Backward_eq (s := { heap := h, menu := m }) hp hx

theorem load_eq_some {h : Heap} {p : Ptr} {x : KDI_Menu_item} :
    load h p = some x ↔ ∃ c, p = some c ∧ h[c]? = some x := by
  cases p <;> simp [load]

theorem pointer_next_item_eq_some {h : Heap} {m : KDI_Menu} {q : Ptr} :
    pointer_next_item h m = some q ↔
      ∃ c x, m.pointer = some c ∧ h[c]? = some x ∧ x.next_item = q := by
  simp only [pointer_next_item, Option.map_eq_some', load_eq_some]
  constructor
  · rintro ⟨x, ⟨c, hc, hx⟩, hq⟩
    exact ⟨c, x, hc, hx, hq⟩
  · rintro ⟨c, x, hc, hx, hq⟩
    exact ⟨x, ⟨c, hc, hx⟩, hq⟩

theorem pointer_last_item_eq_some {h : Heap} {m : KDI_Menu} {q : Ptr} :
    pointer_last_item h m = some q ↔
      ∃ c x, m.pointer = some c ∧ h[c]? = some x ∧ x.last_item = q := by
  simp only [pointer_last_item, Option.map_eq_some', load_eq_some]
  constructor
  · rintro ⟨x, ⟨c, hc, hx⟩, hq⟩
    exact ⟨c, x, hc, hx, hq⟩
  · rintro ⟨c, x, hc, hx, hq⟩
    exact ⟨x, ⟨c, hc, hx⟩, hq⟩

theorem pointer_child_item_eq_some {h : Heap} {m : KDI_Menu} {q : Ptr} :
    pointer_child_item h m = some q ↔
      ∃ c x, m.pointer = some c ∧ h[c]? = some x ∧ x.child_item = q := by
  simp only [pointer_child_item, Option.map_eq_some', load_eq_some]
  constructor
  · rintro ⟨x, ⟨c, hc, hx⟩, hq⟩
    exact ⟨c, x, hc, hx, hq⟩
  · rintro ⟨c, x, hc, hx, hq⟩
    exact ⟨x, ⟨c, hc, hx⟩, hq⟩

theorem pointer_parent_item_eq_some {h : Heap} {m : KDI_Menu} {q : Ptr} :
    pointer_parent_item h m = some q ↔
      ∃ c x, m.pointer = some c ∧ h[c]? = some x ∧ x.parent_item = q := by
  simp only [pointer_parent_item, Option.map_eq_some', load_eq_some]
  constructor
  · rintro ⟨x, ⟨c, hc, hx⟩, hq⟩
    exact ⟨c, x, hc, hx, hq⟩
  · rintro ⟨c, x, hc, hx, hq⟩
    exact ⟨x, ⟨c, hc, hx⟩, hq⟩

theorem Moved_refl (s : State) : Moved s s := by
  simp [Moved]

theorem Forward_moved {s s1 : State} (h : KDI_Menu_Command_Forward s = some s1) :
    Moved s s1 := by
  simp only [KDI_Menu_Command_Forward, andThen_eq_some, pointer_next_item_eq_some] at h
  obtain ⟨q, ⟨c, x, hp, hx, hq⟩, h⟩ := h
  simp only [Option.some.injEq] at h
  subst h
  refine ⟨rfl, rfl, rfl, rfl, rfl, rfl, rfl, Or.inr ⟨c, x, hp, hx, Or.inl hq.symm⟩⟩

theorem Backward_moved {s s1 : State} (h : KDI_Menu_Command_Backward s = some s1) :
    Moved s s1 := by
  simp only [KDI_Menu_Command_Backward, andThen_eq_some, pointer_last_item_eq_some] at h
  obtain ⟨q, ⟨c, x, hp, hx, hq⟩, h⟩ := h
  simp only [Option.some.injEq] at h
  subst h
  refine ⟨rfl, rfl, rfl, rfl, rfl, rfl, rfl, Or.inr ⟨c, x, hp, hx, Or.inr (Or.inl hq.symm)⟩⟩

theorem natCast_not_neg (n : Nat) : ¬ ((n : Int) < 0) := by omega

theorem Up_moved {s s1 : State} (h : KDI_Menu_Command_Up s = some s1) : Moved s s1 := by
  simp only [KDI_Menu_Command_Up, natCast_not_neg, if_false] at h
  split_ifs at h with h1 h2
  · simp only [andThen_eq_some, pointer_parent_item_eq_some] at h
    obtain ⟨q, ⟨c, x, hp, hx, hq⟩, h⟩ := h
    simp only [Option.some.injEq] at h
    subst h
    exact ⟨rfl, rfl, rfl, rfl, rfl, rfl, rfl, Or.inr ⟨c, x, hp, hx, Or.inr (Or.inr (Or.inl hq.symm))⟩⟩
  · simp only [andThen_eq_some, pointer_parent_item_eq_some] at h
    obtain ⟨q, ⟨c, x, hp, hx, hq⟩, y, _, h⟩ := h
    simp only [Option.some.injEq] at h
    subst h
    exact ⟨rfl, rfl, rfl, rfl, rfl, rfl, rfl, Or.inr ⟨c, x, hp, hx, Or.inr (Or.inr (Or.inl hq.symm))⟩⟩
  · simp only [Option.some.injEq] at h
    subst h
    exact Moved_refl _

theorem Down_moved {s s1 : State} (h : KDI_Menu_Command_Down s = some s1) : Moved s s1 := by
  simp only [KDI_Menu_Command_Down] at h
  split_ifs at h with h1 h2 h3
  · simp only [Option.some.injEq] at h
    subst h
    exact Moved_refl _
  · simp only [Option.some.injEq] at h
    subst h
    simp [Moved]
  · simp only [andThen_eq_some, pointer_child_item_eq_some] at h
    obtain ⟨q, ⟨c, x, hp, hx, hq⟩, h⟩ := h
    simp only [Option.some.injEq] at h
    subst h
    exact ⟨rfl, rfl, rfl, rfl, rfl, rfl, rfl, Or.inr ⟨c, x, hp, hx, Or.inr (Or.inr (Or.inr hq.symm))⟩⟩
  · simp only [andThen_eq_some, pointer_child_item_eq_some] at h
    obtain ⟨q, ⟨c, x, hp, hx, hq⟩, y, _, h⟩ := h
    split_ifs at h
    · simp only [Option.some.injEq] at h
      subst h
      exact ⟨rfl, rfl, rfl, rfl, rfl, rfl, rfl, Or.inr ⟨c, x, hp, hx, Or.inr (Or.inr (Or.inr hq.symm))⟩⟩
    · simp only [Option.some.injEq] at h
      subst h
      exact Moved_refl _

theorem Drive_moved {s s1 : State} {cmd : Nat} (h : KDI_Menu_Drive s cmd = some s1) :
    Moved s s1 := by
  unfold KDI_Menu_Drive at h
  split_ifs at h
  · simp only [Option.some.injEq] at h
    subst h
    exact Moved_refl _
  · exact Forward_moved h
  · exact Backward_moved h
  · exact Up_moved h
  · exact Down_moved h
  · simp only [Option.some.injEq] at h
    subst h
    exact Moved_refl _

theorem bits4_toNat (t : KDI_Type_data) : bits4 t.toNat = t.toNat := by
  cases t <;> rfl

/-! ## C1: the state after `KDI_Menu_Init` -/

/-- C1: `KDI_Menu_Init` with a payload and one of the four tags returns on any
navigator and any heap; afterwards level = 1, level_max = 1, the cursor is the
root (`Head`), the root is the one new item, it carries the payload and the tag,
its stored level is 1, its `next_item` and `last_item` are the root itself and
its `parent_item` and `child_item` are null. -/
theorem C1_init_state (s : State) (d : VoidPtr) (t : KDI_Type_data) :
    ∃ s1 : State, KDI_Menu_Init s d t.toNat = some s1 ∧
      s1.menu.level = 1 ∧ s1.menu.level_max = 1 ∧
      s1.menu.Head = some s.heap.length ∧ s1.menu.pointer = s1.menu.Head ∧
      s1.heap = s.heap ++
        [{ data := d, type := t.toNat, level_menu := 1,
           last_item := some s.heap.length, next_item := some s.heap.length,
           parent_item := none, child_item := none }] ∧
      load s1.heap s1.menu.Head = some
        { data := d, type := t.toNat, level_menu := 1,
          last_item := s1.menu.Head, next_item := s1.menu.Head,
          parent_item := none, child_item := none } := by
  refine ⟨_, Init_eq s d t.toNat, rfl, rfl, rfl, rfl, ?_, ?_⟩
  · simp [bits4_toNat]
  · simp [load, bits4_toNat]

/-- The heap `KDI_Menu_Add_Next` leaves, whatever its command, and the state
its command is run on. -/
theorem Add_Next_heap {s s1 : State} {c hd : Nat} {x y : KDI_Menu_item}
    (hp : s.menu.pointer = some c) (hx : s.heap[c]? = some x)
    (hn : x.next_item = some hd) (hy : s.heap[hd]? = some y)
    {d : VoidPtr} {t cmd : Nat} (h : KDI_Menu_Add_Next s d t cmd = some s1) :
    KDI_Menu_Drive { heap := s1.heap, menu := s.menu } cmd = some s1 ∧
    s1.heap.length = s.heap.length + 1 ∧
    s1.heap[s.heap.length]? = some
      { data := d, type := bits4 t, level_menu := bits4 s.menu.level,
        last_item := some c, next_item := some hd,
        parent_item := x.parent_item, child_item := none } ∧
    s1.heap[c]? = some { x with next_item := some s.heap.length,
                                last_item := if hd = c then some s.heap.length
                                             else x.last_item } ∧
    s1.heap[hd]? = some { y with last_item := some s.heap.length,
                                 next_item := if hd = c then some s.heap.length
                                              else y.next_item } ∧
    ∀ i, i ≠ c → i ≠ hd → i ≠ s.heap.length → s1.heap[i]? = s.heap[i]? := by
  have hc : c < s.heap.length := lt_of_getElem? hx
  have hh : hd < s.heap.length := lt_of_getElem? hy
  rw [Add_Next_eq hp hx hn hy] at h
  have h1 := (Drive_moved h).1
  simp only at h1
  refine ⟨?_, ?_, ?_, ?_, ?_, ?_⟩
  · rw [h1]
    exact h
  · rw [h1]
    simp
  · rw [h1]
    simp [List.getElem?_append]
  · rw [h1]
    by_cases hcd : hd = c
    · subst hcd
      simp [List.getElem?_append, List.getElem?_set, hc]
    · have hcd2 : ¬ c = hd := fun e => hcd e.symm
      simp [List.getElem?_append, List.getElem?_set, hc, hcd, hcd2, hx]
  · rw [h1]
    by_cases hcd : hd = c
    · subst hcd
      have hxy : x = y := by
        rw [hx] at hy
        exact Option.some.inj hy
      subst hxy
      simp [List.getElem?_append, List.getElem?_set, hc, hn]
    · simp [List.getElem?_append, List.getElem?_set, hh, hcd]
  · intro i hic hih hin
    rw [h1]
    have hic2 : ¬ c = i := fun e => hic e.symm
    have hih2 : ¬ hd = i := fun e => hih e.symm
    by_cases hlt : i < s.heap.length
    · simp [List.getElem?_append, List.getElem?_set, hlt, hic2, hih2]
    · have hge : s.heap.length < i := by omega
      have hne : ¬ i - s.heap.length = 0 := by omega
      simp [List.getElem?_append, hlt]
      rw [List.getElem?_eq_none (by simp; omega), List.getElem?_eq_none (by omega)]

/-- `KDI_Menu_Add_Next` with command none returns on a cursor whose `next_item`
is an item. -/
theorem Add_Next_NO_returns {s : State} {c hd : Nat} {x y : KDI_Menu_item}
    (hp : s.menu.pointer = some c) (hx : s.heap[c]? = some x)
    (hn : x.next_item = some hd) (hy : s.heap[hd]? = some y) (d : VoidPtr) (t : Nat) :
    ∃ s1, KDI_Menu_Add_Next s d t 0 = some s1 :=
  ⟨_, (Add_Next_eq hp hx hn hy d t 0).trans (Drive_NO _)⟩

/-! ## C5: `KDI_Menu_Add_Next` without a command -/

/-- In any state, on a cursor `c` whose `next_item` is the item `hd` (which may be
`c`), `KDI_Menu_Add_Next` with command none returns; it creates one item `n`
with the payload and tag given, `last_item` = c, `next_item` = hd, the parent of
`c`, no child, and stored level = level mod 16 (the level itself up to 15);
afterwards `c.next_item` = n and `hd.last_item` = n, nothing else of `c` and `hd`
has changed, no other item has changed, and the navigator is as before. -/
theorem Add_Next_links {s : State} {c hd : Nat} {x y : KDI_Menu_item}
    (hp : s.menu.pointer = some c) (hx : s.heap[c]? = some x)
    (hn : x.next_item = some hd) (hy : s.heap[hd]? = some y)
    (d : VoidPtr) (t : KDI_Type_data) :
    ∃ s1 : State, KDI_Menu_Add_Next s d t.toNat MENU_COMMAND_NO = some s1 ∧
      s1.menu = s.menu ∧ s1.heap.length = s.heap.length + 1 ∧
      s1.heap[s.heap.length]? = some
        { data := d, type := t.toNat, level_menu := s.menu.level % 16,
          last_item := some c, next_item := some hd,
          parent_item := x.parent_item, child_item := none } ∧
      (s.menu.level ≤ 15 → s.menu.level % 16 = s.menu.level) ∧
      s1.heap[c]? = some { x with next_item := some s.heap.length,
                                  last_item := if hd = c then some s.heap.length
                                               else x.last_item } ∧
      s1.heap[hd]? = some { y with last_item := some s.heap.length,
                                   next_item := if hd = c then some s.heap.length
                                                else y.next_item } ∧
      ∀ i, i ≠ c → i ≠ hd → i ≠ s.heap.length → s1.heap[i]? = s.heap[i]? := by
  obtain ⟨s1, h⟩ := Add_Next_NO_returns hp hx hn hy d t.toNat
  obtain ⟨h1, h2, h3, h4, h5, h6⟩ := Add_Next_heap hp hx hn hy h
  rw [Drive_NO] at h1
  refine ⟨s1, h, ?_, h2, ?_, ?_, h4, h5, h6⟩
  · rw [← Option.some.inj h1]
  · rw [h3, bits4_toNat]
    rfl
  · intro hl
    omega

/-- `KDI_Menu_Add_Next` with command none returns the navigator unchanged. -/
theorem Add_Next_NO_menu {s s1 : State} {d : VoidPtr} {t : Nat}
    (h : KDI_Menu_Add_Next s d t 0 = some s1) : s1.menu = s.menu := by
  simp only [KDI_Menu_Add_Next, andThen_eq_some, ne_eq, not_true, if_false] at h
  rcases h with ⟨_, -, _, -, _, -, _, -, _, -, _, -, _, -, _, -, _, -, _, -, _, -, _, -,
    _, -, _, -, _, -, _, -, _, -, h⟩
  simp only [Option.some.injEq] at h
  subst h
  rfl

/-- C5: `KDI_Menu_Add_Next` with command none leaves `level` and `level_max` as
they were, in every state, for every payload and tag; and it does return
whenever the cursor and its `next_item` are items. -/
theorem C5_add_next_keeps_levels (s : State) (d : VoidPtr) (t : Nat) :
    (∀ s1, KDI_Menu_Add_Next s d t MENU_COMMAND_NO = some s1 →
      s1.menu.level = s.menu.level ∧ s1.menu.level_max = s.menu.level_max) ∧
    (∀ c hd x y, s.menu.pointer = some c → s.heap[c]? = some x → x.next_item = some hd →
      s.heap[hd]? = some y → ∃ s1, KDI_Menu_Add_Next s d t MENU_COMMAND_NO = some s1) := by
  constructor
  · intro s1 h
    have hm := Add_Next_NO_menu h
    rw [hm]
    exact ⟨rfl, rfl⟩
  · intro c hd x y hp hx hn hy
    exact ⟨_, (Add_Next_eq hp hx hn hy d t 0).trans (Drive_NO _)⟩

/-- C5 at the state right after `KDI_Menu_Init`. -/
theorem C5_add_next_keeps_levels_witness :
    ∃ s1, KDI_Menu_Add_Next rootOnly (VoidPtr.int 7) TYPE_DATA_INT MENU_COMMAND_NO = some s1 ∧
      s1.menu.level = 1 ∧ s1.menu.level_max = 1 := by
  obtain ⟨hframe, hret⟩ := C5_add_next_keeps_levels rootOnly (VoidPtr.int 7) TYPE_DATA_INT
  obtain ⟨s1, h1⟩ := hret 0 0 rootItem rootItem rfl rfl rfl rfl
  exact ⟨s1, h1, hframe s1 h1⟩

/-! ## C6, C7: `KDI_Menu_Add_Child` -/

/-- The state `KDI_Menu_Add_Child` builds before it runs its command. -/
theorem Add_Child_heap {s s1 : State} {c : Nat} {x : KDI_Menu_item}
    (hp : s.menu.pointer = some c) (hx : s.heap[c]? = some x)
    {d : VoidPtr} {t e cmd : Nat} (h : KDI_Menu_Add_Child s d t e cmd = some s1) :
    s1.heap = s.heap.set c { x with child_item := some s.heap.length } ++
                [{ data := d, type := bits4 t, level_menu := childLevel s.menu.level e,
                   last_item := some s.heap.length, next_item := some s.heap.length,
                   parent_item := some c, child_item := none }] ∧
    s1.menu.level_max = max s.menu.level_max (childLevel s.menu.level e) ∧
    s1.menu.Head = s.menu.Head := by
  rw [Add_Child_eq hp hx] at h
  obtain ⟨h1, h2, h3, _⟩ := Drive_moved h
  exact ⟨h1, h3, h2⟩

/-- C6 as stated fails at level 15, which fourteen descents from the root
reach: the non-terminal child then stores level 0, not 16, and `level_max`
stays 15. -/
theorem C6_counterexample :
    (initThen zeroState (VoidPtr.str "A") TYPE_DATA_CHAR descendCalls).map
      (fun s => (s.menu.level, s.menu.level_max)) = some (15, 15) ∧
    ((initThen zeroState (VoidPtr.str "A") TYPE_DATA_CHAR descendCalls).bind
      (fun s => KDI_Menu_Add_Child s (VoidPtr.str "G") TYPE_DATA_CHAR MENU_NO_END
        MENU_COMMAND_NO)).bind
      (fun s1 => (KDI_MenuItem_GetLevel s1.heap (some 15)).map
        (fun l => (l, s1.menu.level_max))) = some (0, 15) := by
  decide

/-- C6 (amended): on a cursor that is an item, at any level L and any
`level_max`, `KDI_Menu_Add_Child` with command none returns, and whatever the
command, when the call returns the new item stores level 0 under the terminal
flag and (L + 1) mod 16 under the non-terminal flag, which is L + 1 for every
L up to 14; `level_max` becomes the larger of its old value and the stored
level. -/
theorem C6_add_child_level {s : State} {c : Nat} {x : KDI_Menu_item}
    (hp : s.menu.pointer = some c) (hx : s.heap[c]? = some x)
    (d : VoidPtr) (t e cmd : Nat) :
    (∃ s1, KDI_Menu_Add_Child s d t e MENU_COMMAND_NO = some s1) ∧
    ∀ s1, KDI_Menu_Add_Child s d t e cmd = some s1 →
      ∃ N : KDI_Menu_item, s1.heap[s.heap.length]? = some N ∧
        (e ≠ MENU_NO_END → N.level_menu = MENU_LEVEL_DATA) ∧
        (e = MENU_NO_END → N.level_menu = (s.menu.level + 1) % 16) ∧
        (e = MENU_NO_END → s.menu.level ≤ 14 → N.level_menu = s.menu.level + 1) ∧
        s1.menu.level_max = max s.menu.level_max N.level_menu := by
  constructor
  · exact ⟨_, (Add_Child_eq hp hx d t e 0).trans (Drive_NO _)⟩
  · intro s1 h
    obtain ⟨h1, h2, _⟩ := Add_Child_heap hp hx h
    have hc : c < s.heap.length := lt_of_getElem? hx
    refine ⟨{ data := d, type := bits4 t, level_menu := childLevel s.menu.level e,
              last_item := some s.heap.length, next_item := some s.heap.length,
              parent_item := some c, child_item := none }, ?_, ?_, ?_, ?_, ?_⟩
    · rw [h1]
      simp [List.getElem?_append]
    · intro he
      simp [childLevel, MENU_NO_END] at he ⊢
      simp [he, bits4, MENU_LEVEL_DATA]
    · intro he
      simp [childLevel, he, MENU_NO_END, bits4]
    · intro he hl
      simp only [childLevel, he, MENU_NO_END, bits4]
      simp
      omega
    · exact h2

/-- C6 (amended) at the state right after `KDI_Menu_Init`, non-terminal flag,
command down: the child stores level 2 and `level_max` becomes 2. -/
theorem C6_add_child_level_witness :
    ∃ s1 N, KDI_Menu_Add_Child rootOnly (VoidPtr.str "A1") TYPE_DATA_CHAR MENU_NO_END
        MENU_COMMAND_DOWN = some s1 ∧
      s1.heap[1]? = some N ∧ N.level_menu = 2 ∧ s1.menu.level_max = 2 := by
  obtain ⟨_, hall⟩ := @C6_add_child_level rootOnly 0 rootItem rfl rfl (VoidPtr.str "A1")
    TYPE_DATA_CHAR MENU_NO_END MENU_COMMAND_DOWN
  obtain ⟨N, h1, _, _, h4, h5⟩ := hall _ (by decide :
    KDI_Menu_Add_Child rootOnly (VoidPtr.str "A1") TYPE_DATA_CHAR MENU_NO_END MENU_COMMAND_DOWN
      = some
        { heap := [{ rootItem with child_item := some 1 },
                   { data := VoidPtr.str "A1", type := 1, level_menu := 2, last_item := some 1,
                     next_item := some 1, parent_item := some 0, child_item := none }],
          menu := { rootOnly.menu with pointer := some 1, level := 2, level_max := 2 } })
  have h6 : N.level_menu = 2 := h4 rfl (by decide)
  refine ⟨_, N, by decide, h1, h6, ?_⟩
  rw [h5, h6]
  decide

/-- C7: on a cursor `c` that is an item, with or without a child,
`KDI_Menu_Add_Child` with command none returns; it creates one item `n` with
the payload and tag given whose `next_item` and `last_item` are `n` itself,
whose parent is `c` and which has no child; afterwards `c.child_item` = n and
nothing else of `c` has changed, no other item has changed, `level_max` is the
larger of its old value and the level stored in `n`, and the cursor, the
level, the root and the callbacks are as before. -/
theorem C7_add_child_links {s : State} {c : Nat} {x : KDI_Menu_item}
    (hp : s.menu.pointer = some c) (hx : s.heap[c]? = some x)
    (d : VoidPtr) (t : KDI_Type_data) (e : Nat) :
    ∃ (s1 : State) (N : KDI_Menu_item),
      KDI_Menu_Add_Child s d t.toNat e MENU_COMMAND_NO = some s1 ∧
      s1.heap.length = s.heap.length + 1 ∧
      s1.heap[s.heap.length]? = some N ∧
      N.data = d ∧ N.type = t.toNat ∧
      N.next_item = some s.heap.length ∧ N.last_item = some s.heap.length ∧
      N.parent_item = some c ∧ N.child_item = none ∧
      s1.heap[c]? = some { x with child_item := some s.heap.length } ∧
      (∀ i, i ≠ c → i ≠ s.heap.length → s1.heap[i]? = s.heap[i]?) ∧
      s1.menu = { s.menu with level_max := max s.menu.level_max N.level_menu } := by
  have hc : c < s.heap.length := lt_of_getElem? hx
  refine ⟨_, { data := d, type := bits4 t.toNat, level_menu := childLevel s.menu.level e,
                last_item := some s.heap.length, next_item := some s.heap.length,
                parent_item := some c, child_item := none },
    (Add_Child_eq hp hx d t.toNat e 0).trans (Drive_NO _), ?_, ?_, rfl, ?_, rfl, rfl,
    rfl, rfl, ?_, ?_, rfl⟩
  · simp
  · simp [List.getElem?_append]
  · exact bits4_toNat t
  · simp [List.getElem?_append, List.getElem?_set, hc]
  · intro i hic hin
    have hic2 : ¬ c = i := fun e => hic e.symm
    by_cases hlt : i < s.heap.length
    · simp [List.getElem?_append, List.getElem?_set, hlt, hic2]
    · simp [List.getElem?_append, hlt]
      rw [List.getElem?_eq_none (by simp; omega), List.getElem?_eq_none (by omega)]

/-- C7 on a cursor that already has a child: the root of `rootWithChild`, whose
child is the item 1, gets the new item 2 as its child. -/
theorem C7_add_child_links_witness :
    childOf rootWithChild.heap 0 = some 1 ∧
    ∃ (s1 : State) (N : KDI_Menu_item),
      KDI_Menu_Add_Child rootWithChild (VoidPtr.int 5) KDI_Type_data.INT.toNat MENU_END
        MENU_COMMAND_NO = some s1 ∧
      s1.heap[2]? = some N ∧ N.data = VoidPtr.int 5 ∧ N.parent_item = some 0 ∧
      childOf s1.heap 0 = some 2 ∧ s1.heap[1]? = rootWithChild.heap[1]? := by
  refine ⟨by decide, ?_⟩
  obtain ⟨s1, N, h1, _, h3, h4, _, _, _, h8, _, h10, h11, _⟩ :=
    @C7_add_child_links rootWithChild 0 { rootItem with child_item := some 1 } rfl rfl
      (VoidPtr.int 5) KDI_Type_data.INT MENU_END
  refine ⟨s1, N, h1, h3, h4, h8, ?_, h11 1 (by decide) (by decide)⟩
  simp [childOf, h10]
  rfl

/-! ## C9: the scenario of the usage example -/

/-- C9: on any navigator whose integer callback `f` is registered, and any
heap (`n` its length): `KDI_Menu_Init("A", text)` gives level 1;
`KDI_Menu_Add_Child("A1", text, MENU_NO_END, MENU_COMMAND_DOWN)` leaves the cursor
on A1 (address n + 1) with level 2 and `level_max` 2;
`KDI_Menu_Add_Child(v, integer, MENU_END, MENU_COMMAND_NO)` gives A1 a child (address
n + 2) of stored level 0 and leaves the navigator as it was; down moves the
cursor to that leaf with level 0; the handler there calls `f` with `v` and makes
no other call; up returns the cursor to A1 with level 2. -/
theorem C9_scenario (s0 : State) (f : Nat) (v : Int) :
    ∃ s1 s2 s3 s4 s5 : State,
      KDI_Menu_Init (KDI_Menu_Set_print_int s0 (some f)) (VoidPtr.str "A") TYPE_DATA_CHAR
        = some s1 ∧
      s1.menu.level = 1 ∧
      KDI_Menu_Add_Child s1 (VoidPtr.str "A1") TYPE_DATA_CHAR MENU_NO_END MENU_COMMAND_DOWN
        = some s2 ∧
      s2.menu.pointer = some (s0.heap.length + 1) ∧
      KDI_MenuItem_GetData s2.heap s2.menu.pointer = some (VoidPtr.str "A1") ∧
      s2.menu.level = 2 ∧ s2.menu.level_max = 2 ∧
      KDI_Menu_Add_Child s2 (VoidPtr.int v) TYPE_DATA_INT MENU_END MENU_COMMAND_NO = some s3 ∧
      KDI_MenuItem_GetLinkOnChildMenuItem s3.heap (some (s0.heap.length + 1))
        = some (some (s0.heap.length + 2)) ∧
      KDI_MenuItem_GetLevel s3.heap (some (s0.heap.length + 2)) = some 0 ∧
      s3.menu = s2.menu ∧
      KDI_Menu_Drive s3 MENU_COMMAND_DOWN = some s4 ∧
      s4.menu.pointer = some (s0.heap.length + 2) ∧ s4.menu.level = 0 ∧
      KDI_Menu_Handler s4 = some [Call.print_int f v] ∧
      KDI_Menu_Drive s4 MENU_COMMAND_UP = some s5 ∧
      s5.menu.pointer = some (s0.heap.length + 1) ∧ s5.menu.level = 2 := by
  obtain ⟨h0, m0⟩ := s0
  obtain ⟨mh, mp, lv, lm, mc, f1, f2, f3⟩ := m0
  refine ⟨
    { heap := h0 ++ [⟨VoidPtr.str "A", 1, 1, some h0.length, some h0.length, none, none⟩],
      menu := ⟨some h0.length, some h0.length, 1, 1, mc, f1, some f, f3⟩ },
    { heap := h0 ++ [⟨VoidPtr.str "A", 1, 1, some h0.length, some h0.length, none,
                      some (h0.length + 1)⟩,
                     ⟨VoidPtr.str "A1", 1, 2, some (h0.length + 1), some (h0.length + 1),
                      some h0.length, none⟩],
      menu := ⟨some h0.length, some (h0.length + 1), 2, 2, mc, f1, some f, f3⟩ },
    { heap := h0 ++ [⟨VoidPtr.str "A", 1, 1, some h0.length, some h0.length, none,
                      some (h0.length + 1)⟩,
                     ⟨VoidPtr.str "A1", 1, 2, some (h0.length + 1), some (h0.length + 1),
                      some h0.length, some (h0.length + 2)⟩,
                     ⟨VoidPtr.int v, 2, 0, some (h0.length + 2), some (h0.length + 2),
                      some (h0.length + 1), none⟩],
      menu := ⟨some h0.length, some (h0.length + 1), 2, 2, mc, f1, some f, f3⟩ },
    { heap := h0 ++ [⟨VoidPtr.str "A", 1, 1, some h0.length, some h0.length, none,
                      some (h0.length + 1)⟩,
                     ⟨VoidPtr.str "A1", 1, 2, some (h0.length + 1), some (h0.length + 1),
                      some h0.length, some (h0.length + 2)⟩,
                     ⟨VoidPtr.int v, 2, 0, some (h0.length + 2), some (h0.length + 2),
                      some (h0.length + 1), none⟩],
      menu := ⟨some h0.length, some (h0.length + 2), 0, 2, mc, f1, some f, f3⟩ },
    { heap := h0 ++ [⟨VoidPtr.str "A", 1, 1, some h0.length, some h0.length, none,
                      some (h0.length + 1)⟩,
                     ⟨VoidPtr.str "A1", 1, 2, some (h0.length + 1), some (h0.length + 1),
                      some h0.length, some (h0.length + 2)⟩,
                     ⟨VoidPtr.int v, 2, 0, some (h0.length + 2), some (h0.length + 2),
                      some (h0.length + 1), none⟩],
      menu := ⟨some h0.length, some (h0.length + 1), 2, 2, mc, f1, some f, f3⟩ },
    ?_, rfl, ?_, rfl, ?_, rfl, rfl, ?_, ?_, ?_, rfl, ?_, rfl, rfl, ?_, ?_, rfl, rfl⟩
  · rw [Init_eq]
    simp [KDI_Menu_Set_print_int, bits4, TYPE_DATA_CHAR]
  · rw [Add_Child_eq (c := h0.length)
      (x := ⟨VoidPtr.str "A", 1, 1, some h0.length, some h0.length, none, none⟩) rfl (by simp)]
    simp [KDI_Menu_Drive, KDI_Menu_Command_Down, MENU_COMMAND_DOWN, MENU_COMMAND_NO,
      MENU_COMMAND_FORWARD, MENU_COMMAND_BACKWARD, MENU_COMMAND_UP, MENU_NO_END, MENU_LEVEL_DATA,
      childLevel, bits4, TYPE_DATA_CHAR, pointer_child_item, load, andThen,
      getElem?_append_add, getElem?_append_length, set_append_add, set_append_length,
      List.getElem?_cons_zero, List.getElem?_cons_succ,
      -List.getElem?_eq_getElem]
  · simp [KDI_MenuItem_GetData, load, getElem?_append_add, List.getElem?_cons_zero, List.getElem?_cons_succ,
      -List.getElem?_eq_getElem]
  · rw [Add_Child_eq (c := h0.length + 1)
      (x := ⟨VoidPtr.str "A1", 1, 2, some (h0.length + 1), some (h0.length + 1),
             some h0.length, none⟩) rfl
      (by simp [getElem?_append_add, List.getElem?_cons_zero, List.getElem?_cons_succ,
      -List.getElem?_eq_getElem])]
    simp [Drive_NO, MENU_COMMAND_NO, MENU_END, MENU_LEVEL_DATA, childLevel, bits4, TYPE_DATA_INT,
      set_append_add, List.getElem?_cons_zero, List.getElem?_cons_succ,
      -List.getElem?_eq_getElem]
  · simp [KDI_MenuItem_GetLinkOnChildMenuItem, load, getElem?_append_add,
      List.getElem?_cons_zero, List.getElem?_cons_succ,
      -List.getElem?_eq_getElem]
  · simp [KDI_MenuItem_GetLevel, load, getElem?_append_add, List.getElem?_cons_zero, List.getElem?_cons_succ,
      -List.getElem?_eq_getElem]
  · simp [KDI_Menu_Drive, KDI_Menu_Command_Down, MENU_COMMAND_DOWN, MENU_COMMAND_NO,
      MENU_COMMAND_FORWARD, MENU_COMMAND_BACKWARD, MENU_COMMAND_UP, MENU_LEVEL_DATA,
      pointer_child_item, load, andThen, getElem?_append_add, List.getElem?_cons_zero, List.getElem?_cons_succ,
      -List.getElem?_eq_getElem]
  · simp [KDI_Menu_Handler, load, andThen, TYPE_DATA_CHAR, TYPE_DATA_INT, getElem?_append_add,
      List.getElem?_cons_zero, List.getElem?_cons_succ,
      -List.getElem?_eq_getElem]
  · simp [KDI_Menu_Drive, KDI_Menu_Command_Up, MENU_COMMAND_DOWN, MENU_COMMAND_NO,
      MENU_COMMAND_FORWARD, MENU_COMMAND_BACKWARD, MENU_COMMAND_UP, MENU_LEVEL_DATA,
      pointer_parent_item, load, andThen, getElem?_append_add, List.getElem?_cons_zero, List.getElem?_cons_succ,
      -List.getElem?_eq_getElem]

/-! ## C10: three siblings added with command forward -/

/-- On a cursor whose `next_item` is an item, `KDI_Menu_Add_Next` with a
command is `KDI_Menu_Add_Next` with command none followed by the command. -/
theorem Add_Next_cmd {s s0 : State} {c hd : Nat} {x y : KDI_Menu_item}
    (hp : s.menu.pointer = some c) (hx : s.heap[c]? = some x)
    (hn : x.next_item = some hd) (hy : s.heap[hd]? = some y) {d : VoidPtr} {t : Nat}
    (h0 : KDI_Menu_Add_Next s d t 0 = some s0) (cmd : Nat) :
    KDI_Menu_Add_Next s d t cmd = KDI_Menu_Drive s0 cmd := by
  rw [Add_Next_eq hp hx hn hy, Drive_NO] at h0
  rw [Add_Next_eq hp hx hn hy, Option.some.inj h0]

theorem Drive_FORWARD_eq {s : State} {c : Nat} {x : KDI_Menu_item}
    (hp : s.menu.pointer = some c) (hx : s.heap[c]? = some x) :
    KDI_Menu_Drive s MENU_COMMAND_FORWARD
      = some { s with menu := { s.menu with pointer := x.next_item } } := by
  simp only [KDI_Menu_Drive, MENU_COMMAND_FORWARD, MENU_COMMAND_NO, one_ne_zero, if_false,
    if_true]
  exact Forward_eq hp hx

/-- `KDI_Menu_Add_Next` with command forward returns with the cursor on the new
item. -/
theorem Add_Next_FORWARD_step {s : State} {c hd : Nat} {x y : KDI_Menu_item}
    (hp : s.menu.pointer = some c) (hx : s.heap[c]? = some x)
    (hn : x.next_item = some hd) (hy : s.heap[hd]? = some y) (d : VoidPtr) (t : Nat) :
    ∃ s1, KDI_Menu_Add_Next s d t MENU_COMMAND_FORWARD = some s1 ∧
      s1.menu.pointer = some s.heap.length := by
  obtain ⟨s0, h0⟩ := Add_Next_NO_returns hp hx hn hy d t
  obtain ⟨-, -, -, hc0, -, -⟩ := Add_Next_heap hp hx hn hy h0
  have hm := Add_Next_NO_menu h0
  rw [Add_Next_cmd hp hx hn hy h0, Drive_FORWARD_eq (hm ▸ hp) hc0]
  exact ⟨_, rfl, rfl⟩

/-- C10 as stated fails right after `KDI_Menu_Init("A")`: after the three calls
the cursor is on A3, and one more forward lands on the root A, not on A1. -/
theorem C10_counterexample :
    (initThen zeroState (VoidPtr.str "A") TYPE_DATA_CHAR threeSiblings).bind
      (fun s => KDI_MenuItem_GetData s.heap s.menu.pointer) = some (VoidPtr.str "A3") ∧
    (initThen zeroState (VoidPtr.str "A") TYPE_DATA_CHAR
        (threeSiblings ++ [Op.Drive MENU_COMMAND_FORWARD])).bind
      (fun s => KDI_MenuItem_GetData s.heap s.menu.pointer) = some (VoidPtr.str "A") := by
  decide

/-- C10 (amended): from a cursor `c` whose `next_item` is the item `hd`, three
`KDI_Menu_Add_Next` calls with command forward return; they create the items
n, n + 1, n + 2 (n the length of the heap) carrying the three payloads, and
leave the cursor on the third; one more forward moves the cursor to `hd`, the
item that followed the starting cursor, which is none of the three new items. -/
theorem C10_three_siblings {s : State} {c hd : Nat} {x y : KDI_Menu_item}
    (hp : s.menu.pointer = some c) (hx : s.heap[c]? = some x)
    (hn : x.next_item = some hd) (hy : s.heap[hd]? = some y)
    (d1 d2 d3 : VoidPtr) (t1 t2 t3 : Nat) :
    ∃ s1 s2 s3 s4 : State,
      KDI_Menu_Add_Next s d1 t1 MENU_COMMAND_FORWARD = some s1 ∧
      KDI_Menu_Add_Next s1 d2 t2 MENU_COMMAND_FORWARD = some s2 ∧
      KDI_Menu_Add_Next s2 d3 t3 MENU_COMMAND_FORWARD = some s3 ∧
      KDI_MenuItem_GetData s3.heap (some s.heap.length) = some d1 ∧
      KDI_MenuItem_GetData s3.heap (some (s.heap.length + 1)) = some d2 ∧
      KDI_MenuItem_GetData s3.heap (some (s.heap.length + 2)) = some d3 ∧
      s3.menu.pointer = some (s.heap.length + 2) ∧
      KDI_Menu_Command_Forward s3 = some s4 ∧
      s4.menu.pointer = some hd ∧ hd < s.heap.length := by
  have hh : hd < s.heap.length := lt_of_getElem? hy
  obtain ⟨s1, e1, m1⟩ := Add_Next_FORWARD_step hp hx hn hy d1 t1
  obtain ⟨-, l1, n1, -, y1, -⟩ := Add_Next_heap hp hx hn hy e1
  have p1 : s1.menu.pointer = some s.heap.length := m1
  obtain ⟨s2, e2, m2⟩ := Add_Next_FORWARD_step p1 n1 rfl y1 d2 t2
  obtain ⟨-, l2, n2, c2, y2, -⟩ := Add_Next_heap p1 n1 rfl y1 e2
  have p2 : s2.menu.pointer = some (s.heap.length + 1) := by rw [m2, l1]
  rw [l1] at n2 c2 y2
  obtain ⟨s3, e3, m3⟩ := Add_Next_FORWARD_step p2 n2 rfl y2 d3 t3
  obtain ⟨-, l3, n3, c3, -, f3⟩ := Add_Next_heap p2 n2 rfl y2 e3
  have p3 : s3.menu.pointer = some (s.heap.length + 2) := by rw [m3, l2, l1]
  rw [l2, l1] at n3 c3 f3
  have a1 : s3.heap[s.heap.length]? = s2.heap[s.heap.length]? :=
    f3 _ (by omega) (by omega) (by omega)
  refine ⟨s1, s2, s3, _, e1, e2, e3, ?_, ?_, ?_, p3, Forward_eq p3 n3, rfl, hh⟩
  · simp [KDI_MenuItem_GetData, load, a1, c2]
  · simp [KDI_MenuItem_GetData, load, c3]
  · simp [KDI_MenuItem_GetData, load, n3]

/-- C10 (amended) right after `KDI_Menu_Init`: the starting cursor is the root
and its own successor, so the forward after A3 lands on the root. -/
theorem C10_three_siblings_witness :
    ∃ s3 s4 : State,
      callAll rootOnly threeSiblings = some s3 ∧
      s3.menu.pointer = some 3 ∧
      KDI_Menu_Command_Forward s3 = some s4 ∧ s4.menu.pointer = some 0 := by
  obtain ⟨s1, s2, s3, s4, e1, e2, e3, -, -, -, p3, e4, p4, -⟩ :=
    @C10_three_siblings rootOnly 0 0 rootItem rootItem rfl rfl rfl rfl
      (VoidPtr.str "A1") (VoidPtr.str "A2") (VoidPtr.str "A3")
      TYPE_DATA_CHAR TYPE_DATA_CHAR TYPE_DATA_CHAR
  refine ⟨s3, s4, ?_, p3, e4, p4⟩
  simp [callAll, threeSiblings, Op.call, e1, e2, e3, andThen]

/-! ## The links after each constructor -/

/-- The four links of every item after `KDI_Menu_Init`. -/
theorem Init_views (h : Heap) (r : KDI_Menu_item) (a : Nat)
    (hn : r.next_item = some h.length) (hl : r.last_item = some h.length)
    (hc : r.child_item = none) (hq : r.parent_item = none) :
    nextOf (h ++ [r]) a = (if a = h.length then some h.length else nextOf h a) ∧
    prevOf (h ++ [r]) a = (if a = h.length then some h.length else prevOf h a) ∧
    childOf (h ++ [r]) a = (if a = h.length then none else childOf h a) ∧
    parentOf (h ++ [r]) a = (if a = h.length then none else parentOf h a) := by
  rcases Nat.lt_trichotomy a h.length with hlt | heq | hgt
  · have hne : a ≠ h.length := by omega
    simp [nextOf, prevOf, childOf, parentOf, List.getElem?_append, hlt, hne]
  · subst heq
    simp [nextOf, prevOf, childOf, parentOf, hn, hl, hc, hq]
  · have hne : a ≠ h.length := by omega
    have h1 : (h ++ [r])[a]? = none := List.getElem?_eq_none (by simp; omega)
    have h2 : h[a]? = none := List.getElem?_eq_none (by omega)
    simp [nextOf, prevOf, childOf, parentOf, h1, h2, hne]

/-- The four links of every item after `KDI_Menu_Add_Next`. -/
theorem Add_Next_views {s s1 : State} {c hd : Nat} {x y : KDI_Menu_item}
    (hp : s.menu.pointer = some c) (hx : s.heap[c]? = some x)
    (hn : x.next_item = some hd) (hy : s.heap[hd]? = some y)
    {d : VoidPtr} {t cmd : Nat} (h : KDI_Menu_Add_Next s d t cmd = some s1) (a : Nat) :
    nextOf s1.heap a = (if a = s.heap.length then some hd
      else if a = c then some s.heap.length else nextOf s.heap a) ∧
    prevOf s1.heap a = (if a = s.heap.length then some c
      else if a = hd then some s.heap.length else prevOf s.heap a) ∧
    childOf s1.heap a = (if a = s.heap.length then none else childOf s.heap a) ∧
    parentOf s1.heap a = (if a = s.heap.length then parentOf s.heap c
      else parentOf s.heap a) := by
  have hc : c < s.heap.length := lt_of_getElem? hx
  have hh : hd < s.heap.length := lt_of_getElem? hy
  obtain ⟨-, -, f1, f2, f3, f4⟩ := Add_Next_heap hp hx hn hy h
  by_cases han : a = s.heap.length
  · subst han
    simp [nextOf, prevOf, childOf, parentOf, f1, hx]
  · by_cases hac : a = c
    · subst hac
      by_cases hcd : hd = a
      · subst hcd
        simp [nextOf, prevOf, childOf, parentOf, f2, hx, han]
      · have hcd2 : ¬ a = hd := fun e => hcd e.symm
        simp [nextOf, prevOf, childOf, parentOf, f2, hx, han, hcd, hcd2]
    · by_cases hah : a = hd
      · subst hah
        have hca : ¬ a = c := hac
        simp [nextOf, prevOf, childOf, parentOf, f3, hy, han, hca]
      · simp [nextOf, prevOf, childOf, parentOf, f4 a hac hah han, han, hac, hah]

/-- The four links of every item after `KDI_Menu_Add_Child`. -/
theorem Add_Child_views {s s1 : State} {c : Nat} {x : KDI_Menu_item}
    (hp : s.menu.pointer = some c) (hx : s.heap[c]? = some x)
    {d : VoidPtr} {t e cmd : Nat} (h : KDI_Menu_Add_Child s d t e cmd = some s1) (a : Nat) :
    s1.heap.length = s.heap.length + 1 ∧
    nextOf s1.heap a = (if a = s.heap.length then some s.heap.length else nextOf s.heap a) ∧
    prevOf s1.heap a = (if a = s.heap.length then some s.heap.length else prevOf s.heap a) ∧
    childOf s1.heap a = (if a = s.heap.length then none
      else if a = c then some s.heap.length else childOf s.heap a) ∧
    parentOf s1.heap a = (if a = s.heap.length then some c else parentOf s.heap a) := by
  have hc : c < s.heap.length := lt_of_getElem? hx
  obtain ⟨h1, -, -⟩ := Add_Child_heap hp hx h
  rw [h1]
  refine ⟨by simp, ?_⟩
  rcases Nat.lt_trichotomy a s.heap.length with hlt | heq | hgt
  · have hne : a ≠ s.heap.length := by omega
    by_cases hac : a = c
    · subst hac
      simp [nextOf, prevOf, childOf, parentOf, List.getElem?_append, List.getElem?_set, hlt,
        hne, hx]
    · have hca : ¬ c = a := fun e => hac e.symm
      simp [nextOf, prevOf, childOf, parentOf, List.getElem?_append, List.getElem?_set, hlt,
        hne, hac, hca]
  · subst heq
    simp [nextOf, prevOf, childOf, parentOf, List.getElem?_append]
  · have hne : a ≠ s.heap.length := by omega
    have hac : a ≠ c := by omega
    have e1 : (s.heap.set c { x with child_item := some s.heap.length } ++
        [{ data := d, type := bits4 t, level_menu := childLevel s.menu.level e,
           last_item := some s.heap.length, next_item := some s.heap.length,
           parent_item := some c, child_item := none }])[a]? = none :=
      List.getElem?_eq_none (by simp; omega)
    have e2 : s.heap[a]? = none := List.getElem?_eq_none (by omega)
    simp only [nextOf, prevOf, childOf, parentOf, e1, e2]
    simp [hne, hac]

/-! ## The invariant of the links -/

theorem lt_of_view {h : Heap} {a b : Nat} {f : KDI_Menu_item → Ptr}
    (hv : (h[a]?).bind f = some b) : a < h.length := by
  by_contra hge
  rw [List.getElem?_eq_none (by omega)] at hv
  simp at hv

theorem getElem?_of_lt {h : Heap} {a : Nat} (hlt : a < h.length) : ∃ x, h[a]? = some x :=
  ⟨h[a], List.getElem?_eq_getElem hlt⟩

theorem LinksOK_Add_Next {base : Nat} {h h1 : Heap} {c hd : Nat}
    (hl : LinksOK base h) (hlen : h1.length = h.length + 1)
    (hcb : base ≤ c) (hc : c < h.length) (hnx : nextOf h c = some hd)
    (v : ∀ a,
      nextOf h1 a = (if a = h.length then some hd
        else if a = c then some h.length else nextOf h a) ∧
      prevOf h1 a = (if a = h.length then some c
        else if a = hd then some h.length else prevOf h a) ∧
      childOf h1 a = (if a = h.length then none else childOf h a) ∧
      parentOf h1 a = (if a = h.length then parentOf h c else parentOf h a)) :
    LinksOK base h1 := by
  obtain ⟨⟨hd1, e1, hdb, hpv⟩, -, -, hpc⟩ := hl c hcb hc
  rw [hnx] at e1
  have e2 : hd = hd1 := Option.some.inj e1
  subst e2
  have hh : hd < h.length := lt_of_view hpv
  intro i hib hil
  rw [hlen] at hil
  simp only [v]
  by_cases hin : i = h.length
  · subst hin
    have hne1 : hd ≠ h.length := by omega
    have hne2 : c ≠ h.length := by omega
    refine ⟨⟨hd, by simp, hdb, by simp [hne1]⟩, ⟨c, by simp, hcb, by simp [hne2]⟩, by simp, ?_⟩
    intro j hj
    simp only [if_true] at hj
    obtain ⟨q1, q2⟩ := hpc j hj
    exact ⟨q1, by omega⟩
  · have hi : i < h.length := by omega
    obtain ⟨⟨j1, a1, b1, c1⟩, ⟨j2, a2, b2, c2⟩, hch, hpa⟩ := hl i hib hi
    have hj1 : j1 < h.length := lt_of_view c1
    have hj2 : j2 < h.length := lt_of_view c2
    refine ⟨?_, ?_, ?_, ?_⟩
    · by_cases hic : i = c
      · subst hic
        exact ⟨h.length, by simp [hin], by omega, by simp⟩
      · refine ⟨j1, by simp [hin, hic, a1], b1, ?_⟩
        have hjn : j1 ≠ h.length := by omega
        have hjh : j1 ≠ hd := by
          intro e
          subst e
          rw [hpv] at c1
          exact hic (Option.some.inj c1).symm
        simp [hjn, hjh, c1]
    · by_cases hih : i = hd
      · subst hih
        have hne2 : c ≠ h.length := by omega
        exact ⟨h.length, by simp [hin], by omega, by simp⟩
      · refine ⟨j2, by simp [hin, hih, a2], b2, ?_⟩
        have hjn : j2 ≠ h.length := by omega
        have hjc : j2 ≠ c := by
          intro e
          subst e
          rw [hnx] at c2
          exact hih (Option.some.inj c2).symm
        simp [hjn, hjc, c2]
    · intro j hj
      simp only [hin, if_false] at hj
      obtain ⟨q1, q2⟩ := hch j hj
      have hjn : j ≠ h.length := by
        have := lt_of_view q2
        omega
      exact ⟨q1, by simp [hjn, q2]⟩
    · intro j hj
      simp only [hin, if_false] at hj
      obtain ⟨q1, q2⟩ := hpa j hj
      exact ⟨q1, by omega⟩

theorem LinksOK_Add_Child {base : Nat} {h h1 : Heap} {c : Nat}
    (hl : LinksOK base h) (hlen : h1.length = h.length + 1)
    (hcb : base ≤ c) (hc : c < h.length)
    (v : ∀ a,
      nextOf h1 a = (if a = h.length then some h.length else nextOf h a) ∧
      prevOf h1 a = (if a = h.length then some h.length else prevOf h a) ∧
      childOf h1 a = (if a = h.length then none
        else if a = c then some h.length else childOf h a) ∧
      parentOf h1 a = (if a = h.length then some c else parentOf h a)) :
    LinksOK base h1 := by
  intro i hib hil
  rw [hlen] at hil
  simp only [v]
  by_cases hin : i = h.length
  · subst hin
    refine ⟨⟨h.length, by simp, hib, by simp⟩, ⟨h.length, by simp, hib, by simp⟩, by simp, ?_⟩
    intro j hj
    simp only [if_true, Option.some.injEq] at hj
    subst hj
    exact ⟨hcb, by omega⟩
  · have hi : i < h.length := by omega
    obtain ⟨⟨j1, a1, b1, c1⟩, ⟨j2, a2, b2, c2⟩, hch, hpa⟩ := hl i hib hi
    have hj1 : j1 ≠ h.length := by
      have := lt_of_view c1
      omega
    have hj2 : j2 ≠ h.length := by
      have := lt_of_view c2
      omega
    refine ⟨⟨j1, by simp [hin, a1], b1, by simp [hj1, c1]⟩,
      ⟨j2, by simp [hin, a2], b2, by simp [hj2, c2]⟩, ?_, ?_⟩
    · intro j hj
      simp only [hin, if_false] at hj
      by_cases hic : i = c
      · subst hic
        simp only [if_true, Option.some.injEq] at hj
        subst hj
        exact ⟨by omega, by simp⟩
      · simp only [hic, if_false] at hj
        obtain ⟨q1, q2⟩ := hch j hj
        have hjn : j ≠ h.length := by
          have := lt_of_view q2
          omega
        exact ⟨q1, by simp [hjn, q2]⟩
    · intro j hj
      simp only [hin, if_false] at hj
      obtain ⟨q1, q2⟩ := hpa j hj
      exact ⟨q1, by omega⟩

theorem Inv_init {s0 s : State} {d : VoidPtr} {t : Nat} (h : KDI_Menu_Init s0 d t = some s) :
    Inv s0.heap.length s := by
  rw [Init_eq] at h
  have hs := Option.some.inj h
  subst hs
  refine ⟨?_, ⟨s0.heap.length, rfl, le_refl _, by simp⟩, ?_⟩
  · intro i hib hil
    have hi : i = s0.heap.length := by
      simp at hil
      omega
    subst hi
    have v := fun a => Init_views s0.heap
      { data := d, type := bits4 t, level_menu := 1, last_item := some s0.heap.length,
        next_item := some s0.heap.length, parent_item := none, child_item := none } a
      rfl rfl rfl rfl
    simp only [v]
    exact ⟨⟨s0.heap.length, by simp, le_refl _, by simp⟩,
      ⟨s0.heap.length, by simp, le_refl _, by simp⟩, by simp, by simp⟩
  · intro c hc
    simp only [Option.some.injEq] at hc
    subst hc
    exact ⟨le_refl _, by simp⟩

theorem Inv_moved {base : Nat} {s s1 : State} (hi : Inv base s) (hm : Moved s s1) :
    Inv base s1 := by
  obtain ⟨hl, ⟨r, hr, hrb, hrl⟩, hptr⟩ := hi
  obtain ⟨e1, e2, -, -, -, -, -, hp⟩ := hm
  refine ⟨e1 ▸ hl, ⟨r, e2 ▸ hr, hrb, e1 ▸ hrl⟩, ?_⟩
  intro c1 hc1
  rw [e1]
  rcases hp with hp | ⟨c, x, hc, hx, hp⟩
  · exact hptr c1 (hp ▸ hc1)
  · obtain ⟨hcb, hcl⟩ := hptr c hc
    obtain ⟨⟨j1, a1, b1, c1'⟩, ⟨j2, a2, b2, c2⟩, hch, hpa⟩ := hl c hcb hcl
    simp only [nextOf, prevOf, childOf, parentOf, hx, Option.some_bind] at a1 a2 hch hpa
    rcases hp with hp | hp | hp | hp
    · rw [hc1, a1] at hp
      have e := Option.some.inj hp
      subst e
      exact ⟨b1, lt_of_view c1'⟩
    · rw [hc1, a2] at hp
      have e := Option.some.inj hp
      subst e
      exact ⟨b2, lt_of_view c2⟩
    · rw [hc1] at hp
      exact hpa c1 hp.symm
    · rw [hc1] at hp
      obtain ⟨q1, q2⟩ := hch c1 hp.symm
      exact ⟨q1, lt_of_view q2⟩

theorem Inv_Add_Next {base : Nat} {s s1 : State} {d : VoidPtr} {t cmd : Nat}
    (hi : Inv base s) (h : KDI_Menu_Add_Next s d t cmd = some s1) : Inv base s1 := by
  obtain ⟨hl, ⟨r, hr, hrb, hrl⟩, hptr⟩ := hi
  cases hp : s.menu.pointer with
  | none =>
    rw [Add_Next_null hp] at h
    exact absurd h (by simp)
  | some c =>
    obtain ⟨hcb, hcl⟩ := hptr c hp
    obtain ⟨x, hx⟩ := getElem?_of_lt hcl
    obtain ⟨⟨hd, a1, b1, c1⟩, -⟩ := hl c hcb hcl
    obtain ⟨y, hy⟩ := getElem?_of_lt (lt_of_view c1)
    have hn : x.next_item = some hd := by
      simpa [nextOf, hx] using a1
    obtain ⟨s0, h0⟩ := Add_Next_NO_returns hp hx hn hy d t
    rw [Add_Next_cmd hp hx hn hy h0] at h
    refine Inv_moved ?_ (Drive_moved h)
    obtain ⟨-, f1, -⟩ := Add_Next_heap hp hx hn hy h0
    have hm := Add_Next_NO_menu h0
    refine ⟨LinksOK_Add_Next hl f1 hcb hcl a1 (fun a => Add_Next_views hp hx hn hy h0 a),
      ⟨r, hm ▸ hr, hrb, by omega⟩, ?_⟩
    intro c2 hc2
    rw [hm, hp] at hc2
    have e := Option.some.inj hc2
    subst e
    exact ⟨hcb, by omega⟩

theorem Inv_Add_Child {base : Nat} {s s1 : State} {d : VoidPtr} {t e cmd : Nat}
    (hi : Inv base s) (h : KDI_Menu_Add_Child s d t e cmd = some s1) : Inv base s1 := by
  obtain ⟨hl, ⟨r, hr, hrb, hrl⟩, hptr⟩ := hi
  cases hp : s.menu.pointer with
  | none =>
    rw [Add_Child_null hp] at h
    exact absurd h (by simp)
  | some c =>
    obtain ⟨hcb, hcl⟩ := hptr c hp
    obtain ⟨x, hx⟩ := getElem?_of_lt hcl
    have h0 := (Add_Child_eq hp hx d t e 0).trans (Drive_NO _)
    have hcmd : KDI_Menu_Add_Child s d t e cmd = KDI_Menu_Drive _ cmd := Add_Child_eq hp hx d t e cmd
    rw [hcmd] at h
    refine Inv_moved ?_ (Drive_moved h)
    have hlen := (Add_Child_views hp hx h0 0).1
    refine ⟨LinksOK_Add_Child hl hlen hcb hcl (fun a => (Add_Child_views hp hx h0 a).2),
      ⟨r, hr, hrb, by omega⟩, ?_⟩
    intro c2 hc2
    simp only at hc2
    rw [hp] at hc2
    have e := Option.some.inj hc2
    subst e
    exact ⟨hcb, by omega⟩

theorem Inv_Start {base : Nat} {s s1 : State} (hi : Inv base s)
    (h : KDI_Menu_Start s = some s1) : Inv base s1 := by
  obtain ⟨hl, ⟨r, hr, hrb, hrl⟩, -⟩ := hi
  simp only [KDI_Menu_Start, Option.some.injEq] at h
  subst h
  refine ⟨hl, ⟨r, hr, hrb, hrl⟩, ?_⟩
  intro c hc
  simp only at hc
  rw [hr] at hc
  have e := Option.some.inj hc
  subst e
  exact ⟨hrb, hrl⟩

theorem Inv_call {base : Nat} {s s1 : State} {op : Op} (hi : Inv base s)
    (h : op.call s = some s1) : Inv base s1 := by
  cases op with
  | Add_Next d t c => exact Inv_Add_Next hi h
  | Add_Child d t e c => exact Inv_Add_Child hi h
  | Start => exact Inv_Start hi h
  | Drive c => exact Inv_moved hi (Drive_moved h)

theorem Inv_callAll {base : Nat} {ops : List Op} {s s1 : State} (hi : Inv base s)
    (h : callAll s ops = some s1) : Inv base s1 := by
  induction ops generalizing s with
  | nil =>
    simp only [callAll, Option.some.injEq] at h
    exact h ▸ hi
  | cons op ops ih =>
    simp only [callAll, andThen_eq_some] at h
    obtain ⟨s2, h1, h2⟩ := h
    exact ih (Inv_call hi h1) h2

theorem Inv_initThen {s0 s : State} {d : VoidPtr} {t : Nat} {ops : List Op}
    (h : initThen s0 d t ops = some s) : Inv s0.heap.length s := by
  simp only [initThen, andThen_eq_some] at h
  obtain ⟨s1, h1, h2⟩ := h
  exact Inv_callAll (Inv_init h1) h2

/-! ## The four navigation commands on a cursor that is an item -/

theorem Down_group {s : State} {c : Nat} {x : KDI_Menu_item}
    (hp : s.menu.pointer = some c) (hx : s.heap[c]? = some x)
    (h1 : s.menu.level < s.menu.level_max) (h2 : s.menu.level ≠ 0) :
    KDI_Menu_Command_Down s = some
      { s with menu := { s.menu with level := s.menu.level + 1, pointer := x.child_item } } := by
  have h3 : ¬ s.menu.level + 1 > s.menu.level_max := by omega
  simp [KDI_Menu_Command_Down, h1, h2, h3, MENU_LEVEL_DATA, pointer_child_item, load, hp, hx,
    andThen]

theorem Down_data {s : State} {c ch : Nat} {x y : KDI_Menu_item}
    (hp : s.menu.pointer = some c) (hx : s.heap[c]? = some x)
    (h1 : ¬ s.menu.level < s.menu.level_max)
    (hc : x.child_item = some ch) (hy : s.heap[ch]? = some y) (h0 : y.level_menu = 0) :
    KDI_Menu_Command_Down s = some
      { s with menu := { s.menu with pointer := some ch, level := 0 } } := by
  simp [KDI_Menu_Command_Down, h1, MENU_LEVEL_DATA, pointer_child_item, load, hp, hx, hc, hy, h0,
    andThen]

theorem Up_group {s : State} {c : Nat} {x : KDI_Menu_item}
    (hp : s.menu.pointer = some c) (hx : s.heap[c]? = some x) (h1 : 1 < s.menu.level) :
    KDI_Menu_Command_Up s = some
      { s with menu := { s.menu with level := s.menu.level - 1, pointer := x.parent_item } } := by
  simp [KDI_Menu_Command_Up, h1, natCast_not_neg, pointer_parent_item, load, hp, hx, andThen]

theorem Up_data {s : State} {c p : Nat} {x y : KDI_Menu_item}
    (hp : s.menu.pointer = some c) (hx : s.heap[c]? = some x) (h0 : s.menu.level = 0)
    (hq : x.parent_item = some p) (hy : s.heap[p]? = some y) :
    KDI_Menu_Command_Up s = some
      { s with menu := { s.menu with pointer := some p, level := y.level_menu } } := by
  simp [KDI_Menu_Command_Up, h0, MENU_LEVEL_DATA, pointer_parent_item, load, hp, hx, hq, hy,
    andThen]

theorem State_pointer_eta {s : State} {p : Ptr} (hp : s.menu.pointer = p) :
    ({ s with menu := { s.menu with pointer := p } } : State) = s := by
  obtain ⟨h, m⟩ := s
  obtain ⟨mh, mp, lv, lm, mc, f1, f2, f3⟩ := m
  simp only at hp
  subst hp
  rfl

/-! ## C3: `next_item` and `last_item` answer each other -/

/-- C3: in every state reached from `KDI_Menu_Init` by calls of
`KDI_Menu_Add_Next`, `KDI_Menu_Add_Child`, `KDI_Menu_Start` and `KDI_Menu_Drive` that
all return, every item X created since (address at least the length of the
initial heap) has `X.next_item.last_item` = X and `X.last_item.next_item` = X;
and with a cursor present, forward then backward, and backward then forward,
both return and give the very state they started from (cursor and level
included). -/
theorem C3_next_last_inverse {s0 s : State} {d : VoidPtr} {t : Nat} {ops : List Op}
    (h : initThen s0 d t ops = some s) :
    (∀ i x, s0.heap.length ≤ i → s.heap[i]? = some x →
      (∃ j y, x.next_item = some j ∧ s.heap[j]? = some y ∧ y.last_item = some i) ∧
      (∃ j y, x.last_item = some j ∧ s.heap[j]? = some y ∧ y.next_item = some i)) ∧
    (∀ c, s.menu.pointer = some c →
      (∃ s1, KDI_Menu_Command_Forward s = some s1 ∧ KDI_Menu_Command_Backward s1 = some s) ∧
      (∃ s1, KDI_Menu_Command_Backward s = some s1 ∧ KDI_Menu_Command_Forward s1 = some s)) := by
  obtain ⟨hl, -, hptr⟩ := Inv_initThen h
  have key : ∀ i x, s0.heap.length ≤ i → s.heap[i]? = some x →
      (∃ j y, x.next_item = some j ∧ s.heap[j]? = some y ∧ y.last_item = some i) ∧
      (∃ j y, x.last_item = some j ∧ s.heap[j]? = some y ∧ y.next_item = some i) := by
    intro i x hib hx
    obtain ⟨⟨j1, a1, -, c1⟩, ⟨j2, a2, -, c2⟩, -, -⟩ := hl i hib (lt_of_getElem? hx)
    obtain ⟨y1, hy1⟩ := getElem?_of_lt (lt_of_view c1)
    obtain ⟨y2, hy2⟩ := getElem?_of_lt (lt_of_view c2)
    simp only [nextOf, prevOf, hx, hy1, hy2, Option.some_bind] at a1 a2 c1 c2
    exact ⟨⟨j1, y1, a1, hy1, c1⟩, ⟨j2, y2, a2, hy2, c2⟩⟩
  refine ⟨key, ?_⟩
  intro c hp
  obtain ⟨hcb, hcl⟩ := hptr c hp
  obtain ⟨x, hx⟩ := getElem?_of_lt hcl
  obtain ⟨⟨j1, y1, a1, hy1, c1⟩, ⟨j2, y2, a2, hy2, c2⟩⟩ := key c x hcb hx
  constructor
  · refine ⟨_, Forward_eq hp hx, ?_⟩
    refine (Backward_at s.heap { s.menu with pointer := x.next_item } a1 hy1).trans ?_
    simp only [c1]
    exact congrArg some (State_pointer_eta hp)
  · refine ⟨_, Backward_eq hp hx, ?_⟩
    refine (Forward_at s.heap { s.menu with pointer := x.last_item } a2 hy2).trans ?_
    simp only [c2]
    exact congrArg some (State_pointer_eta hp)

/-- C3 at `ringOfFour`, the state after the three sibling calls of
`threeSiblings`: forward from A3 returns, and backward from there gives
`ringOfFour` again. -/
theorem C3_next_last_inverse_witness :
    initThen zeroState (VoidPtr.str "A") TYPE_DATA_CHAR threeSiblings = some ringOfFour ∧
    ∃ s1, KDI_Menu_Command_Forward ringOfFour = some s1 ∧
      KDI_Menu_Command_Backward s1 = some ringOfFour := by
  refine ⟨by decide, ?_⟩
  obtain ⟨-, hfb⟩ := @C3_next_last_inverse zeroState ringOfFour (VoidPtr.str "A")
    TYPE_DATA_CHAR threeSiblings (by decide)
  exact (hfb 3 rfl).1

/-! ## C8: down followed by up -/

/-- C8 as stated fails after `startThenLeaf`: the cursor is on the root with
level 2, down moves it to the data leaf with level 0, and up brings it back to
the root with level 1, the stored level of the root, not 2. -/
theorem C8_counterexample :
    (initThen zeroState (VoidPtr.str "A") TYPE_DATA_CHAR startThenLeaf).map
      (fun s => (s.menu.pointer, s.menu.level)) = some (some 0, 2) ∧
    (initThen zeroState (VoidPtr.str "A") TYPE_DATA_CHAR
        (startThenLeaf ++ [Op.Drive MENU_COMMAND_DOWN])).map
      (fun s => (s.menu.pointer, s.menu.level)) = some (some 2, 0) ∧
    (initThen zeroState (VoidPtr.str "A") TYPE_DATA_CHAR
        (startThenLeaf ++ [Op.Drive MENU_COMMAND_DOWN, Op.Drive MENU_COMMAND_UP])).map
      (fun s => (s.menu.pointer, s.menu.level)) = some (some 0, 1) := by
  decide

/-- C8 (amended): in every state reached from `KDI_Menu_Init` by calls of
`KDI_Menu_Add_Next`, `KDI_Menu_Add_Child`, `KDI_Menu_Start` and `KDI_Menu_Drive`, if
down moves the cursor from the item `c` onto an item, then up returns and puts
the cursor back on `c` without touching the heap; after a descent into a group
(level < level_max) the state is the one before the down, level included;
after a descent into data the level is the level stored in `c`, so it is the
one before the down exactly when that one was the level stored in `c`. -/
theorem C8_down_then_up {s0 s s1 : State} {d : VoidPtr} {t : Nat} {ops : List Op}
    (h : initThen s0 d t ops = some s) {c ch : Nat} (hp : s.menu.pointer = some c)
    (hdown : KDI_Menu_Command_Down s = some s1)
    (hmv : s1.menu.pointer ≠ s.menu.pointer) (hch : s1.menu.pointer = some ch) :
    ∃ (x : KDI_Menu_item) (s2 : State),
      s.heap[c]? = some x ∧ KDI_Menu_Command_Up s1 = some s2 ∧
      s2.menu.pointer = some c ∧ s2.heap = s.heap ∧
      (s.menu.level < s.menu.level_max → s2 = s) ∧
      (¬ s.menu.level < s.menu.level_max →
        s2 = { s with menu := { s.menu with level := x.level_menu } }) := by
  obtain ⟨hl, -, hptr⟩ := Inv_initThen h
  obtain ⟨hcb, hcl⟩ := hptr c hp
  obtain ⟨x, hx⟩ := getElem?_of_lt hcl
  obtain ⟨-, -, hchild, -⟩ := hl c hcb hcl
  simp only [childOf, hx, Option.some_bind] at hchild
  obtain ⟨hs, m⟩ := s
  obtain ⟨mh, mp, lv, lm, mc, f1, f2, f3⟩ := m
  simp only at hp hx hcl hchild hl hmv ⊢
  subst hp
  by_cases h1 : lv < lm
  · by_cases h2 : lv = 0
    · subst h2
      simp only [KDI_Menu_Command_Down, h1, MENU_LEVEL_DATA, if_true, Option.some.injEq] at hdown
      subst hdown
      exact absurd rfl hmv
    · rw [Down_group (c := c) (x := x) rfl hx h1 h2] at hdown
      have e := Option.some.inj hdown
      subst e
      simp only at hch hmv
      obtain ⟨-, hpar⟩ := hchild ch hch
      obtain ⟨y, hy⟩ := getElem?_of_lt (lt_of_view hpar)
      simp only [parentOf, hy, Option.some_bind] at hpar
      refine ⟨x, ⟨hs, ⟨mh, some c, lv, lm, mc, f1, f2, f3⟩⟩, hx, ?_, rfl, rfl, fun _ => rfl,
        fun hn => absurd h1 hn⟩
      rw [hch, Up_group (c := ch) (x := y) rfl hy (by simp; omega)]
      simp [hpar]
  · simp only [KDI_Menu_Command_Down, h1, if_false, andThen_eq_some,
      pointer_child_item_eq_some] at hdown
    obtain ⟨q, ⟨c', x', hc', hx', hq⟩, y, hy, hdown⟩ := hdown
    simp only [Option.some.injEq] at hc'
    subst hc'
    rw [hx] at hx'
    have e := Option.some.inj hx'
    subst e
    split_ifs at hdown with h0
    · have e := Option.some.inj hdown
      subst e
      simp only at hch hmv
      subst hch
      obtain ⟨-, hpar⟩ := hchild ch hq
      rw [load_eq_some] at hy
      obtain ⟨ch', e1, hy⟩ := hy
      have e2 := Option.some.inj e1
      subst e2
      simp only [parentOf, hy, Option.some_bind] at hpar
      refine ⟨x, ⟨hs, ⟨mh, some c, x.level_menu, lm, mc, f1, f2, f3⟩⟩, hx, ?_, rfl, rfl,
        fun hn => absurd hn h1, fun _ => rfl⟩
      rw [Up_data (c := ch) (x := y) (p := c) (y := x) rfl hy rfl hpar hx]
    · have e := Option.some.inj hdown
      subst e
      exact absurd rfl hmv

/-- C8 (amended) in the usage example: from A1 at level 2 down moves to the data
leaf, and up gives the state before the down, level 2 being the level stored
in A1. -/
theorem C8_down_then_up_witness :
    initThen zeroState (VoidPtr.str "A") TYPE_DATA_CHAR usageCalls = some usageState ∧
    KDI_Menu_Command_Down usageState = some usageLeafState ∧
    KDI_Menu_Command_Up usageLeafState = some usageState := by
  obtain ⟨x, s2, hx, hup, -, -, -, hdat⟩ :=
    @C8_down_then_up zeroState usageState usageLeafState (VoidPtr.str "A") TYPE_DATA_CHAR
      usageCalls (by decide) 1 2 rfl (by decide) (by decide) rfl
  refine ⟨by decide, by decide, ?_⟩
  have hx2 : x = { data := VoidPtr.str "A1", type := TYPE_DATA_CHAR, level_menu := 2,
                   last_item := some 1, next_item := some 1, parent_item := some 0,
                   child_item := some 2 } := (Option.some.inj hx).symm
  rw [hup, hdat (by decide), hx2]
  rfl

/-! ## Sibling rings -/

theorem IsRing_pos {h : Heap} {l : List Nat} (hr : IsRing h l) : 0 < l.length :=
  List.length_pos.2 hr.1

theorem IsRing_rotate {h : Heap} {l : List Nat} (hr : IsRing h l) (r : Nat) :
    IsRing h (l.rotate r) := by
  obtain ⟨hne, hnd, hlink⟩ := hr
  have hk : 0 < l.length := List.length_pos.2 hne
  refine ⟨?_, List.nodup_rotate.2 hnd, ?_⟩
  · intro e
    exact hne (List.rotate_eq_nil_iff.1 e)
  · intro i hi
    rw [List.length_rotate] at hi ⊢
    have h1 : (i + 1) % l.length < l.length := Nat.mod_lt _ hk
    have h2 : (i + r) % l.length < l.length := Nat.mod_lt _ hk
    rw [List.getElem?_rotate hi, List.getElem?_rotate h1]
    have e : ((i + 1) % l.length + r) % l.length = ((i + r) % l.length + 1) % l.length := by
      rw [Nat.mod_add_mod, Nat.mod_add_mod]
      congr 1
      omega
    rw [e]
    exact hlink _ h2

theorem IsRing_mem_lt {h : Heap} {l : List Nat} (hr : IsRing h l) {a : Nat} (ha : a ∈ l) :
    a < h.length := by
  obtain ⟨hne, -, hlink⟩ := hr
  have hk : 0 < l.length := List.length_pos.2 hne
  obtain ⟨i, hi, e⟩ := List.getElem_of_mem ha
  have h1 := (hlink i hi).1
  have h2 : (i + 1) % l.length < l.length := Nat.mod_lt _ hk
  rw [List.getElem?_eq_getElem hi, List.getElem?_eq_getElem h2, e] at h1
  exact lt_of_view h1

theorem IsRing_single (h : Heap) (r : KDI_Menu_item)
    (hn : r.next_item = some h.length) (hl : r.last_item = some h.length) :
    IsRing (h ++ [r]) [h.length] := by
  refine ⟨by simp, by simp, ?_⟩
  intro i hi
  have hi0 : i = 0 := by
    simp at hi
    exact hi
  subst hi0
  simp [nextOf, prevOf, hn, hl]

theorem IsRing_append {h h1 : Heap} {m : List Nat} {c hd : Nat} (hr : IsRing h m)
    (hlast : m[m.length - 1]? = some c) (hfirst : m[0]? = some hd)
    (v : ∀ a,
      nextOf h1 a = (if a = h.length then some hd
        else if a = c then some h.length else nextOf h a) ∧
      prevOf h1 a = (if a = h.length then some c
        else if a = hd then some h.length else prevOf h a)) :
    IsRing h1 (m ++ [h.length]) := by
  have hk : 0 < m.length := IsRing_pos hr
  have hlt : ∀ a, a ∈ m → a < h.length := fun a ha => IsRing_mem_lt hr ha
  obtain ⟨hne, hnd, hlink⟩ := hr
  have hcm : c ∈ m := List.getElem?_mem hlast
  have hhm : hd ∈ m := List.getElem?_mem hfirst
  have hcn : c ≠ h.length := by
    have := hlt c hcm
    omega
  have hhn : hd ≠ h.length := by
    have := hlt hd hhm
    omega
  have hinj := List.nodup_iff_getElem?_ne_getElem?.1 hnd
  refine ⟨by simp, ?_, ?_⟩
  · rw [List.nodup_append]
    refine ⟨hnd, by simp, ?_⟩
    intro a ha hb
    simp only [List.mem_singleton] at hb
    have := hlt a ha
    omega
  · intro i hi
    simp only [List.length_append, List.length_singleton] at hi ⊢
    rcases Nat.lt_trichotomy (i + 1) m.length with h1 | h1 | h1
    · have hi' : i < m.length := by omega
      have e1 : (i + 1) % (m.length + 1) = i + 1 := Nat.mod_eq_of_lt (by omega)
      have e2 : (i + 1) % m.length = i + 1 := Nat.mod_eq_of_lt h1
      obtain ⟨l1, l2⟩ := hlink i hi'
      rw [e2] at l1 l2
      rw [e1, List.getElem?_append_left hi', List.getElem?_append_left h1]
      have ea : m[i]? = some m[i] := List.getElem?_eq_getElem hi'
      have eb : m[i + 1]? = some m[i + 1] := List.getElem?_eq_getElem h1
      have ha1 : m[i] ≠ h.length := by
        have := hlt _ (List.getElem_mem hi')
        omega
      have hb1 : m[i + 1] ≠ h.length := by
        have := hlt _ (List.getElem_mem h1)
        omega
      have ha2 : m[i] ≠ c := by
        intro e
        have := hinj i (m.length - 1) (by omega) (by omega)
        rw [ea, hlast, e] at this
        exact this rfl
      have hb2 : m[i + 1] ≠ hd := by
        intro e
        have := hinj 0 (i + 1) (by omega) h1
        rw [eb, hfirst, e] at this
        exact this rfl
      rw [ea, eb] at l1 l2 ⊢
      simp only [Option.some_bind] at l1 l2 ⊢
      rw [(v _).1, (v _).2]
      simp [ha1, ha2, hb1, hb2, l1, l2]
    · have hi' : i < m.length := by omega
      have e1 : (i + 1) % (m.length + 1) = m.length := by
        rw [h1]
        exact Nat.mod_eq_of_lt (by omega)
      have e3 : i = m.length - 1 := by omega
      rw [e1, List.getElem?_append_left hi', e3, hlast]
      simp only [List.getElem?_concat_length, Option.some_bind]
      rw [(v _).1, (v _).2]
      simp [hcn]
    · have hi' : i = m.length := by omega
      subst hi'
      have e1 : (m.length + 1) % (m.length + 1) = 0 := Nat.mod_self _
      rw [e1, List.getElem?_append_left hk, hfirst]
      simp only [List.getElem?_concat_length, Option.some_bind]
      rw [(v _).1, (v _).2]
      simp [hhn]

theorem head?_rotate_mod {l : List Nat} (hne : l ≠ []) (r : Nat) :
    (l.rotate r).head? = l[r % l.length]? := by
  rw [← List.rotate_mod]
  exact List.head?_rotate (Nat.mod_lt _ (List.length_pos.2 hne))

/-- Moving the cursor `r` places along its ring gives the ring turned by `r`. -/
theorem RingAt_rotate {s : State} {l : List Nat} (hr : RingAt s l) (r : Nat) :
    RingAt { s with menu := { s.menu with pointer := (l.rotate r).head? } } (l.rotate r) :=
  ⟨IsRing_rotate hr.1 r, rfl⟩

theorem RingAt_cursor {s : State} {l : List Nat} (hr : RingAt s l) :
    ∃ c x, s.menu.pointer = some c ∧ s.heap[c]? = some x ∧ l[0]? = some c ∧
      x.next_item = l[1 % l.length]? ∧ x.last_item = l[l.length - 1]? := by
  obtain ⟨hring, hp⟩ := hr
  have hk : 0 < l.length := IsRing_pos hring
  have e0 : l[0]? = some l[0] := List.getElem?_eq_getElem hk
  have hc : l[0] < s.heap.length := IsRing_mem_lt hring (List.getElem_mem hk)
  obtain ⟨x, hx⟩ := getElem?_of_lt hc
  have hp0 : s.menu.pointer = some l[0] := by
    rw [hp, List.head?_eq_getElem?, e0]
  obtain ⟨-, -, hlink⟩ := hring
  refine ⟨l[0], x, hp0, hx, e0, ?_, ?_⟩
  · have h1 := (hlink 0 hk).1
    simp only [Nat.zero_add, e0, Option.some_bind, nextOf, hx] at h1
    exact h1
  · have h1 := (hlink (l.length - 1) (by omega)).2
    have e : (l.length - 1 + 1) % l.length = 0 := by
      rw [Nat.sub_add_cancel hk]
      exact Nat.mod_self _
    simp only [e, e0, Option.some_bind, prevOf, hx] at h1
    exact h1

theorem RingAt_Forward {s : State} {l : List Nat} (hr : RingAt s l) :
    KDI_Menu_Command_Forward s
      = some { s with menu := { s.menu with pointer := (l.rotate 1).head? } } := by
  obtain ⟨c, x, hp, hx, -, hn, -⟩ := RingAt_cursor hr
  rw [Forward_eq hp hx, hn, head?_rotate_mod hr.1.1]

theorem RingAt_Backward {s : State} {l : List Nat} (hr : RingAt s l) :
    KDI_Menu_Command_Backward s
      = some { s with menu := { s.menu with pointer := (l.rotate (l.length - 1)).head? } } := by
  obtain ⟨c, x, hp, hx, -, -, hl⟩ := RingAt_cursor hr
  have hk : 0 < l.length := IsRing_pos hr.1
  rw [Backward_eq hp hx, hl, head?_rotate_mod hr.1.1, Nat.mod_eq_of_lt (by omega)]

theorem RingAt_init {s0 s : State} {d : VoidPtr} {t : Nat}
    (h : KDI_Menu_Init s0 d t = some s) : RingAt s [s0.heap.length] := by
  rw [Init_eq] at h
  have hs := Option.some.inj h
  subst hs
  exact ⟨IsRing_single _ _ rfl rfl, rfl⟩

theorem RingAt_Add_Next_NO {s s1 : State} {l : List Nat} {d : VoidPtr} {t : Nat}
    (hr : RingAt s l) (h0 : KDI_Menu_Add_Next s d t 0 = some s1) :
    ∃ l1, RingAt s1 l1 ∧ l1.length = l.length + 1 := by
  obtain ⟨c, x, hp, hx, e0, hn, -⟩ := RingAt_cursor hr
  have hk : 0 < l.length := IsRing_pos hr.1
  have h1 : 1 % l.length < l.length := Nat.mod_lt _ hk
  have e1 : l[1 % l.length]? = some l[1 % l.length] := List.getElem?_eq_getElem h1
  rw [e1] at hn
  have hh : l[1 % l.length] < s.heap.length := IsRing_mem_lt hr.1 (List.getElem_mem h1)
  obtain ⟨y, hy⟩ := getElem?_of_lt hh
  have hm := Add_Next_NO_menu h0
  have hrot := IsRing_rotate hr.1 1
  have hlen : (l.rotate 1).length = l.length := List.length_rotate l 1
  have hlast : (l.rotate 1)[(l.rotate 1).length - 1]? = some c := by
    rw [hlen, List.getElem?_rotate (by omega), Nat.sub_add_cancel hk, Nat.mod_self, e0]
  have hfirst : (l.rotate 1)[0]? = some l[1 % l.length] := by
    rw [List.getElem?_rotate hk, Nat.zero_add, e1]
  have happ := @IsRing_append s.heap s1.heap _ _ _ hrot hlast hfirst
    (fun a => ⟨(Add_Next_views hp hx hn hy h0 a).1, (Add_Next_views hp hx hn hy h0 a).2.1⟩)
  refine ⟨(l.rotate 1 ++ [s.heap.length]).rotate (l.length - 1),
    ⟨IsRing_rotate happ _, ?_⟩, ?_⟩
  · rw [hm, hp, List.head?_rotate (by simp; omega),
      List.getElem?_append_left (by rw [hlen]; omega)]
    rw [hlen] at hlast
    exact hlast.symm
  · simp

theorem RingAt_sibling_call {s s1 : State} {l : List Nat} {op : Op} (hr : RingAt s l)
    (hop : op.isSiblingCall = true) (h : op.call s = some s1) :
    ∃ l1, RingAt s1 l1 ∧ l1.length = l.length + 1 := by
  cases op with
  | Add_Child d t e c => simp [Op.isSiblingCall] at hop
  | Start => simp [Op.isSiblingCall] at hop
  | Drive c => simp [Op.isSiblingCall] at hop
  | Add_Next d t cmd =>
    simp only [Op.isSiblingCall, decide_eq_true_eq, MENU_COMMAND_NO, MENU_COMMAND_FORWARD,
      MENU_COMMAND_BACKWARD] at hop
    simp only [Op.call] at h
    obtain ⟨c, x, hp, hx, e0, hn, -⟩ := RingAt_cursor hr
    have hk : 0 < l.length := IsRing_pos hr.1
    have h1 : 1 % l.length < l.length := Nat.mod_lt _ hk
    have e1 : l[1 % l.length]? = some l[1 % l.length] := List.getElem?_eq_getElem h1
    rw [e1] at hn
    have hh : l[1 % l.length] < s.heap.length := IsRing_mem_lt hr.1 (List.getElem_mem h1)
    obtain ⟨y, hy⟩ := getElem?_of_lt hh
    obtain ⟨s0, h0⟩ := Add_Next_NO_returns hp hx hn hy d t
    obtain ⟨l0, hr0, hl0⟩ := RingAt_Add_Next_NO hr h0
    rw [Add_Next_cmd hp hx hn hy h0] at h
    rcases hop with hc | hc | hc
    · subst hc
      rw [Drive_NO] at h
      exact ⟨l0, (Option.some.inj h) ▸ hr0, hl0⟩
    · subst hc
      have hf : KDI_Menu_Drive s0 1 = KDI_Menu_Command_Forward s0 := by
        simp [KDI_Menu_Drive, MENU_COMMAND_NO, MENU_COMMAND_FORWARD]
      rw [hf, RingAt_Forward hr0] at h
      refine ⟨l0.rotate 1, (Option.some.inj h) ▸ RingAt_rotate hr0 1, ?_⟩
      rw [List.length_rotate, hl0]
    · subst hc
      have hf : KDI_Menu_Drive s0 2 = KDI_Menu_Command_Backward s0 := by
        simp [KDI_Menu_Drive, MENU_COMMAND_NO, MENU_COMMAND_FORWARD, MENU_COMMAND_BACKWARD]
      rw [hf, RingAt_Backward hr0] at h
      refine ⟨l0.rotate (l0.length - 1), (Option.some.inj h) ▸ RingAt_rotate hr0 _, ?_⟩
      rw [List.length_rotate, hl0]

theorem RingAt_sibling_calls {ops : List Op} {s s1 : State} {l : List Nat} (hr : RingAt s l)
    (hops : ∀ op ∈ ops, op.isSiblingCall = true) (h : callAll s ops = some s1) :
    ∃ l1, RingAt s1 l1 ∧ l1.length = l.length + ops.length := by
  induction ops generalizing s l with
  | nil =>
    simp only [callAll, Option.some.injEq] at h
    exact ⟨l, h ▸ hr, by simp⟩
  | cons op ops ih =>
    simp only [callAll, andThen_eq_some] at h
    obtain ⟨s2, h1, h2⟩ := h
    obtain ⟨l2, hr2, hl2⟩ := RingAt_sibling_call hr (hops op (List.mem_cons_self _ _)) h1
    obtain ⟨l3, hr3, hl3⟩ := ih hr2 (fun o ho => hops o (List.mem_cons_of_mem _ ho)) h2
    refine ⟨l3, hr3, ?_⟩
    rw [hl3, hl2, List.length_cons]
    omega

/-- A call that turns every ring of `k` items by `r` places, made `j` times,
turns it by `j * r` places. -/
theorem repeatCall_rotate {f : State → Option State} {k r : Nat}
    (hf : ∀ (s : State) (l : List Nat), RingAt s l → l.length = k →
      f s = some { s with menu := { s.menu with pointer := (l.rotate r).head? } })
    (j : Nat) {s : State} {l : List Nat} (hr : RingAt s l) (hk : l.length = k) :
    repeatCall f j s
      = some { s with menu := { s.menu with pointer := (l.rotate (j * r)).head? } } := by
  induction j generalizing s l with
  | zero =>
    simp only [repeatCall, Nat.zero_mul, List.rotate_zero]
    exact congrArg some (State_pointer_eta hr.2).symm
  | succ j ih =>
    simp only [repeatCall]
    rw [hf s l hr hk, andThen_some,
      ih (RingAt_rotate hr r) (by rw [List.length_rotate, hk]), List.rotate_rotate]
    have e : r + j * r = (j + 1) * r := by ring
    rw [e]

/-- On a ring of `k` items the cursor after a turn by `n` places is the
starting one exactly when `k` divides `n`. -/
theorem RingAt_turn_eq {s : State} {l : List Nat} (hr : RingAt s l) (n : Nat) :
    (l.rotate n).head? = s.menu.pointer ↔ n % l.length = 0 := by
  obtain ⟨⟨hne, hnd, -⟩, hp⟩ := hr
  have hk : 0 < l.length := List.length_pos.2 hne
  have hlt : n % l.length < l.length := Nat.mod_lt _ hk
  rw [hp, head?_rotate_mod hne, List.head?_eq_getElem?]
  constructor
  · intro e
    by_contra hne0
    have := List.nodup_iff_getElem?_ne_getElem?.1 hnd 0 (n % l.length) (by omega) hlt
    exact this e.symm
  · intro e
    rw [e]

theorem back_turn_ne_zero {j k : Nat} (h0 : 0 < j) (hk : j < k) : (j * (k - 1)) % k ≠ 0 := by
  intro e
  have h1 : k ∣ j * (k - 1) := Nat.dvd_of_mod_eq_zero e
  have h2 : k ∣ j * k := Dvd.intro_left j rfl
  have h3 : j * k - j * (k - 1) = j := by
    rw [← Nat.mul_sub]
    have : k - (k - 1) = 1 := by omega
    rw [this, Nat.mul_one]
  have h4 : k ∣ j := by
    have := Nat.dvd_sub' h2 h1
    rwa [h3] at this
  have := Nat.le_of_dvd h0 h4
  omega

/-! ## C2: the size of the ring built by sibling calls -/

/-- C2: after `KDI_Menu_Init` and n calls of `KDI_Menu_Add_Next` whose commands are
each none, forward or backward, all returning, the cursor is on an item and its
ring has exactly n + 1 items: n + 1 forwards in a row return and give the
state they started from, fewer (but at least one) leave the cursor on another
item; and the same for backward. -/
theorem C2_ring_size {s0 s : State} {d : VoidPtr} {t : Nat} {ops : List Op}
    (hops : ∀ op ∈ ops, op.isSiblingCall = true) (h : initThen s0 d t ops = some s) :
    (∃ c, s.menu.pointer = some c) ∧
    repeatCall KDI_Menu_Command_Forward (ops.length + 1) s = some s ∧
    (∀ j, 0 < j → j < ops.length + 1 →
      ∃ sj, repeatCall KDI_Menu_Command_Forward j s = some sj ∧
        sj.menu.pointer ≠ s.menu.pointer) ∧
    repeatCall KDI_Menu_Command_Backward (ops.length + 1) s = some s ∧
    (∀ j, 0 < j → j < ops.length + 1 →
      ∃ sj, repeatCall KDI_Menu_Command_Backward j s = some sj ∧
        sj.menu.pointer ≠ s.menu.pointer) := by
  simp only [initThen, andThen_eq_some] at h
  obtain ⟨s1, h1, h2⟩ := h
  obtain ⟨l, hr, hl⟩ := RingAt_sibling_calls (RingAt_init h1) hops h2
  have hk : l.length = ops.length + 1 := by
    rw [hl, List.length_singleton]
    omega
  have hF : ∀ (s : State) (l : List Nat), RingAt s l → l.length = ops.length + 1 →
      KDI_Menu_Command_Forward s
        = some { s with menu := { s.menu with pointer := (l.rotate 1).head? } } :=
    fun s l hr _ => RingAt_Forward hr
  have hB : ∀ (s : State) (l : List Nat), RingAt s l → l.length = ops.length + 1 →
      KDI_Menu_Command_Backward s
        = some { s with menu := { s.menu with pointer := (l.rotate (ops.length + 1 - 1)).head? } } :=
    fun s l hr hk => by rw [RingAt_Backward hr, hk]
  obtain ⟨c, x, hp, -⟩ := RingAt_cursor hr
  refine ⟨⟨c, hp⟩, ?_, ?_, ?_, ?_⟩
  · rw [repeatCall_rotate hF _ hr hk]
    have e : ((ops.length + 1) * 1) % l.length = 0 := by
      rw [hk, Nat.mul_one, Nat.mod_self]
    exact congrArg some (State_pointer_eta ((RingAt_turn_eq hr _).2 e).symm)
  · intro j h0 hj
    refine ⟨_, repeatCall_rotate hF j hr hk, ?_⟩
    intro e
    have := (RingAt_turn_eq hr _).1 e
    rw [hk, Nat.mul_one, Nat.mod_eq_of_lt hj] at this
    omega
  · rw [repeatCall_rotate hB _ hr hk]
    have e : ((ops.length + 1) * (ops.length + 1 - 1)) % l.length = 0 := by
      rw [hk, Nat.mul_mod_right]
    exact congrArg some (State_pointer_eta ((RingAt_turn_eq hr _).2 e).symm)
  · intro j h0 hj
    refine ⟨_, repeatCall_rotate hB j hr hk, ?_⟩
    intro e
    have := (RingAt_turn_eq hr _).1 e
    rw [hk] at this
    exact back_turn_ne_zero h0 hj this

/-- C2 after `threeSiblings`: four forwards from A3 give `ringOfFour` again, and
two forwards leave the cursor on another item. -/
theorem C2_ring_size_witness :
    initThen zeroState (VoidPtr.str "A") TYPE_DATA_CHAR threeSiblings = some ringOfFour ∧
    repeatCall KDI_Menu_Command_Forward 4 ringOfFour = some ringOfFour ∧
    ∃ sj, repeatCall KDI_Menu_Command_Forward 2 ringOfFour = some sj ∧
      sj.menu.pointer ≠ ringOfFour.menu.pointer := by
  obtain ⟨-, h4, hlt, -, -⟩ := @C2_ring_size zeroState ringOfFour (VoidPtr.str "A")
    TYPE_DATA_CHAR threeSiblings (by decide) (by decide)
  exact ⟨by decide, h4, hlt 2 (by decide) (by decide)⟩

/-! ## C11: the handler -/

/-- C11: with a cursor that is an item and the three callbacks registered, the
handler makes exactly one call, chosen by the tag of the cursor: text, the text
callback with the stored `data`; integer, the integer callback with the integer
`data` addresses; real, the real callback with the real `data` addresses;
absent, the text callback with "E0  ". The handler has no other effect: the C
function writes nothing, and its embedding returns only the calls. -/
theorem C11_handler_calls {s : State} {c : Nat} {x : KDI_Menu_item} {f1 f2 f3 : Nat}
    (hp : s.menu.pointer = some c) (hx : s.heap[c]? = some x)
    (h1 : s.menu.print_string = some f1) (h2 : s.menu.print_int = some f2)
    (h3 : s.menu.print_float = some f3) :
    (x.type = TYPE_DATA_CHAR → KDI_Menu_Handler s = some [Call.print_string f1 x.data]) ∧
    (x.type = TYPE_DATA_INT → ∀ v, x.data = VoidPtr.int v →
      KDI_Menu_Handler s = some [Call.print_int f2 v]) ∧
    (x.type = TYPE_DATA_FLOAT → ∀ b, x.data = VoidPtr.float b →
      KDI_Menu_Handler s = some [Call.print_float f3 b]) ∧
    (x.type = TYPE_DATA_VOID →
      KDI_Menu_Handler s = some [Call.print_string f1 (VoidPtr.str "E0  ")]) := by
  refine ⟨?_, ?_, ?_, ?_⟩
  · intro ht
    simp [KDI_Menu_Handler, load, hp, hx, andThen, ht, h1]
  · intro ht v hv
    simp [KDI_Menu_Handler, load, hp, hx, andThen, ht, h2, hv, TYPE_DATA_INT, TYPE_DATA_CHAR]
  · intro ht b hb
    simp [KDI_Menu_Handler, load, hp, hx, andThen, ht, h3, hb, TYPE_DATA_INT, TYPE_DATA_CHAR,
      TYPE_DATA_FLOAT]
  · intro ht
    simp [KDI_Menu_Handler, load, hp, hx, andThen, ht, h1, TYPE_DATA_INT, TYPE_DATA_CHAR,
      TYPE_DATA_FLOAT, TYPE_DATA_VOID]

/-- C11 on the data leaf of the usage example, whose tag is integer and whose
`data` addresses 5: the one call is the integer callback with 5. -/
theorem C11_handler_calls_witness :
    usageLeafCallbacks.menu.pointer = some 2 ∧
    KDI_MenuItem_GetTypeData usageLeafCallbacks.heap (some 2) = some TYPE_DATA_INT ∧
    KDI_Menu_Handler usageLeafCallbacks = some [Call.print_int 2 5] := by
  refine ⟨rfl, rfl, ?_⟩
  exact (@C11_handler_calls usageLeafCallbacks 2
    { data := VoidPtr.int 5, type := TYPE_DATA_INT, level_menu := 0, last_item := some 2,
      next_item := some 2, parent_item := some 1, child_item := none } 1 2 3
    rfl rfl rfl rfl rfl).2.1 rfl 5 rfl

/-! ## C12 to C15: down and up -/

/-- C12: with a cursor that is an item, level < level_max and level not 0, down
returns; it sets level to level + 1 and the cursor to the `child_item` of the old
cursor (null when there is none), and leaves `level_max`, the root, the
callbacks and the heap as they were. -/
theorem C12_down_group_descent {s : State} {c : Nat} {x : KDI_Menu_item}
    (hp : s.menu.pointer = some c) (hx : s.heap[c]? = some x)
    (h1 : s.menu.level < s.menu.level_max) (h2 : s.menu.level ≠ MENU_LEVEL_DATA) :
    ∃ s1, KDI_Menu_Command_Down s = some s1 ∧
      s1.menu.level = s.menu.level + 1 ∧ s1.menu.pointer = x.child_item ∧
      s1.menu.level_max = s.menu.level_max ∧ s1.menu.Head = s.menu.Head ∧
      s1.menu.print_string = s.menu.print_string ∧ s1.menu.print_int = s.menu.print_int ∧
      s1.menu.print_float = s.menu.print_float ∧ s1.heap = s.heap :=
  ⟨_, Down_group hp hx h1 h2, rfl, rfl, rfl, rfl, rfl, rfl, rfl, rfl⟩

/-- C12 on `rootWithChild` (level 1, `level_max` 2): down moves to the child at
address 1 with level 2. -/
theorem C12_down_group_descent_witness :
    ∃ s1, KDI_Menu_Command_Down rootWithChild = some s1 ∧
      s1.menu.level = 2 ∧ s1.menu.pointer = some 1 := by
  obtain ⟨s1, h1, h2, h3, -⟩ := @C12_down_group_descent rootWithChild 0
    { rootItem with child_item := some 1 } rfl rfl (by decide) (by decide)
  exact ⟨s1, h1, h2, h3⟩

/-- C13 as stated fails at level 0: after `leafUnderLeaf` the cursor is the data
leaf 2 with level 0 (`level_max` 2), its child 3 exists and stores level 0, and
down leaves the cursor on 2. -/
theorem C13_counterexample :
    (initThen zeroState (VoidPtr.str "A") TYPE_DATA_CHAR leafUnderLeaf).map
      (fun s => (s.menu.pointer, s.menu.level, s.menu.level_max)) = some (some 2, 0, 2) ∧
    (initThen zeroState (VoidPtr.str "A") TYPE_DATA_CHAR leafUnderLeaf).bind
      (fun s => KDI_MenuItem_GetLinkOnChildMenuItem s.heap s.menu.pointer) = some (some 3) ∧
    (initThen zeroState (VoidPtr.str "A") TYPE_DATA_CHAR leafUnderLeaf).bind
      (fun s => KDI_MenuItem_GetLevel s.heap (some 3)) = some 0 ∧
    (initThen zeroState (VoidPtr.str "A") TYPE_DATA_CHAR
        (leafUnderLeaf ++ [Op.Drive MENU_COMMAND_DOWN])).map
      (fun s => (s.menu.pointer, s.menu.level)) = some (some 2, 0) := by
  decide

/-- C13 (amended): with a cursor that is an item, when level < level_max does
not hold and the child of the cursor exists and stores level 0, down moves the
cursor to the child and sets level to 0; in a state with level 0 below
`level_max` down returns the state unchanged. -/
theorem C13_down_data_descent {s : State} {c : Nat} {x : KDI_Menu_item}
    (hp : s.menu.pointer = some c) (hx : s.heap[c]? = some x) :
    (¬ s.menu.level < s.menu.level_max → ∀ ch y, x.child_item = some ch →
      s.heap[ch]? = some y → y.level_menu = MENU_LEVEL_DATA →
      KDI_Menu_Command_Down s = some
        { s with menu := { s.menu with pointer := some ch, level := MENU_LEVEL_DATA } }) ∧
    (s.menu.level = MENU_LEVEL_DATA → s.menu.level < s.menu.level_max →
      KDI_Menu_Command_Down s = some s) := by
  constructor
  · intro h1 ch y hc hy h0
    exact Down_data hp hx h1 hc hy h0
  · intro h0 h1
    simp only [KDI_Menu_Command_Down, if_pos h1, if_pos h0]

/-- C13 (amended) in the usage example: from A1 at level 2 = `level_max` down
moves to the data leaf and sets level 0. -/
theorem C13_down_data_descent_witness :
    ¬ usageState.menu.level < usageState.menu.level_max ∧
    KDI_Menu_Command_Down usageState = some usageLeafState := by
  refine ⟨by decide, ?_⟩
  exact (@C13_down_data_descent usageState 1
    { data := VoidPtr.str "A1", type := TYPE_DATA_CHAR, level_menu := 2, last_item := some 1,
      next_item := some 1, parent_item := some 0, child_item := some 2 } rfl rfl).1
    (by decide) 2
    { data := VoidPtr.int 5, type := TYPE_DATA_INT, level_menu := 0, last_item := some 2,
      next_item := some 2, parent_item := some 1, child_item := none } rfl rfl rfl

/-- Down when level < level_max does not hold and the cursor has no child: the
code reads `level_menu` through the null `child_item`. -/
theorem Down_absent_child {s : State} {c : Nat} {x : KDI_Menu_item}
    (hp : s.menu.pointer = some c) (hx : s.heap[c]? = some x)
    (h1 : ¬ s.menu.level < s.menu.level_max) (hc : x.child_item = none) :
    KDI_Menu_Command_Down s = none := by
  simp [KDI_Menu_Command_Down, h1, pointer_child_item, load, hp, hx, hc, andThen]

/-- Down when level < level_max does not hold and the child of the cursor
stores a level other than 0: nothing changes. -/
theorem Down_stays {s : State} {c ch : Nat} {x y : KDI_Menu_item}
    (hp : s.menu.pointer = some c) (hx : s.heap[c]? = some x)
    (h1 : ¬ s.menu.level < s.menu.level_max)
    (hc : x.child_item = some ch) (hy : s.heap[ch]? = some y) (h0 : y.level_menu ≠ 0) :
    KDI_Menu_Command_Down s = some s := by
  simp [KDI_Menu_Command_Down, h1, MENU_LEVEL_DATA, pointer_child_item, load, hp, hx, hc, hy, h0,
    andThen]

/-- C14 fails on the code right after `KDI_Menu_Init`: level = level_max = 1, the
root has no child, and down then reads `child_item->level_menu` through a null
pointer, so the call has no defined result. -/
theorem C14_down_absent_child :
    KDI_Menu_Init zeroState (VoidPtr.str "A") TYPE_DATA_CHAR = some rootOnly ∧
    rootOnly.menu.level = 1 ∧ rootOnly.menu.level_max = 1 ∧
    KDI_MenuItem_GetLinkOnChildMenuItem rootOnly.heap rootOnly.menu.pointer = some none ∧
    KDI_Menu_Command_Down rootOnly = none ∧
    KDI_Menu_Drive rootOnly MENU_COMMAND_DOWN = none := by
  decide

/-- Up with a cursor that is an item: when level > 1, up sets level to
level - 1 and the cursor to the `parent_item` of the old cursor; when level = 0
and the parent is an item, up sets the cursor to the parent and level to the
level stored in the parent; when level = 1, up changes nothing. In each case
`level_max`, the root, the callbacks and the heap are as before. -/
theorem Up_transition {s : State} {c : Nat} {x : KDI_Menu_item}
    (hp : s.menu.pointer = some c) (hx : s.heap[c]? = some x) :
    (1 < s.menu.level → KDI_Menu_Command_Up s = some
      { s with menu := { s.menu with level := s.menu.level - 1, pointer := x.parent_item } }) ∧
    (s.menu.level = 0 → ∀ p y, x.parent_item = some p → s.heap[p]? = some y →
      KDI_Menu_Command_Up s = some
        { s with menu := { s.menu with pointer := some p, level := y.level_menu } }) ∧
    (s.menu.level = 1 → KDI_Menu_Command_Up s = some s) := by
  refine ⟨fun h1 => Up_group hp hx h1, fun h0 p y hq hy => Up_data hp hx h0 hq hy, ?_⟩
  intro h1
  simp [KDI_Menu_Command_Up, h1, MENU_LEVEL_DATA]

/-- Up on the data leaf of the usage example (level 0): it returns to A1 and
takes level 2 from it. -/
theorem Up_transition_at_leaf :
    usageLeafState.menu.level = 0 ∧
    KDI_Menu_Command_Up usageLeafState = some usageState := by
  refine ⟨rfl, ?_⟩
  exact (@Up_transition usageLeafState 2
    { data := VoidPtr.int 5, type := TYPE_DATA_INT, level_menu := 0, last_item := some 2,
      next_item := some 2, parent_item := some 1, child_item := none } rfl rfl).2.1 rfl 1
    { data := VoidPtr.str "A1", type := TYPE_DATA_CHAR, level_menu := 2, last_item := some 1,
      next_item := some 1, parent_item := some 0, child_item := some 2 } rfl rfl

/-- C15 fails on the code at level 0 on an item without a parent. After
`KDI_Menu_Init`, a terminal child with command down and `KDI_Menu_Start`, the cursor
is the root, the level is 0 and the root has no parent; up then sets the cursor
to that null parent and reads `level_menu` through it, so neither
`KDI_Menu_Command_Up` nor `KDI_Menu_Drive` with up has a defined result. -/
theorem C15_up_absent_parent :
    (initThen zeroState (VoidPtr.str "A") TYPE_DATA_CHAR startAtLeafLevel).map
      (fun s => (s.menu.pointer, s.menu.level,
                 KDI_MenuItem_GetLinkOnParentMenuItem s.heap s.menu.pointer))
      = some (some 0, 0, some none) ∧
    (initThen zeroState (VoidPtr.str "A") TYPE_DATA_CHAR startAtLeafLevel).map
      (fun s => [(KDI_Menu_Command_Up s).isSome, (KDI_Menu_Drive s MENU_COMMAND_UP).isSome])
      = some [false, false] := by
  refine ⟨by decide, by decide⟩

/-! ## C16, C17: calls that do not navigate, and `KDI_Menu_Start` -/

/-- `KDI_Menu_Add_Child` with command none leaves the navigator as it was, apart
from `level_max`. -/
theorem Add_Child_NO_menu {s s1 : State} {d : VoidPtr} {t e : Nat}
    (h : KDI_Menu_Add_Child s d t e 0 = some s1) :
    s1.menu.pointer = s.menu.pointer ∧ s1.menu.level = s.menu.level ∧
    s1.menu.Head = s.menu.Head ∧ s1.menu.print_string = s.menu.print_string ∧
    s1.menu.print_int = s.menu.print_int ∧ s1.menu.print_float = s.menu.print_float := by
  simp only [KDI_Menu_Add_Child, andThen_eq_some, ne_eq, not_true, if_false] at h
  rcases h with ⟨_, -, _, -, _, -, _, -, _, -, _, -, _, -, _, -, _, -, _, -, _, -, _, -,
    _, -, _, -, _, -, m1, hm1, h⟩
  simp only [Option.some.injEq] at h
  subst h
  split_ifs at hm1
  · simp only [andThen_eq_some, Option.some.injEq] at hm1
    obtain ⟨child, -, hm1⟩ := hm1
    subst hm1
    exact ⟨rfl, rfl, rfl, rfl, rfl, rfl⟩
  · simp only [Option.some.injEq] at hm1
    subst hm1
    exact ⟨rfl, rfl, rfl, rfl, rfl, rfl⟩

/-- C16: in every state, `KDI_Menu_Drive` with command none, or with a command
value above the five of the enumeration, returns the state unchanged; and
`KDI_Menu_Add_Next` and `KDI_Menu_Add_Child` with command none leave the cursor
and the level as they were; they return whenever the cursor is an item (and, for
`KDI_Menu_Add_Next`, its `next_item` too). -/
theorem C16_no_navigation (s : State) :
    (∀ cmd, cmd = MENU_COMMAND_NO ∨ MENU_COMMAND_DOWN < cmd → KDI_Menu_Drive s cmd = some s) ∧
    (∀ d t s1, KDI_Menu_Add_Next s d t MENU_COMMAND_NO = some s1 →
      s1.menu.pointer = s.menu.pointer ∧ s1.menu.level = s.menu.level) ∧
    (∀ d t e s1, KDI_Menu_Add_Child s d t e MENU_COMMAND_NO = some s1 →
      s1.menu.pointer = s.menu.pointer ∧ s1.menu.level = s.menu.level) ∧
    (∀ c x hd y d t, s.menu.pointer = some c → s.heap[c]? = some x → x.next_item = some hd →
      s.heap[hd]? = some y → ∃ s1, KDI_Menu_Add_Next s d t MENU_COMMAND_NO = some s1) ∧
    (∀ c x d t e, s.menu.pointer = some c → s.heap[c]? = some x →
      ∃ s1, KDI_Menu_Add_Child s d t e MENU_COMMAND_NO = some s1) := by
  refine ⟨?_, ?_, ?_, ?_, ?_⟩
  · intro cmd hc
    rcases hc with hc | hc
    · subst hc
      exact Drive_NO s
    · simp only [MENU_COMMAND_DOWN] at hc
      have e0 : cmd ≠ 0 := by omega
      have e1 : cmd ≠ 1 := by omega
      have e2 : cmd ≠ 2 := by omega
      have e3 : cmd ≠ 3 := by omega
      have e4 : cmd ≠ 4 := by omega
      simp [KDI_Menu_Drive, MENU_COMMAND_NO, MENU_COMMAND_FORWARD, MENU_COMMAND_BACKWARD,
        MENU_COMMAND_UP, MENU_COMMAND_DOWN, e0, e1, e2, e3, e4]
  · intro d t s1 h
    rw [Add_Next_NO_menu h]
    exact ⟨rfl, rfl⟩
  · intro d t e s1 h
    obtain ⟨h1, h2, -⟩ := Add_Child_NO_menu h
    exact ⟨h1, h2⟩
  · intro c x hd y d t hp hx hn hy
    exact Add_Next_NO_returns hp hx hn hy d t
  · intro c x d t e hp hx
    exact ⟨_, (Add_Child_eq hp hx d t e 0).trans (Drive_NO _)⟩

/-- C16 on `rootOnly`: the command value 9 changes nothing, and a sibling added
with command none leaves the cursor on the root at level 1. -/
theorem C16_no_navigation_witness :
    KDI_Menu_Drive rootOnly 9 = some rootOnly ∧
    ∃ s1, KDI_Menu_Add_Next rootOnly (VoidPtr.str "B") TYPE_DATA_CHAR MENU_COMMAND_NO = some s1 ∧
      s1.menu.pointer = some 0 ∧ s1.menu.level = 1 := by
  obtain ⟨h1, h2, -⟩ := C16_no_navigation rootOnly
  refine ⟨h1 9 (Or.inr (by decide)), ?_⟩
  obtain ⟨s1, hs1⟩ := @Add_Next_NO_returns rootOnly 0 0 rootItem rootItem rfl rfl rfl rfl
    (VoidPtr.str "B") TYPE_DATA_CHAR
  exact ⟨s1, hs1, h2 _ _ s1 hs1⟩

/-- C17: in every state `KDI_Menu_Start` returns; the cursor becomes the root
(`Head`) and the level, `level_max`, the root, `Command`, the three callbacks
and the heap are as before. In particular the level is not reset: after
`KDI_Menu_Init`, a descent to A1 and `KDI_Menu_Start`, the cursor is the root and
the level is still 2. -/
theorem C17_start_frame (s : State) :
    (∃ s1, KDI_Menu_Start s = some s1 ∧
      s1.menu.pointer = s.menu.Head ∧ s1.menu.Head = s.menu.Head ∧
      s1.menu.level = s.menu.level ∧ s1.menu.level_max = s.menu.level_max ∧
      s1.menu.Command = s.menu.Command ∧ s1.menu.print_string = s.menu.print_string ∧
      s1.menu.print_int = s.menu.print_int ∧ s1.menu.print_float = s.menu.print_float ∧
      s1.heap = s.heap) ∧
    (initThen zeroState (VoidPtr.str "A") TYPE_DATA_CHAR
        [Op.Add_Child (VoidPtr.str "A1") TYPE_DATA_CHAR MENU_NO_END MENU_COMMAND_DOWN,
         Op.Start]).map
      (fun s1 => (s1.menu.pointer, s1.menu.level, KDI_MenuItem_GetLevel s1.heap s1.menu.pointer))
      = some (some 0, 2, some 1) :=
  ⟨⟨_, rfl, rfl, rfl, rfl, rfl, rfl, rfl, rfl, rfl, rfl⟩, by decide⟩

/-! ## Fields shared along a ring -/

theorem attrOf_of_getElem? {α : Type} (f : KDI_Menu_item → α) {h : Heap} {a : Nat}
    {x : KDI_Menu_item} (hx : h[a]? = some x) : attrOf f h a = some (f x) := by
  simp [attrOf, hx]

theorem lt_of_attrOf {α : Type} {f : KDI_Menu_item → α} {h : Heap} {a : Nat} {v : α}
    (hv : attrOf f h a = some v) : a < h.length := by
  by_contra hge
  rw [attrOf, List.getElem?_eq_none (by omega)] at hv
  simp at hv

theorem attrOf_isSome {α : Type} (f : KDI_Menu_item → α) {h : Heap} {a : Nat}
    (hlt : a < h.length) : ∃ v, attrOf f h a = some v := by
  obtain ⟨x, hx⟩ := getElem?_of_lt hlt
  exact ⟨f x, attrOf_of_getElem? f hx⟩

/-- The field `f` of every item after `KDI_Menu_Add_Next`, for a field that the
writes of `next_item`, `last_item` and `child_item` leave alone. -/
theorem Add_Next_attr {α : Type} (f : KDI_Menu_item → α)
    (hf : ∀ (x : KDI_Menu_item) (p q r : Ptr),
      f { x with next_item := p, last_item := q, child_item := r } = f x)
    {s s1 : State} {c hd : Nat} {x y : KDI_Menu_item}
    (hp : s.menu.pointer = some c) (hx : s.heap[c]? = some x)
    (hn : x.next_item = some hd) (hy : s.heap[hd]? = some y)
    {d : VoidPtr} {t cmd : Nat} (h : KDI_Menu_Add_Next s d t cmd = some s1) (a : Nat) :
    attrOf f s1.heap a = (if a = s.heap.length then some (f
        { data := d, type := bits4 t, level_menu := bits4 s.menu.level,
          last_item := some c, next_item := some hd,
          parent_item := x.parent_item, child_item := none })
      else attrOf f s.heap a) := by
  obtain ⟨-, -, f1, f2, f3, f4⟩ := Add_Next_heap hp hx hn hy h
  by_cases han : a = s.heap.length
  · subst han
    simp [attrOf, f1]
  · by_cases hac : a = c
    · subst hac
      rw [attrOf_of_getElem? f f2, attrOf_of_getElem? f hx, if_neg han]
      exact congrArg some (hf x _ _ x.child_item)
    · by_cases hah : a = hd
      · subst hah
        rw [attrOf_of_getElem? f f3, attrOf_of_getElem? f hy, if_neg han]
        exact congrArg some (hf y _ _ y.child_item)
      · simp [attrOf, f4 a hac hah han, han]

/-- The field `f` of every item after `KDI_Menu_Add_Child`. -/
theorem Add_Child_attr {α : Type} (f : KDI_Menu_item → α)
    (hf : ∀ (x : KDI_Menu_item) (p q r : Ptr),
      f { x with next_item := p, last_item := q, child_item := r } = f x)
    {s s1 : State} {c : Nat} {x : KDI_Menu_item}
    (hp : s.menu.pointer = some c) (hx : s.heap[c]? = some x)
    {d : VoidPtr} {t e cmd : Nat} (h : KDI_Menu_Add_Child s d t e cmd = some s1) (a : Nat) :
    attrOf f s1.heap a = (if a = s.heap.length then some (f
        { data := d, type := bits4 t, level_menu := childLevel s.menu.level e,
          last_item := some s.heap.length, next_item := some s.heap.length,
          parent_item := some c, child_item := none })
      else attrOf f s.heap a) := by
  have hc : c < s.heap.length := lt_of_getElem? hx
  obtain ⟨h1, -, -⟩ := Add_Child_heap hp hx h
  rw [h1]
  rcases Nat.lt_trichotomy a s.heap.length with hlt | heq | hgt
  · have hne : a ≠ s.heap.length := by omega
    by_cases hac : a = c
    · subst hac
      have e1 : (s.heap.set a { x with child_item := some s.heap.length } ++
          [{ data := d, type := bits4 t, level_menu := childLevel s.menu.level e,
             last_item := some s.heap.length, next_item := some s.heap.length,
             parent_item := some a, child_item := none }])[a]?
          = some { x with child_item := some s.heap.length } := by
        simp [List.getElem?_append, List.getElem?_set, hlt]
      rw [attrOf_of_getElem? f e1, attrOf_of_getElem? f hx, if_neg hne]
      exact congrArg some (hf x x.next_item x.last_item _)
    · have hca : ¬ c = a := fun e => hac e.symm
      simp [attrOf, List.getElem?_append, List.getElem?_set, hlt, hne, hca]
  · subst heq
    simp [attrOf, List.getElem?_append]
  · have hne : a ≠ s.heap.length := by omega
    have e1 : (s.heap.set c { x with child_item := some s.heap.length } ++
        [{ data := d, type := bits4 t, level_menu := childLevel s.menu.level e,
           last_item := some s.heap.length, next_item := some s.heap.length,
           parent_item := some c, child_item := none }])[a]? = none :=
      List.getElem?_eq_none (by simp; omega)
    have e2 : s.heap[a]? = none := List.getElem?_eq_none (by omega)
    simp only [attrOf, e1, e2]
    simp [hne]

theorem RingShares_Add_Next {α : Type} {f : KDI_Menu_item → α} {base : Nat} {h h1 : Heap}
    {c hd : Nat} {w : α}
    (hs : RingShares f base h) (hlen : h1.length = h.length + 1)
    (hcb : base ≤ c) (hc : c < h.length) (hnx : nextOf h c = some hd)
    (hw : attrOf f h c = some w)
    (v : ∀ a,
      nextOf h1 a = (if a = h.length then some hd
        else if a = c then some h.length else nextOf h a) ∧
      prevOf h1 a = (if a = h.length then some c
        else if a = hd then some h.length else prevOf h a) ∧
      childOf h1 a = (if a = h.length then none else childOf h a) ∧
      parentOf h1 a = (if a = h.length then parentOf h c else parentOf h a))
    (va : ∀ a, attrOf f h1 a = (if a = h.length then some w else attrOf f h a)) :
    RingShares f base h1 := by
  have hhd : attrOf f h hd = some w := by
    rw [(hs c hcb hc).1 hd hnx, hw]
  have hh : hd < h.length := lt_of_attrOf hhd
  have hcn : c ≠ h.length := by omega
  have hhn : hd ≠ h.length := by omega
  intro i hib hil
  rw [hlen] at hil
  simp only [v, va]
  by_cases hin : i = h.length
  · subst hin
    constructor
    · intro j hj
      simp only [if_true, Option.some.injEq] at hj
      subst hj
      simp [hhn, hhd]
    · intro j hj
      simp only [if_true, Option.some.injEq] at hj
      subst hj
      simp [hcn, hw]
  · have hi : i < h.length := by omega
    obtain ⟨o1, o2⟩ := hs i hib hi
    obtain ⟨u, hu⟩ := attrOf_isSome f hi
    simp only [hin, if_false]
    constructor
    · intro j hj
      by_cases hic : i = c
      · subst hic
        simp only [if_true, Option.some.injEq] at hj
        subst hj
        simp [hw]
      · simp only [hic, if_false] at hj
        have e := o1 j hj
        have hjn : j ≠ h.length := by
          have := lt_of_attrOf (e.trans hu)
          omega
        simp [hjn, e]
    · intro j hj
      by_cases hih : i = hd
      · subst hih
        simp only [if_true, Option.some.injEq] at hj
        subst hj
        simp [hhd]
      · simp only [hih, if_false] at hj
        have e := o2 j hj
        have hjn : j ≠ h.length := by
          have := lt_of_attrOf (e.trans hu)
          omega
        simp [hjn, e]

theorem RingShares_Add_Child {α : Type} {f : KDI_Menu_item → α} {base : Nat} {h h1 : Heap}
    {w : α} (hs : RingShares f base h) (hlen : h1.length = h.length + 1)
    (vn : ∀ a,
      nextOf h1 a = (if a = h.length then some h.length else nextOf h a) ∧
      prevOf h1 a = (if a = h.length then some h.length else prevOf h a))
    (va : ∀ a, attrOf f h1 a = (if a = h.length then some w else attrOf f h a)) :
    RingShares f base h1 := by
  intro i hib hil
  rw [hlen] at hil
  simp only [vn, va]
  by_cases hin : i = h.length
  · subst hin
    constructor
    · intro j hj
      simp only [if_true, Option.some.injEq] at hj
      subst hj
      rfl
    · intro j hj
      simp only [if_true, Option.some.injEq] at hj
      subst hj
      rfl
  · have hi : i < h.length := by omega
    obtain ⟨o1, o2⟩ := hs i hib hi
    obtain ⟨u, hu⟩ := attrOf_isSome f hi
    simp only [hin, if_false]
    constructor
    · intro j hj
      have e := o1 j hj
      have hjn : j ≠ h.length := by
        have := lt_of_attrOf (e.trans hu)
        omega
      simp [hjn, e]
    · intro j hj
      have e := o2 j hj
      have hjn : j ≠ h.length := by
        have := lt_of_attrOf (e.trans hu)
        omega
      simp [hjn, e]

theorem RingShares_init {α : Type} (f : KDI_Menu_item → α) {s0 s : State} {d : VoidPtr}
    {t : Nat} (h : KDI_Menu_Init s0 d t = some s) : RingShares f s0.heap.length s.heap := by
  rw [Init_eq] at h
  have hs := Option.some.inj h
  subst hs
  intro i hib hil
  have hi : i = s0.heap.length := by
    simp at hil
    omega
  subst hi
  have v := fun a => Init_views s0.heap
    { data := d, type := bits4 t, level_menu := 1, last_item := some s0.heap.length,
      next_item := some s0.heap.length, parent_item := none, child_item := none } a
    rfl rfl rfl rfl
  simp only [v]
  constructor
  · intro j hj
    simp only [if_true, Option.some.injEq] at hj
    subst hj
    rfl
  · intro j hj
    simp only [if_true, Option.some.injEq] at hj
    subst hj
    rfl

/-- One call keeps a field shared along every ring, provided each new sibling
gets the value its cursor has. -/
theorem RingShares_call {α : Type} (f : KDI_Menu_item → α)
    (hf : ∀ (x : KDI_Menu_item) (p q r : Ptr),
      f { x with next_item := p, last_item := q, child_item := r } = f x)
    {base : Nat} {s s1 : State} {op : Op} (hi : Inv base s) (hs : RingShares f base s.heap)
    (hop : ∀ d t cmd c hd x, op = Op.Add_Next d t cmd → s.menu.pointer = some c →
      s.heap[c]? = some x →
      f { data := d, type := bits4 t, level_menu := bits4 s.menu.level, last_item := some c,
          next_item := some hd, parent_item := x.parent_item, child_item := none } = f x)
    (h : op.call s = some s1) : RingShares f base s1.heap := by
  obtain ⟨hl, -, hptr⟩ := hi
  cases op with
  | Add_Next d t cmd =>
    simp only [Op.call] at h
    cases hp : s.menu.pointer with
    | none =>
      rw [Add_Next_null hp] at h
      exact absurd h (by simp)
    | some c =>
      obtain ⟨hcb, hcl⟩ := hptr c hp
      obtain ⟨x, hx⟩ := getElem?_of_lt hcl
      obtain ⟨⟨hd, a1, b1, c1⟩, -⟩ := hl c hcb hcl
      obtain ⟨y, hy⟩ := getElem?_of_lt (lt_of_view c1)
      have hn : x.next_item = some hd := by
        simpa [nextOf, hx] using a1
      obtain ⟨-, f1, -⟩ := Add_Next_heap hp hx hn hy h
      refine RingShares_Add_Next hs f1 hcb hcl a1 (attrOf_of_getElem? f hx)
        (fun a => Add_Next_views hp hx hn hy h a) ?_
      intro a
      rw [Add_Next_attr f hf hp hx hn hy h a, hop d t cmd c hd x rfl hp hx]
  | Add_Child d t e cmd =>
    simp only [Op.call] at h
    cases hp : s.menu.pointer with
    | none =>
      rw [Add_Child_null hp] at h
      exact absurd h (by simp)
    | some c =>
      obtain ⟨hcb, hcl⟩ := hptr c hp
      obtain ⟨x, hx⟩ := getElem?_of_lt hcl
      exact RingShares_Add_Child hs (Add_Child_views hp hx h 0).1
        (fun a => ⟨(Add_Child_views hp hx h a).2.1, (Add_Child_views hp hx h a).2.2.1⟩)
        (fun a => Add_Child_attr f hf hp hx h a)
  | Start =>
    simp only [Op.call, KDI_Menu_Start, Option.some.injEq] at h
    subst h
    exact hs
  | Drive cmd =>
    simp only [Op.call] at h
    rw [(Drive_moved h).1]
    exact hs

/-- What a field shared along the rings says of the items themselves. -/
theorem RingShares_items {α : Type} {f : KDI_Menu_item → α} {base : Nat} {s : State}
    (hi : Inv base s) (hs : RingShares f base s.heap) {i : Nat} {x : KDI_Menu_item}
    (hib : base ≤ i) (hx : s.heap[i]? = some x) :
    (∃ j y, x.next_item = some j ∧ s.heap[j]? = some y ∧ f y = f x) ∧
    (∃ j y, x.last_item = some j ∧ s.heap[j]? = some y ∧ f y = f x) := by
  have hil := lt_of_getElem? hx
  obtain ⟨⟨j1, a1, -, c1⟩, ⟨j2, a2, -, c2⟩, -, -⟩ := hi.1 i hib hil
  obtain ⟨o1, o2⟩ := hs i hib hil
  obtain ⟨y1, hy1⟩ := getElem?_of_lt (lt_of_view c1)
  obtain ⟨y2, hy2⟩ := getElem?_of_lt (lt_of_view c2)
  have e1 := o1 j1 a1
  have e2 := o2 j2 a2
  rw [attrOf_of_getElem? f hy1, attrOf_of_getElem? f hx] at e1
  rw [attrOf_of_getElem? f hy2, attrOf_of_getElem? f hx] at e2
  simp only [nextOf, prevOf, hx, Option.some_bind] at a1 a2
  exact ⟨⟨j1, y1, a1, hy1, Option.some.inj e1⟩, ⟨j2, y2, a2, hy2, Option.some.inj e2⟩⟩

/-! ## C18: one parent per ring -/

theorem SharedParent_callAll {base : Nat} {ops : List Op} {s s1 : State} (hi : Inv base s)
    (hs : RingShares (fun x => x.parent_item) base s.heap) (h : callAll s ops = some s1) :
    RingShares (fun x => x.parent_item) base s1.heap := by
  induction ops generalizing s with
  | nil =>
    simp only [callAll, Option.some.injEq] at h
    exact h ▸ hs
  | cons op ops ih =>
    simp only [callAll, andThen_eq_some] at h
    obtain ⟨s2, h1, h2⟩ := h
    exact ih (Inv_call hi h1)
      (RingShares_call (fun x => x.parent_item) (fun _ _ _ _ => rfl) hi hs
        (fun _ _ _ _ _ _ _ _ _ => rfl) h1) h2

/-- C18: in every state reached from `KDI_Menu_Init` by calls of
`KDI_Menu_Add_Next`, `KDI_Menu_Add_Child`, `KDI_Menu_Start` and `KDI_Menu_Drive` that
all return, every item X created since has items as `next_item` and `last_item`,
and both have the `parent_item` of X (null throughout the ring of the root). -/
theorem C18_shared_parent {s0 s : State} {d : VoidPtr} {t : Nat} {ops : List Op}
    (h : initThen s0 d t ops = some s) :
    ∀ i x, s0.heap.length ≤ i → s.heap[i]? = some x →
      (∃ j y, x.next_item = some j ∧ s.heap[j]? = some y ∧ y.parent_item = x.parent_item) ∧
      (∃ j y, x.last_item = some j ∧ s.heap[j]? = some y ∧ y.parent_item = x.parent_item) := by
  have hi := Inv_initThen h
  simp only [initThen, andThen_eq_some] at h
  obtain ⟨s1, h1, h2⟩ := h
  have hs := SharedParent_callAll (Inv_init h1) (RingShares_init _ h1) h2
  intro i x hib hx
  exact RingShares_items hi hs hib hx

/-- C18 at `ringOfFour`: A3 (address 3) is followed by the root, and both have
no parent. -/
theorem C18_shared_parent_witness :
    initThen zeroState (VoidPtr.str "A") TYPE_DATA_CHAR threeSiblings = some ringOfFour ∧
    ∃ y, ringOfFour.heap[0]? = some y ∧ y.parent_item = none := by
  refine ⟨by decide, ?_⟩
  obtain ⟨⟨j, y, h1, h2, h3⟩, -⟩ := @C18_shared_parent zeroState ringOfFour (VoidPtr.str "A")
    TYPE_DATA_CHAR threeSiblings (by decide) 3
    { data := VoidPtr.str "A3", type := TYPE_DATA_CHAR, level_menu := 1, last_item := some 2,
      next_item := some 0, parent_item := none, child_item := none } (by decide) rfl
  have e : j = 0 := (Option.some.inj h1).symm
  subst e
  exact ⟨y, h2, h3⟩

/-! ## C19: one stored level per ring -/

/-- C19 as stated fails after `unevenCalls` and one more sibling: the data leaf
of B (address 3) stores level 0, its `next_item` is the new sibling (address 4),
and that one stores level 2, the level of the navigator when it was added. -/
theorem C19_counterexample :
    (initThen zeroState (VoidPtr.str "A") TYPE_DATA_CHAR
        (unevenCalls ++ [Op.Add_Next (VoidPtr.int 6) TYPE_DATA_INT MENU_COMMAND_NO])).map
      (fun s => (KDI_MenuItem_GetLevel s.heap (some 3),
                 KDI_MenuItem_GetLinkOnNextMenuItem s.heap (some 3),
                 KDI_MenuItem_GetLevel s.heap (some 4)))
      = some (some 0, some (some 4), some 2) := by
  decide

theorem cursorAtOwnLevel_iff {s : State} {c : Nat} {x : KDI_Menu_item}
    (hp : s.menu.pointer = some c) (hx : s.heap[c]? = some x) :
    cursorAtOwnLevel s = true ↔ x.level_menu = bits4 s.menu.level := by
  simp [cursorAtOwnLevel, KDI_MenuItem_GetLevel, load, hp, hx]

theorem SharedLevel_call {base : Nat} {s s1 : State} {op : Op} (hi : Inv base s)
    (hs : RingShares (fun x => x.level_menu) base s.heap)
    (hg : op.isAddNext = true → cursorAtOwnLevel s = true) (h : op.call s = some s1) :
    RingShares (fun x => x.level_menu) base s1.heap := by
  refine RingShares_call (fun x => x.level_menu) (fun _ _ _ _ => rfl) hi hs ?_ h
  intro d t cmd c hd x hop hp hx
  subst hop
  exact ((cursorAtOwnLevel_iff hp hx).1 (hg rfl)).symm

theorem siblingsAtOwnLevel_cons {s s2 : State} {op : Op} {ops : List Op}
    (hg : siblingsAtOwnLevel s (op :: ops) = true) (h : op.call s = some s2) :
    (op.isAddNext = true → cursorAtOwnLevel s = true) ∧ siblingsAtOwnLevel s2 ops = true := by
  simp only [siblingsAtOwnLevel, h, Bool.and_eq_true, Bool.or_eq_true, Bool.not_eq_true'] at hg
  refine ⟨?_, hg.2⟩
  intro ha
  rcases hg.1 with h1 | h1
  · rw [ha] at h1
    exact absurd h1 (by simp)
  · exact h1

theorem SharedLevel_callAll {base : Nat} {ops : List Op} {s s1 : State} (hi : Inv base s)
    (hs : RingShares (fun x => x.level_menu) base s.heap)
    (hg : siblingsAtOwnLevel s ops = true) (h : callAll s ops = some s1) :
    RingShares (fun x => x.level_menu) base s1.heap := by
  induction ops generalizing s with
  | nil =>
    simp only [callAll, Option.some.injEq] at h
    exact h ▸ hs
  | cons op ops ih =>
    simp only [callAll, andThen_eq_some] at h
    obtain ⟨s2, h1, h2⟩ := h
    obtain ⟨g1, g2⟩ := siblingsAtOwnLevel_cons hg h1
    exact ih (Inv_call hi h1) (SharedLevel_call hi hs g1 h1) g2 h2

/-- C19 (amended): in every state reached from `KDI_Menu_Init` by calls that all
return and among which every `KDI_Menu_Add_Next` is made while the level stored in
the cursor item is the level of the navigator (as the 4-bit field keeps it),
every item X created since has items as `next_item` and `last_item`, and both store
the level X stores. -/
theorem C19_shared_level {s0 s1 s : State} {d : VoidPtr} {t : Nat} {ops : List Op}
    (hinit : KDI_Menu_Init s0 d t = some s1) (hg : siblingsAtOwnLevel s1 ops = true)
    (h : callAll s1 ops = some s) :
    ∀ i x, s0.heap.length ≤ i → s.heap[i]? = some x →
      (∃ j y, x.next_item = some j ∧ s.heap[j]? = some y ∧ y.level_menu = x.level_menu) ∧
      (∃ j y, x.last_item = some j ∧ s.heap[j]? = some y ∧ y.level_menu = x.level_menu) := by
  have hi := Inv_callAll (Inv_init hinit) h
  have hs := SharedLevel_callAll (Inv_init hinit) (RingShares_init _ hinit) hg h
  intro i x hib hx
  exact RingShares_items hi hs hib hx

/-- C19 (amended) at `ringOfFour`, built by three siblings added at level 1 on
the ring of the root: A3 is followed by the root, which stores level 1 too. -/
theorem C19_shared_level_witness :
    KDI_Menu_Init zeroState (VoidPtr.str "A") TYPE_DATA_CHAR = some rootOnly ∧
    siblingsAtOwnLevel rootOnly threeSiblings = true ∧
    callAll rootOnly threeSiblings = some ringOfFour ∧
    ∃ y, ringOfFour.heap[0]? = some y ∧ y.level_menu = 1 := by
  refine ⟨by decide, by decide, by decide, ?_⟩
  obtain ⟨⟨j, y, h1, h2, h3⟩, -⟩ := @C19_shared_level zeroState rootOnly ringOfFour
    (VoidPtr.str "A") TYPE_DATA_CHAR threeSiblings (by decide) (by decide) (by decide) 3
    { data := VoidPtr.str "A3", type := TYPE_DATA_CHAR, level_menu := 1, last_item := some 2,
      next_item := some 0, parent_item := none, child_item := none } (by decide) rfl
  have e : j = 0 := (Option.some.inj h1).symm
  subst e
  exact ⟨y, h2, h3⟩

/-! ## C20: level 0 and the data leaf -/

/-- C20 as stated fails in both directions. After `unevenCalls` the cursor is the
data leaf of B (stored level 0) while the level is 2: the descent was made below
`level_max`. After `unevenThenSibling` the level is 0 while the cursor is the
sibling added to that leaf at level 2, which stores level 2. -/
theorem C20_counterexample :
    (initThen zeroState (VoidPtr.str "A") TYPE_DATA_CHAR unevenCalls).map
      (fun s => (s.menu.pointer, s.menu.level, KDI_MenuItem_GetLevel s.heap s.menu.pointer))
      = some (some 3, 2, some 0) ∧
    (initThen zeroState (VoidPtr.str "A") TYPE_DATA_CHAR unevenThenSibling).map
      (fun s => (s.menu.pointer, s.menu.level, KDI_MenuItem_GetLevel s.heap s.menu.pointer))
      = some (some 4, 0, some 2) := by
  decide

theorem LevelZeroOK_Drive {base : Nat} {s s1 : State} {cmd : Nat} (hi : Inv base s)
    (hs : RingShares (fun x => x.level_menu) base s.heap) (hz : LevelZeroOK s)
    (h : KDI_Menu_Drive s cmd = some s1) : LevelZeroOK s1 := by
  obtain ⟨-, -, hptr⟩ := hi
  unfold KDI_Menu_Drive at h
  split_ifs at h
  · simp only [Option.some.injEq] at h
    exact h ▸ hz
  · simp only [KDI_Menu_Command_Forward, andThen_eq_some, pointer_next_item_eq_some] at h
    obtain ⟨q, ⟨c, x, hp, hx, hq⟩, h⟩ := h
    simp only [Option.some.injEq] at h
    subst h
    intro h0 c1 x1 hp1 hx1
    simp only at h0 hp1 hx1
    obtain ⟨hcb, hcl⟩ := hptr c hp
    have e := (hs c hcb hcl).1 c1 (by simp [nextOf, hx, hq, hp1])
    rw [attrOf_of_getElem? _ hx1, attrOf_of_getElem? _ hx] at e
    rw [Option.some.inj e]
    exact hz h0 c x hp hx
  · simp only [KDI_Menu_Command_Backward, andThen_eq_some, pointer_last_item_eq_some] at h
    obtain ⟨q, ⟨c, x, hp, hx, hq⟩, h⟩ := h
    simp only [Option.some.injEq] at h
    subst h
    intro h0 c1 x1 hp1 hx1
    simp only at h0 hp1 hx1
    obtain ⟨hcb, hcl⟩ := hptr c hp
    have e := (hs c hcb hcl).2 c1 (by simp [prevOf, hx, hq, hp1])
    rw [attrOf_of_getElem? _ hx1, attrOf_of_getElem? _ hx] at e
    rw [Option.some.inj e]
    exact hz h0 c x hp hx
  · simp only [KDI_Menu_Command_Up, natCast_not_neg, if_false] at h
    split_ifs at h with h1 h2
    · simp only [andThen_eq_some, pointer_parent_item_eq_some] at h
      obtain ⟨q, ⟨c, x, hp, hx, hq⟩, h⟩ := h
      simp only [Option.some.injEq] at h
      subst h
      intro h0
      simp only at h0
      omega
    · simp only [andThen_eq_some, pointer_parent_item_eq_some] at h
      obtain ⟨q, ⟨c, x, hp, hx, hq⟩, y, hy, h⟩ := h
      simp only [Option.some.injEq] at h
      subst h
      intro h0 c1 x1 hp1 hx1
      simp only at h0 hp1 hx1 hy
      rw [hp1] at hy
      simp only [load] at hy
      rw [hx1] at hy
      rw [Option.some.inj hy]
      exact h0
    · simp only [Option.some.injEq] at h
      exact h ▸ hz
  · simp only [KDI_Menu_Command_Down] at h
    split_ifs at h with h1 h2 h3
    · simp only [Option.some.injEq] at h
      exact h ▸ hz
    · simp only [Option.some.injEq] at h
      subst h
      intro h0
      simp only at h0
      omega
    · simp only [andThen_eq_some, pointer_child_item_eq_some] at h
      obtain ⟨q, ⟨c, x, hp, hx, hq⟩, h⟩ := h
      simp only [Option.some.injEq] at h
      subst h
      intro h0
      simp only at h0
      omega
    · simp only [andThen_eq_some, pointer_child_item_eq_some] at h
      obtain ⟨q, ⟨c, x, hp, hx, hq⟩, y, hy, h⟩ := h
      split_ifs at h with h4
      · simp only [Option.some.injEq] at h
        subst h
        intro h0 c1 x1 hp1 hx1
        simp only at h0 hp1 hx1
        rw [hp1] at hy
        simp only [load] at hy
        rw [hx1] at hy
        rw [Option.some.inj hy]
        exact h4
      · simp only [Option.some.injEq] at h
        exact h ▸ hz
  · simp only [Option.some.injEq] at h
    exact h ▸ hz

theorem LevelZeroOK_of_same_cursor {base : Nat} {s s1 : State} (hi : Inv base s)
    (hl : s1.menu.level = s.menu.level) (hp : s1.menu.pointer = s.menu.pointer)
    (ha : ∀ c, c < s.heap.length →
      attrOf (fun x => x.level_menu) s1.heap c = attrOf (fun x => x.level_menu) s.heap c)
    (hz : LevelZeroOK s) : LevelZeroOK s1 := by
  intro h0 c x hc hx
  rw [hl] at h0
  rw [hp] at hc
  obtain ⟨-, hcl⟩ := hi.2.2 c hc
  obtain ⟨y, hy⟩ := getElem?_of_lt hcl
  have e := ha c hcl
  rw [attrOf_of_getElem? _ hx, attrOf_of_getElem? _ hy] at e
  rw [Option.some.inj e]
  exact hz h0 c y hc hy

theorem LevelZeroOK_call {base : Nat} {s s1 : State} {op : Op} (hi : Inv base s)
    (hs : RingShares (fun x => x.level_menu) base s.heap) (hz : LevelZeroOK s)
    (hg : op.isAddNext = true → cursorAtOwnLevel s = true) (hns : op ≠ Op.Start)
    (h : op.call s = some s1) : LevelZeroOK s1 := by
  cases op with
  | Start => exact absurd rfl hns
  | Drive cmd => exact LevelZeroOK_Drive hi hs hz h
  | Add_Next d t cmd =>
    simp only [Op.call] at h
    cases hp : s.menu.pointer with
    | none =>
      rw [Add_Next_null hp] at h
      exact absurd h (by simp)
    | some c =>
      obtain ⟨hcb, hcl⟩ := hi.2.2 c hp
      obtain ⟨x, hx⟩ := getElem?_of_lt hcl
      obtain ⟨⟨hd, a1, b1, c1⟩, -⟩ := hi.1 c hcb hcl
      obtain ⟨y, hy⟩ := getElem?_of_lt (lt_of_view c1)
      have hn : x.next_item = some hd := by
        simpa [nextOf, hx] using a1
      obtain ⟨s0, h0⟩ := Add_Next_NO_returns hp hx hn hy d t
      rw [Add_Next_cmd hp hx hn hy h0] at h
      have hc0 : (Op.Add_Next d t 0).call s = some s0 := h0
      have hm := Add_Next_NO_menu h0
      refine LevelZeroOK_Drive (Inv_call hi hc0)
        (SharedLevel_call hi hs (fun _ => hg rfl) hc0) ?_ h
      refine LevelZeroOK_of_same_cursor hi (by rw [hm]) (by rw [hm]) ?_ hz
      intro a ha
      rw [Add_Next_attr (fun x => x.level_menu) (fun _ _ _ _ => rfl) hp hx hn hy h0 a,
        if_neg (by omega)]
  | Add_Child d t e cmd =>
    simp only [Op.call] at h
    cases hp : s.menu.pointer with
    | none =>
      rw [Add_Child_null hp] at h
      exact absurd h (by simp)
    | some c =>
      obtain ⟨hcb, hcl⟩ := hi.2.2 c hp
      obtain ⟨x, hx⟩ := getElem?_of_lt hcl
      have h0 := (Add_Child_eq hp hx d t e 0).trans (Drive_NO _)
      have hcmd : KDI_Menu_Add_Child s d t e cmd = KDI_Menu_Drive _ cmd :=
        Add_Child_eq hp hx d t e cmd
      rw [hcmd] at h
      have hc0 : (Op.Add_Child d t e 0).call s = some _ := h0
      refine LevelZeroOK_Drive (Inv_call hi hc0)
        (SharedLevel_call hi hs (fun hh => absurd hh (by simp [Op.isAddNext])) hc0) ?_ h
      refine LevelZeroOK_of_same_cursor hi rfl rfl ?_ hz
      intro a ha
      rw [Add_Child_attr (fun x => x.level_menu) (fun _ _ _ _ => rfl) hp hx h0 a,
        if_neg (by omega)]

theorem LevelZeroOK_callAll {base : Nat} {ops : List Op} {s s1 : State} (hi : Inv base s)
    (hs : RingShares (fun x => x.level_menu) base s.heap) (hz : LevelZeroOK s)
    (hg : siblingsAtOwnLevel s ops = true) (hns : Op.Start ∉ ops)
    (h : callAll s ops = some s1) : LevelZeroOK s1 := by
  induction ops generalizing s with
  | nil =>
    simp only [callAll, Option.some.injEq] at h
    exact h ▸ hz
  | cons op ops ih =>
    simp only [callAll, andThen_eq_some] at h
    obtain ⟨s2, h1, h2⟩ := h
    obtain ⟨g1, g2⟩ := siblingsAtOwnLevel_cons hg h1
    simp only [List.mem_cons, not_or] at hns
    exact ih (Inv_call hi h1) (SharedLevel_call hi hs g1 h1)
      (LevelZeroOK_call hi hs hz g1 (fun e => hns.1 e.symm) h1) g2 hns.2 h2

/-- C20 (amended): in every state reached from `KDI_Menu_Init` by `KDI_Menu_Add_Next`,
`KDI_Menu_Add_Child` and `KDI_Menu_Drive` calls that all return, every
`KDI_Menu_Add_Next` being made while the level stored in the cursor item is the
level of the navigator, a level of 0 with a cursor on an item means that the
cursor item stores level 0: the cursor is a data leaf. -/
theorem C20_level_zero_is_leaf {s0 s1 s : State} {d : VoidPtr} {t : Nat} {ops : List Op}
    (hinit : KDI_Menu_Init s0 d t = some s1) (hg : siblingsAtOwnLevel s1 ops = true)
    (hns : Op.Start ∉ ops) (h : callAll s1 ops = some s) (h0 : s.menu.level = 0) :
    ∀ c, s.menu.pointer = some c → KDI_MenuItem_GetLevel s.heap (some c) = some 0 := by
  have hz1 : LevelZeroOK s1 := by
    intro e
    rw [Init_eq] at hinit
    simp only [Option.some.injEq] at hinit
    subst hinit
    simp [MENU_LEVEL_1] at e
  have hz := LevelZeroOK_callAll (Inv_init hinit) (RingShares_init _ hinit) hz1 hg hns h
  have hi := Inv_callAll (Inv_init hinit) h
  intro c hc
  obtain ⟨-, hcl⟩ := hi.2.2 c hc
  obtain ⟨x, hx⟩ := getElem?_of_lt hcl
  simp [KDI_MenuItem_GetLevel, load, hx, hz h0 c x hc hx]

/-- C20 (amended) at the state after `usageCalls` and a descent: the level is 0
and the cursor item, at address 2, stores level 0. -/
theorem C20_level_zero_is_leaf_witness :
    KDI_Menu_Init zeroState (VoidPtr.str "A") TYPE_DATA_CHAR = some rootOnly ∧
    siblingsAtOwnLevel rootOnly (usageCalls ++ [Op.Drive MENU_COMMAND_DOWN]) = true ∧
    Op.Start ∉ usageCalls ++ [Op.Drive MENU_COMMAND_DOWN] ∧
    callAll rootOnly (usageCalls ++ [Op.Drive MENU_COMMAND_DOWN]) = some usageLeafState ∧
    usageLeafState.menu.level = 0 ∧ usageLeafState.menu.pointer = some 2 ∧
    KDI_MenuItem_GetLevel usageLeafState.heap (some 2) = some 0 :=
  ⟨by decide, by decide, by decide, by decide, by decide, by decide,
   C20_level_zero_is_leaf
     (show KDI_Menu_Init zeroState (VoidPtr.str "A") TYPE_DATA_CHAR = some rootOnly by decide)
     (show siblingsAtOwnLevel rootOnly (usageCalls ++ [Op.Drive MENU_COMMAND_DOWN]) = true
       by decide)
     (show Op.Start ∉ usageCalls ++ [Op.Drive MENU_COMMAND_DOWN] by decide)
     (show callAll rootOnly (usageCalls ++ [Op.Drive MENU_COMMAND_DOWN]) = some usageLeafState
       by decide)
     (show usageLeafState.menu.level = 0 by decide) 2 (by decide)⟩

/-! ## C21: a tag outside the enumeration -/

/-- C21 as stated fails for the tag 7: `KDI_Menu_Init` stores it in the root, and
with the three callbacks registered the handler returns without any call, so
"E0  " is not passed to the text callback. -/
theorem C21_counterexample :
    (KDI_Menu_Init zeroState (VoidPtr.str "A") 7).map
      (fun s => (KDI_MenuItem_GetTypeData s.heap s.menu.pointer,
                 (withCallbacks s).menu.print_string,
                 KDI_Menu_Handler (withCallbacks s)))
      = some (some 7, some 1, some []) := by
  decide

/-- C21 (amended): with a cursor that is an item whose tag is none of absent,
text, integer, real, the handler returns and makes no call at all, whatever the
callback slots hold: the switch has no default case. -/
theorem C21_unknown_tag_no_call {s : State} {c : Nat} {x : KDI_Menu_item}
    (hp : s.menu.pointer = some c) (hx : s.heap[c]? = some x)
    (h0 : x.type ≠ TYPE_DATA_VOID) (h1 : x.type ≠ TYPE_DATA_CHAR)
    (h2 : x.type ≠ TYPE_DATA_INT) (h3 : x.type ≠ TYPE_DATA_FLOAT) :
    KDI_Menu_Handler s = some [] := by
  simp [KDI_Menu_Handler, load, hp, hx, andThen, h0, h1, h2, h3]

/-- C21 (amended) on the root created with the tag 7, the callbacks registered:
no call is made. -/
theorem C21_unknown_tag_no_call_witness :
    KDI_Menu_Handler (withCallbacks
      { heap := [{ rootItem with type := 7 }], menu := rootOnly.menu }) = some [] :=
  @C21_unknown_tag_no_call (withCallbacks
      { heap := [{ rootItem with type := 7 }], menu := rootOnly.menu }) 0
    { rootItem with type := 7 } rfl rfl (by decide) (by decide) (by decide) (by decide)

/-! ## C22: the test `level < 0` in `KDI_Menu_Command_Up` -/

/-- C22: in every state with level > 1 the decremented level is at least 1, the
test `level < 0` made on it fails, and `KDI_Menu_Command_Up` is the other arm of
that test: the cursor is read and replaced by its `parent_item` under the
decremented level. So whenever up returns from such a state, the level is
level - 1 and the cursor is the `parent_item` of the old cursor. -/
theorem C22_up_clamp_unreachable (s : State) (h : 1 < s.menu.level) :
    1 ≤ s.menu.level - 1 ∧ ¬ (((s.menu.level - 1 : Nat) : Int) < 0) ∧
    KDI_Menu_Command_Up s =
      andThen (pointer_parent_item s.heap { s.menu with level := s.menu.level - 1 })
        (fun p => some { s with menu :=
          { s.menu with level := s.menu.level - 1, pointer := p } }) ∧
    (∀ c x, s.menu.pointer = some c → s.heap[c]? = some x →
      KDI_Menu_Command_Up s = some
        { s with menu := { s.menu with level := s.menu.level - 1, pointer := x.parent_item } }) ∧
    (∀ s1, KDI_Menu_Command_Up s = some s1 →
      s1.menu.level = s.menu.level - 1 ∧
      ∃ c x, s.menu.pointer = some c ∧ s.heap[c]? = some x ∧
        s1.menu.pointer = x.parent_item) := by
  have e : KDI_Menu_Command_Up s =
      andThen (pointer_parent_item s.heap { s.menu with level := s.menu.level - 1 })
        (fun p => some { s with menu :=
          { s.menu with level := s.menu.level - 1, pointer := p } }) := by
    simp only [KDI_Menu_Command_Up, gt_iff_lt, if_pos h, natCast_not_neg, if_false]
  refine ⟨by omega, natCast_not_neg _, e, fun c x hp hx => Up_group hp hx h, ?_⟩
  intro s1 h1
  rw [e] at h1
  simp only [andThen_eq_some, pointer_parent_item_eq_some] at h1
  obtain ⟨q, ⟨c, x, hp, hx, hq⟩, h1⟩ := h1
  simp only [Option.some.injEq] at h1
  subst h1
  exact ⟨rfl, c, x, hp, hx, hq.symm⟩

/-- C22 on the usage example (cursor on A1 at level 2): up moves to the root
with level 1, the decremented level. -/
theorem C22_up_clamp_unreachable_witness :
    1 < usageState.menu.level ∧
    KDI_Menu_Command_Up usageState = some
      { usageState with menu := { usageState.menu with level := 1, pointer := some 0 } } :=
  ⟨by decide,
   (C22_up_clamp_unreachable usageState (by decide)).2.2.2.1 1
     { data := VoidPtr.str "A1", type := TYPE_DATA_CHAR, level_menu := 2,
       last_item := some 1, next_item := some 1, parent_item := some 0,
       child_item := some 2 } rfl rfl⟩

/-! ## C23: a child names its parent -/

/-- A down that moves the cursor leaves the heap, puts the cursor on the
`child_item` of the old cursor, and ends with a level above 1 or equal to 0. -/
theorem Down_onto_child {s s1 : State} (h : KDI_Menu_Command_Down s = some s1)
    (hmv : s1.menu.pointer ≠ s.menu.pointer) :
    s1.heap = s.heap ∧ (1 < s1.menu.level ∨ s1.menu.level = 0) ∧
    ∃ c x, s.menu.pointer = some c ∧ s.heap[c]? = some x ∧ s1.menu.pointer = x.child_item := by
  simp only [KDI_Menu_Command_Down] at h
  split_ifs at h with h1 h2 h3
  · simp only [Option.some.injEq] at h
    subst h
    exact absurd rfl hmv
  · simp only [Option.some.injEq] at h
    subst h
    exact absurd rfl hmv
  · simp only [andThen_eq_some, pointer_child_item_eq_some] at h
    obtain ⟨q, ⟨c, x, hp, hx, hq⟩, h⟩ := h
    simp only [Option.some.injEq] at h
    subst h
    simp only [MENU_LEVEL_DATA] at h2
    exact ⟨rfl, Or.inl (by simp only; omega), c, x, hp, hx, hq.symm⟩
  · simp only [andThen_eq_some, pointer_child_item_eq_some] at h
    obtain ⟨q, ⟨c, x, hp, hx, hq⟩, y, hy, h⟩ := h
    split_ifs at h
    · simp only [Option.some.injEq] at h
      subst h
      exact ⟨rfl, Or.inr rfl, c, x, hp, hx, hq.symm⟩
    · simp only [Option.some.injEq] at h
      subst h
      exact absurd rfl hmv

/-- C23: in every state reached from `KDI_Menu_Init` by calls of
`KDI_Menu_Add_Next`, `KDI_Menu_Add_Child`, `KDI_Menu_Start` and `KDI_Menu_Drive` that
all return, every item X created since whose `child_item` is present has an
item there, and the `parent_item` of that item is X. So when the cursor is X and
down moves it, the up that follows returns and puts the cursor back on X. -/
theorem C23_child_names_parent {s0 s : State} {d : VoidPtr} {t : Nat} {ops : List Op}
    (h : initThen s0 d t ops = some s) :
    ∀ i x ch, s0.heap.length ≤ i → s.heap[i]? = some x → x.child_item = some ch →
      (∃ y, s.heap[ch]? = some y ∧ y.parent_item = some i) ∧
      (∀ s1, s.menu.pointer = some i → KDI_Menu_Command_Down s = some s1 →
        s1.menu.pointer ≠ s.menu.pointer →
        ∃ s2, KDI_Menu_Command_Up s1 = some s2 ∧ s2.menu.pointer = some i) := by
  obtain ⟨hl, -, -⟩ := Inv_initThen h
  intro i x ch hib hx hch
  obtain ⟨-, -, hchild, -⟩ := hl i hib (lt_of_getElem? hx)
  obtain ⟨-, hpar⟩ := hchild ch (by simp [childOf, hx, hch])
  obtain ⟨y, hy⟩ := getElem?_of_lt (lt_of_view hpar)
  simp only [parentOf, hy, Option.some_bind] at hpar
  refine ⟨⟨y, hy, hpar⟩, ?_⟩
  intro s1 hp hdown hmv
  obtain ⟨e1, hlv, c, x1, hp1, hx1, hq⟩ := Down_onto_child hdown hmv
  rw [hp] at hp1
  have e2 := Option.some.inj hp1
  subst e2
  rw [hx] at hx1
  have e3 := Option.some.inj hx1
  subst e3
  rw [hch] at hq
  rw [← e1] at hy hx
  rcases hlv with hlv | hlv
  · rw [Up_group hq hy hlv]
    exact ⟨_, rfl, hpar⟩
  · rw [Up_data hq hy hlv hpar hx]
    exact ⟨_, rfl, rfl⟩

/-- C23 on the usage example: A1 (address 1) has the data leaf at address 2 as
its child, and the `parent_item` of the leaf is A1. -/
theorem C23_child_names_parent_witness :
    initThen zeroState (VoidPtr.str "A") TYPE_DATA_CHAR usageCalls = some usageState ∧
    ∃ y, usageState.heap[2]? = some y ∧ y.parent_item = some 1 :=
  ⟨by decide,
   (@C23_child_names_parent zeroState usageState (VoidPtr.str "A") TYPE_DATA_CHAR usageCalls
     (by decide) 1
     { data := VoidPtr.str "A1", type := TYPE_DATA_CHAR, level_menu := 2,
       last_item := some 1, next_item := some 1, parent_item := some 0,
       child_item := some 2 } 2 (by decide) rfl rfl).1⟩

/-! ## C24: the bounds on the levels -/

theorem attrOf_eq_some {α : Type} {f : KDI_Menu_item → α} {h : Heap} {a : Nat} {v : α} :
    attrOf f h a = some v ↔ ∃ x, h[a]? = some x ∧ f x = v := by
  simp [attrOf]

theorem bits4_le (n : Nat) : bits4 n ≤ n := Nat.mod_le n 16

theorem LevelsOK_init {s0 s : State} {d : VoidPtr} {t : Nat}
    (h : KDI_Menu_Init s0 d t = some s) : LevelsOK s0.heap.length s := by
  rw [Init_eq] at h
  have hs := Option.some.inj h
  subst hs
  refine ⟨le_refl _, le_refl _, ?_⟩
  intro i x hib hx
  have hil : i < s0.heap.length + 1 := by
    have := lt_of_getElem? hx
    simpa using this
  have e : i = s0.heap.length := by omega
  subst e
  simp only [List.getElem?_concat_length, Option.some.injEq] at hx
  subst hx
  exact le_refl _

theorem LevelsOK_Drive {base : Nat} {s s1 : State} {cmd : Nat} (hi : Inv base s)
    (hb : LevelsOK base s) (h : KDI_Menu_Drive s cmd = some s1) : LevelsOK base s1 := by
  obtain ⟨hl, -, hptr⟩ := hi
  obtain ⟨b1, b2, b3⟩ := hb
  obtain ⟨e1, -, e3, -⟩ := Drive_moved h
  have hlev : s1.menu.level ≤ s.menu.level_max := by
    unfold KDI_Menu_Drive at h
    split_ifs at h
    · simp only [Option.some.injEq] at h
      exact h ▸ b1
    · simp only [KDI_Menu_Command_Forward, andThen_eq_some, pointer_next_item_eq_some] at h
      obtain ⟨q, -, h⟩ := h
      simp only [Option.some.injEq] at h
      subst h
      exact b1
    · simp only [KDI_Menu_Command_Backward, andThen_eq_some, pointer_last_item_eq_some] at h
      obtain ⟨q, -, h⟩ := h
      simp only [Option.some.injEq] at h
      subst h
      exact b1
    · simp only [KDI_Menu_Command_Up, natCast_not_neg, if_false] at h
      split_ifs at h with h1 h2
      · simp only [andThen_eq_some, pointer_parent_item_eq_some] at h
        obtain ⟨q, -, h⟩ := h
        simp only [Option.some.injEq] at h
        subst h
        simp only
        omega
      · simp only [andThen_eq_some, pointer_parent_item_eq_some] at h
        obtain ⟨q, ⟨c, x, hp, hx, hq⟩, y, hy, h⟩ := h
        simp only [Option.some.injEq] at h
        subst h
        simp only at hy ⊢
        rw [load_eq_some] at hy
        obtain ⟨p, hq2, hy⟩ := hy
        obtain ⟨hcb, hcl⟩ := hptr c hp
        obtain ⟨-, -, -, hpar⟩ := hl c hcb hcl
        obtain ⟨hpb, -⟩ := hpar p (by simp [parentOf, hx, hq, hq2])
        exact b3 p y hpb hy
      · simp only [Option.some.injEq] at h
        exact h ▸ b1
    · simp only [KDI_Menu_Command_Down] at h
      split_ifs at h with h1 h2 h3
      · simp only [Option.some.injEq] at h
        exact h ▸ b1
      · simp only [Option.some.injEq] at h
        subst h
        exact le_refl _
      · simp only [andThen_eq_some, pointer_child_item_eq_some] at h
        obtain ⟨q, -, h⟩ := h
        simp only [Option.some.injEq] at h
        subst h
        simp only
        omega
      · simp only [andThen_eq_some, pointer_child_item_eq_some] at h
        obtain ⟨q, -, y, hy, h⟩ := h
        split_ifs at h
        · simp only [Option.some.injEq] at h
          subst h
          simp only [MENU_LEVEL_DATA]
          omega
        · simp only [Option.some.injEq] at h
          exact h ▸ b1
    · simp only [Option.some.injEq] at h
      exact h ▸ b1
  refine ⟨e3 ▸ hlev, e3 ▸ b2, ?_⟩
  intro i x hib hx
  rw [e1] at hx
  rw [e3]
  exact b3 i x hib hx

theorem LevelsOK_call {base : Nat} {s s1 : State} {op : Op} (hi : Inv base s)
    (hb : LevelsOK base s) (h : op.call s = some s1) :
    LevelsOK base s1 ∧ s.menu.level_max ≤ s1.menu.level_max := by
  cases op with
  | Start =>
    simp only [Op.call, KDI_Menu_Start, Option.some.injEq] at h
    subst h
    exact ⟨hb, le_refl _⟩
  | Drive cmd =>
    exact ⟨LevelsOK_Drive hi hb h, le_of_eq (Drive_moved h).2.2.1.symm⟩
  | Add_Next d t cmd =>
    simp only [Op.call] at h
    cases hp : s.menu.pointer with
    | none =>
      rw [Add_Next_null hp] at h
      exact absurd h (by simp)
    | some c =>
      obtain ⟨hcb, hcl⟩ := hi.2.2 c hp
      obtain ⟨x, hx⟩ := getElem?_of_lt hcl
      obtain ⟨⟨hd, a1, b1, c1⟩, -⟩ := hi.1 c hcb hcl
      obtain ⟨y, hy⟩ := getElem?_of_lt (lt_of_view c1)
      have hn : x.next_item = some hd := by
        simpa [nextOf, hx] using a1
      obtain ⟨s0, h0⟩ := Add_Next_NO_returns hp hx hn hy d t
      rw [Add_Next_cmd hp hx hn hy h0] at h
      have hc0 : (Op.Add_Next d t 0).call s = some s0 := h0
      have hm := Add_Next_NO_menu h0
      have hb0 : LevelsOK base s0 := by
        refine ⟨hm ▸ hb.1, hm ▸ hb.2.1, ?_⟩
        intro i x1 hib hx1
        have e := Add_Next_attr (fun x => x.level_menu) (fun _ _ _ _ => rfl) hp hx hn hy h0 i
        rw [attrOf_of_getElem? _ hx1, hm] at *
        by_cases hil : i = s.heap.length
        · rw [if_pos hil] at e
          have e2 := Option.some.inj e
          simp only at e2
          rw [e2]
          exact le_trans (bits4_le _) hb.1
        · rw [if_neg hil] at e
          obtain ⟨x0, hx0, hv⟩ := attrOf_eq_some.1 e.symm
          rw [← hv]
          exact hb.2.2 i x0 hib hx0
      refine ⟨LevelsOK_Drive (Inv_call hi hc0) hb0 h, ?_⟩
      rw [(Drive_moved h).2.2.1, hm]
  | Add_Child d t e cmd =>
    simp only [Op.call] at h
    cases hp : s.menu.pointer with
    | none =>
      rw [Add_Child_null hp] at h
      exact absurd h (by simp)
    | some c =>
      obtain ⟨hcb, hcl⟩ := hi.2.2 c hp
      obtain ⟨x, hx⟩ := getElem?_of_lt hcl
      have h0 := (Add_Child_eq hp hx d t e 0).trans (Drive_NO _)
      have hcmd : KDI_Menu_Add_Child s d t e cmd = KDI_Menu_Drive _ cmd :=
        Add_Child_eq hp hx d t e cmd
      rw [hcmd] at h
      have hc0 : (Op.Add_Child d t e 0).call s = some _ := h0
      refine ⟨LevelsOK_Drive (Inv_call hi hc0) ?_ h, ?_⟩
      · refine ⟨le_trans hb.1 (le_max_left _ _), le_trans hb.2.1 (le_max_left _ _), ?_⟩
        intro i x1 hib hx1
        have e2 := Add_Child_attr (fun x => x.level_menu) (fun _ _ _ _ => rfl) hp hx h0 i
        rw [attrOf_of_getElem? _ hx1] at e2
        by_cases hil : i = s.heap.length
        · rw [if_pos hil] at e2
          have e3 := Option.some.inj e2
          simp only at e3
          rw [e3]
          exact le_max_right _ _
        · rw [if_neg hil] at e2
          obtain ⟨x0, hx0, hv⟩ := attrOf_eq_some.1 e2.symm
          rw [← hv]
          exact le_trans (hb.2.2 i x0 hib hx0) (le_max_left _ _)
      · rw [(Drive_moved h).2.2.1]
        exact le_max_left _ _

theorem LevelsOK_callAll {base : Nat} {ops : List Op} {s s1 : State} (hi : Inv base s)
    (hb : LevelsOK base s) (h : callAll s ops = some s1) : LevelsOK base s1 := by
  induction ops generalizing s with
  | nil =>
    simp only [callAll, Option.some.injEq] at h
    exact h ▸ hb
  | cons op ops ih =>
    simp only [callAll, andThen_eq_some] at h
    obtain ⟨s2, h1, h2⟩ := h
    exact ih (Inv_call hi h1) (LevelsOK_call hi hb h1).1 h2

/-- C24: in every state reached from `KDI_Menu_Init` by calls of `KDI_Menu_Add_Next`,
`KDI_Menu_Add_Child`, `KDI_Menu_Start` and `KDI_Menu_Drive` that all return,
0 ≤ level ≤ level_max, level_max ≥ 1, no item created since stores a level above
`level_max`, and any further call that returns leaves `level_max` at least as
large as it was. -/
theorem C24_level_bounds {s0 s : State} {d : VoidPtr} {t : Nat} {ops : List Op}
    (h : initThen s0 d t ops = some s) :
    0 ≤ s.menu.level ∧ s.menu.level ≤ s.menu.level_max ∧ 1 ≤ s.menu.level_max ∧
    (∀ i x, s0.heap.length ≤ i → s.heap[i]? = some x → x.level_menu ≤ s.menu.level_max) ∧
    (∀ (op : Op) (s2 : State), op.call s = some s2 →
      s.menu.level_max ≤ s2.menu.level_max) := by
  have hi := Inv_initThen h
  simp only [initThen, andThen_eq_some] at h
  obtain ⟨s1, h1, h2⟩ := h
  have hb := LevelsOK_callAll (Inv_init h1) (LevelsOK_init h1) h2
  exact ⟨Nat.zero_le _, hb.1, hb.2.1, hb.2.2, fun op s2 hop => (LevelsOK_call hi hb hop).2⟩

/-- C24 on the data leaf of the usage example: level 0 under `level_max` 2. -/
theorem C24_level_bounds_witness :
    initThen zeroState (VoidPtr.str "A") TYPE_DATA_CHAR
      (usageCalls ++ [Op.Drive MENU_COMMAND_DOWN]) = some usageLeafState ∧
    usageLeafState.menu.level ≤ usageLeafState.menu.level_max ∧
    usageLeafState.menu.level_max = 2 :=
  ⟨by decide,
   (@C24_level_bounds zeroState usageLeafState (VoidPtr.str "A") TYPE_DATA_CHAR
     (usageCalls ++ [Op.Drive MENU_COMMAND_DOWN]) (by decide)).2.1, by decide⟩

/-! ## C25: what `KDI_Menu_Drive` leaves alone -/

theorem Drive_BACKWARD_eq {s : State} {c : Nat} {x : KDI_Menu_item}
    (hp : s.menu.pointer = some c) (hx : s.heap[c]? = some x) :
    KDI_Menu_Drive s MENU_COMMAND_BACKWARD
      = some { s with menu := { s.menu with pointer := x.last_item } } := by
  simp only [KDI_Menu_Drive, MENU_COMMAND_BACKWARD, MENU_COMMAND_FORWARD, MENU_COMMAND_NO]
  rw [if_neg (by decide), if_neg (by decide), if_pos trivial]
  exact Backward_eq hp hx

theorem Drive_level_sideways {s s1 : State} {cmd : Nat}
    (hc : cmd = MENU_COMMAND_FORWARD ∨ cmd = MENU_COMMAND_BACKWARD)
    (h : KDI_Menu_Drive s cmd = some s1) : s1.menu.level = s.menu.level := by
  rcases hc with hc | hc
  · subst hc
    simp only [KDI_Menu_Drive, MENU_COMMAND_FORWARD, MENU_COMMAND_NO] at h
    rw [if_neg (by decide), if_pos trivial] at h
    simp only [KDI_Menu_Command_Forward, andThen_eq_some, pointer_next_item_eq_some] at h
    obtain ⟨q, -, h⟩ := h
    simp only [Option.some.injEq] at h
    subst h
    rfl
  · subst hc
    simp only [KDI_Menu_Drive, MENU_COMMAND_BACKWARD, MENU_COMMAND_FORWARD, MENU_COMMAND_NO] at h
    rw [if_neg (by decide), if_neg (by decide), if_pos trivial] at h
    simp only [KDI_Menu_Command_Backward, andThen_eq_some, pointer_last_item_eq_some] at h
    obtain ⟨q, -, h⟩ := h
    simp only [Option.some.injEq] at h
    subst h
    rfl

/-- C25: for every state and every command value, when `KDI_Menu_Drive` returns,
the heap (every item with its payload, tag, stored level and four links), the
root, `level_max`, `Command` and the three callbacks are as before, so only the
cursor and the level can differ; with the command forward or backward the level
is as before too. Forward and backward do return whenever the cursor is an
item, with the cursor on its `next_item`, respectively its `last_item`, and
the rest of the state untouched. -/
theorem C25_navigation_frame (s : State) (cmd : Nat) :
    (∀ s1, KDI_Menu_Drive s cmd = some s1 →
      s1.heap = s.heap ∧ s1.menu.Head = s.menu.Head ∧
      s1.menu.level_max = s.menu.level_max ∧ s1.menu.Command = s.menu.Command ∧
      s1.menu.print_string = s.menu.print_string ∧ s1.menu.print_int = s.menu.print_int ∧
      s1.menu.print_float = s.menu.print_float ∧
      (cmd = MENU_COMMAND_FORWARD ∨ cmd = MENU_COMMAND_BACKWARD →
        s1.menu.level = s.menu.level)) ∧
    (∀ c x, s.menu.pointer = some c → s.heap[c]? = some x →
      KDI_Menu_Drive s MENU_COMMAND_FORWARD
        = some { s with menu := { s.menu with pointer := x.next_item } } ∧
      KDI_Menu_Drive s MENU_COMMAND_BACKWARD
        = some { s with menu := { s.menu with pointer := x.last_item } }) := by
  refine ⟨?_, fun c x hp hx => ⟨Drive_FORWARD_eq hp hx, Drive_BACKWARD_eq hp hx⟩⟩
  intro s1 h
  obtain ⟨e1, e2, e3, e4, e5, e6, e7, -⟩ := Drive_moved h
  exact ⟨e1, e2, e3, e4, e5, e6, e7, fun hc => Drive_level_sideways hc h⟩

/-- C25 on the usage example: down from A1 to the data leaf changes the cursor
and the level only; the heap and `level_max` are those of `usageState`. -/
theorem C25_navigation_frame_witness :
    KDI_Menu_Drive usageState MENU_COMMAND_DOWN = some usageLeafState ∧
    usageLeafState.heap = usageState.heap ∧
    usageLeafState.menu.level_max = usageState.menu.level_max :=
  ⟨by decide,
   ((C25_navigation_frame usageState MENU_COMMAND_DOWN).1 usageLeafState (by decide)).1,
   ((C25_navigation_frame usageState MENU_COMMAND_DOWN).1 usageLeafState (by decide)).2.2.1⟩

/-! ## C26: the cursor can be lost -/

/-- C26: after `KDI_Menu_Init`, a non-terminal child with command none and a
sibling with command forward, the cursor is the sibling B (address 2), which has
no child, at level 1 under `level_max` 2. `KDI_Menu_Drive` with down then takes the
group branch: the level becomes 2 and the cursor null. On that state the
handler (callbacks registered), forward, backward, up, down, `KDI_Menu_Add_Next`
and `KDI_Menu_Add_Child` all read through the null cursor and have no defined
result. -/
theorem C26_cursor_lost :
    (initThen zeroState (VoidPtr.str "A") TYPE_DATA_CHAR strandCalls).map
      (fun s => (s.menu.pointer, s.menu.level, s.menu.level_max,
                 KDI_MenuItem_GetLinkOnChildMenuItem s.heap s.menu.pointer))
      = some (some 2, 1, 2, some none) ∧
    (initThen zeroState (VoidPtr.str "A") TYPE_DATA_CHAR
        (strandCalls ++ [Op.Drive MENU_COMMAND_DOWN])).map
      (fun s => (s.menu.pointer, s.menu.level, s.menu.level_max)) = some (none, 2, 2) ∧
    (initThen zeroState (VoidPtr.str "A") TYPE_DATA_CHAR
        (strandCalls ++ [Op.Drive MENU_COMMAND_DOWN])).map
      (fun s => [(KDI_Menu_Handler (withCallbacks s)).isSome,
                 (KDI_Menu_Drive s MENU_COMMAND_FORWARD).isSome,
                 (KDI_Menu_Drive s MENU_COMMAND_BACKWARD).isSome,
                 (KDI_Menu_Drive s MENU_COMMAND_UP).isSome,
                 (KDI_Menu_Drive s MENU_COMMAND_DOWN).isSome,
                 (KDI_Menu_Add_Next s (VoidPtr.str "C") TYPE_DATA_CHAR MENU_COMMAND_NO).isSome,
                 (KDI_Menu_Add_Child s (VoidPtr.str "C") TYPE_DATA_CHAR MENU_NO_END
                   MENU_COMMAND_NO).isSome])
      = some [false, false, false, false, false, false, false] := by
  refine ⟨by decide, by decide, by decide⟩

/-! ## C4: the sibling `KDI_Menu_Add_Next` creates, on the states the calls reach -/

theorem childLevel_le (l e : Nat) : childLevel l e ≤ 15 := by
  unfold childLevel bits4
  split_ifs <;> omega

theorem level_max_fits_call {base : Nat} {s s1 : State} {op : Op} (hi : Inv base s)
    (hb : s.menu.level_max ≤ 15) (h : op.call s = some s1) : s1.menu.level_max ≤ 15 := by
  cases op with
  | Start =>
    simp only [Op.call, KDI_Menu_Start, Option.some.injEq] at h
    subst h
    exact hb
  | Drive cmd =>
    rw [(Drive_moved h).2.2.1]
    exact hb
  | Add_Next d t cmd =>
    simp only [Op.call] at h
    cases hp : s.menu.pointer with
    | none =>
      rw [Add_Next_null hp] at h
      exact absurd h (by simp)
    | some c =>
      obtain ⟨hcb, hcl⟩ := hi.2.2 c hp
      obtain ⟨x, hx⟩ := getElem?_of_lt hcl
      obtain ⟨⟨hd, a1, b1, c1⟩, -⟩ := hi.1 c hcb hcl
      obtain ⟨y, hy⟩ := getElem?_of_lt (lt_of_view c1)
      have hn : x.next_item = some hd := by
        simpa [nextOf, hx] using a1
      obtain ⟨s0, h0⟩ := Add_Next_NO_returns hp hx hn hy d t
      rw [Add_Next_cmd hp hx hn hy h0] at h
      rw [(Drive_moved h).2.2.1, Add_Next_NO_menu h0]
      exact hb
  | Add_Child d t e cmd =>
    simp only [Op.call] at h
    cases hp : s.menu.pointer with
    | none =>
      rw [Add_Child_null hp] at h
      exact absurd h (by simp)
    | some c =>
      obtain ⟨hcb, hcl⟩ := hi.2.2 c hp
      obtain ⟨x, hx⟩ := getElem?_of_lt hcl
      rw [Add_Child_eq hp hx d t e cmd] at h
      rw [(Drive_moved h).2.2.1]
      exact max_le hb (childLevel_le _ _)

theorem level_max_fits_callAll {base : Nat} {ops : List Op} {s s1 : State} (hi : Inv base s)
    (hb : s.menu.level_max ≤ 15) (h : callAll s ops = some s1) : s1.menu.level_max ≤ 15 := by
  induction ops generalizing s with
  | nil =>
    simp only [callAll, Option.some.injEq] at h
    exact h ▸ hb
  | cons op ops ih =>
    simp only [callAll, andThen_eq_some] at h
    obtain ⟨s2, h1, h2⟩ := h
    exact ih (Inv_call hi h1) (level_max_fits_call hi hb h1) h2

/-- In every state reached from `KDI_Menu_Init` the level fits the 4-bit field
`level_menu`: level ≤ level_max ≤ 15. -/
theorem level_fits_initThen {s0 s : State} {d : VoidPtr} {t : Nat} {ops : List Op}
    (h : initThen s0 d t ops = some s) :
    s.menu.level ≤ s.menu.level_max ∧ s.menu.level_max ≤ 15 := by
  simp only [initThen, andThen_eq_some] at h
  obtain ⟨s1, h1, h2⟩ := h
  have hb := LevelsOK_callAll (Inv_init h1) (LevelsOK_init h1) h2
  have hm1 : s1.menu.level_max ≤ 15 := by
    rw [Init_eq] at h1
    have e := Option.some.inj h1
    subst e
    simp
  exact ⟨hb.1, level_max_fits_callAll (Inv_init h1) hm1 h2⟩

/-- C4: in every state reached from `KDI_Menu_Init` by calls of `KDI_Menu_Add_Next`,
`KDI_Menu_Add_Child`, `KDI_Menu_Start` and `KDI_Menu_Drive` that all return, with
the cursor on `c`: `c` is an item, its `next_item` is an item `hd` (which may be
`c`), and `KDI_Menu_Add_Next` with command none returns. It creates one item `n`
with the payload and tag given, `last_item` = c, `next_item` = hd, the parent
of `c`, no child, and stored level = the level of the navigator; afterwards
`c.next_item` = n and `hd.last_item` = n, nothing else of `c` and `hd` has changed,
no other item has changed, and the navigator, cursor included, is as before. -/
theorem C4_add_next_links {s0 s : State} {d0 : VoidPtr} {t0 : Nat} {ops : List Op} {c : Nat}
    (h : initThen s0 d0 t0 ops = some s) (hp : s.menu.pointer = some c)
    (d : VoidPtr) (t : KDI_Type_data) :
    ∃ (x y : KDI_Menu_item) (hd : Nat) (s1 : State),
      s.heap[c]? = some x ∧ x.next_item = some hd ∧ s.heap[hd]? = some y ∧
      KDI_Menu_Add_Next s d t.toNat MENU_COMMAND_NO = some s1 ∧
      s1.menu = s.menu ∧ s1.heap.length = s.heap.length + 1 ∧
      s1.heap[s.heap.length]? = some
        { data := d, type := t.toNat, level_menu := s.menu.level,
          last_item := some c, next_item := some hd,
          parent_item := x.parent_item, child_item := none } ∧
      s1.heap[c]? = some { x with next_item := some s.heap.length,
                                  last_item := if hd = c then some s.heap.length
                                               else x.last_item } ∧
      s1.heap[hd]? = some { y with last_item := some s.heap.length,
                                   next_item := if hd = c then some s.heap.length
                                                else y.next_item } ∧
      ∀ i, i ≠ c → i ≠ hd → i ≠ s.heap.length → s1.heap[i]? = s.heap[i]? := by
  have hi := Inv_initThen h
  obtain ⟨hl1, hl2⟩ := level_fits_initThen h
  obtain ⟨hcb, hcl⟩ := hi.2.2 c hp
  obtain ⟨x, hx⟩ := getElem?_of_lt hcl
  obtain ⟨⟨hd, a1, b1, c1⟩, -⟩ := hi.1 c hcb hcl
  obtain ⟨y, hy⟩ := getElem?_of_lt (lt_of_view c1)
  have hn : x.next_item = some hd := by
    simpa [nextOf, hx] using a1
  obtain ⟨s1, h1, h2, h3, h4, -, h5, h6, h7⟩ := Add_Next_links hp hx hn hy d t
  have e : s.menu.level % 16 = s.menu.level := Nat.mod_eq_of_lt (by omega)
  rw [e] at h4
  exact ⟨x, y, hd, s1, hx, hn, hy, h1, h2, h3, h4, h5, h6, h7⟩

/-- C4 on the usage example, the cursor on A1 (address 1, its own `next_item`) at
level 2: the new sibling is at address 3, between A1 and A1, under the root, and
stores level 2; the navigator is as before. -/
theorem C4_add_next_links_witness :
    initThen zeroState (VoidPtr.str "A") TYPE_DATA_CHAR usageCalls = some usageState ∧
    usageState.menu.pointer = some 1 ∧
    ∃ s1 : State,
      KDI_Menu_Add_Next usageState (VoidPtr.str "B") KDI_Type_data.CHAR.toNat MENU_COMMAND_NO
        = some s1 ∧
      s1.menu = usageState.menu ∧ s1.heap.length = 4 ∧
      s1.heap[3]? = some
        { data := VoidPtr.str "B", type := 1, level_menu := 2, last_item := some 1,
          next_item := some 1, parent_item := some 0, child_item := none } := by
  refine ⟨by decide, rfl, ?_⟩
  obtain ⟨x, y, hd, s1, hx, hn, hy, h1, h2, h3, h4, -⟩ :=
    @C4_add_next_links zeroState usageState (VoidPtr.str "A") TYPE_DATA_CHAR usageCalls 1
      (by decide) rfl (VoidPtr.str "B") KDI_Type_data.CHAR
  have ex : x = { data := VoidPtr.str "A1", type := TYPE_DATA_CHAR, level_menu := 2,
                  last_item := some 1, next_item := some 1, parent_item := some 0,
                  child_item := some 2 } := (Option.some.inj hx).symm
  subst ex
  have eh : hd = 1 := (Option.some.inj hn).symm
  subst eh
  exact ⟨s1, h1, h2, h3, h4⟩

end KDI
